import Mathlib

/-! # genqlient: the type-conversion engine (`generate/convert.go`)

A shallow embedding of `generate/convert.go`.  The generator's mutable state is
passed explicitly.  Go pointers to generated nodes (`*goStructType`,
`*goInterfaceType`, `*goEnumType`) are addresses into a heap, so that the
aliasing between the registry `typeMap` and a node that is still being filled
is kept.  The mutually recursive functions `convertType`, `convertDefinition`
and `convertField` take a fuel argument, since the Go recursion is not total.
A nil dereference of the Go code is the outcome `Outcome.nilDeref`.

Source positions only decorate error messages and are left out, except as the
key under which the comment preceding a selection is looked up.
-/

namespace Genqlient

/-! ## Schema and operation syntax (package `ast` of gqlparser) -/

/-- The kinds of `ast.DefinitionKind`; the Go type is a string, `Other` stands
for any value outside the six named constants. -/
inductive DefinitionKind where
  | Scalar
  | Object
  | Interface
  | Union
  | Enum
  | InputObject
  | Other (raw : String)
  deriving DecidableEq, Repr

/-- The type expression `ast.Type`: a named type, or a list (`Elem != nil`). -/
inductive AstType where
  | named (NamedType : String) (NonNull : Bool)
  | list (Elem : AstType) (NonNull : Bool)
  deriving DecidableEq, Repr

/-- The method `Type.Name()`: the name of the innermost named type. -/
def AstType.Name : AstType → String
  | .named n _ => n
  | .list e _ => e.Name

/-- The number of list levels around the named type. -/
def AstType.listDepth : AstType → Nat
  | .named _ _ => 0
  | .list e _ => e.listDepth + 1

/-- The struct `ast.FieldDefinition`, as far as the converter reads it. -/
structure FieldDefinition where
  Name : String
  Description : String
  Type_ : AstType
  deriving DecidableEq, Repr

/-- The struct `ast.EnumValueDefinition`. -/
structure EnumValueDefinition where
  Name : String
  Description : String
  deriving DecidableEq, Repr

/-- The struct `ast.Definition`, as far as the converter reads it. -/
structure Definition where
  Kind : DefinitionKind
  Description : String
  Name : String
  Fields : List FieldDefinition
  EnumValues : List EnumValueDefinition
  deriving DecidableEq, Repr

/-- The struct `ast.Schema`: Go maps are association lists read with
`List.lookup`; a nil `*ast.Definition` is `none`. -/
structure Schema where
  Query : Option Definition
  Mutation : Option Definition
  Subscription : Option Definition
  Types : List (String × Definition)
  PossibleTypes : List (String × List Definition)
  deriving Repr

/-- The method `Schema.GetPossibleTypes` of gqlparser: the entry of the
`PossibleTypes` map under the name of the definition (empty when absent). -/
def Schema.GetPossibleTypes (s : Schema) (d : Definition) : List Definition :=
  (s.PossibleTypes.lookup d.Name).getD []

/-- Source positions, kept only as keys for the comment lookup. -/
abbrev Position := Nat

/-- The three implementations of `ast.Selection`.  A field carries its alias,
its schema name, its resolved definition (nil when unresolved) and its
sub-selection. -/
inductive Selection where
  | Field (Alias Name : String) (Definition : Option FieldDefinition)
      (SelectionSet : List Selection) (Position : Position)
  | FragmentSpread (Name : String) (Position : Position)
  | InlineFragment (TypeCondition : String) (SelectionSet : List Selection)
      (Position : Position)

/-- The method `Selection.GetPosition`. -/
def Selection.GetPosition : Selection → Position
  | .Field _ _ _ _ p => p
  | .FragmentSpread _ p => p
  | .InlineFragment _ _ p => p

/-- The operation kinds of `ast.Operation`; the Go type is a string. -/
inductive Operation where
  | Query
  | Mutation
  | Subscription
  | Other (raw : String)
  deriving DecidableEq, Repr

/-- The struct `ast.OperationDefinition`, as far as the converter reads it. -/
structure OperationDefinition where
  Operation : Operation
  Name : String
  SelectionSet : List Selection

/-! ## Options -/

/-- Modelled from the spec: the type `GenqlientDirective` is declared outside
the sources at hand.  The spec describes a resolved, mergeable configuration
value exposing "wrap in an optional/pointer wrapper"; an option may be unset. -/
structure GenqlientDirective where
  Pointer : Option Bool
  deriving DecidableEq, Repr

/-- Modelled from the spec: `GetPointer` is declared outside the sources at
hand; the option requests wrapping when it is set, and set to true. -/
def GenqlientDirective.GetPointer (dir : GenqlientDirective) : Bool :=
  dir.Pointer == some true

/-- Modelled from the spec: `merge` is declared outside the sources at hand;
the spec says that merge is "child overrides parent unless unset". -/
def GenqlientDirective.merge (dir other : GenqlientDirective) : GenqlientDirective :=
  match other.Pointer with
  | some b => { Pointer := some b }
  | none => dir

/-! ## Generated type nodes (`goType`) -/

/-- Addresses of heap-allocated nodes. -/
abbrev Addr := Nat

/-- A value of the Go interface `goType`: nil, or a pointer to one of the six
node types.  Opaque, slice and pointer nodes are never mutated and are kept by
value; struct, interface and enum nodes are kept by address. -/
inductive goType where
  | nil
  | opaqueRef (GoRef : String)
  | slice (Elem : goType)
  | pointer (Elem : goType)
  | structPtr (addr : Addr)
  | interfacePtr (addr : Addr)
  | enumPtr (addr : Addr)
  deriving DecidableEq, Repr

/-- The struct `goStructField`. -/
structure goStructField where
  GoName : String
  GoType : goType
  JSONName : String
  Description : String
  deriving DecidableEq, Repr

/-- The struct `goStructType`; a slot of `Fields` is nil (`none`) until it is
assigned. -/
structure goStructType where
  GoName : String
  Description : String
  GraphQLName : String
  Fields : List (Option goStructField)
  Incomplete : Bool
  deriving DecidableEq, Repr

/-- The struct `goInterfaceType`; a slot of `Implementations` holds a
`*goStructType`, nil until it is assigned. -/
structure goInterfaceType where
  GoName : String
  Description : String
  GraphQLName : String
  Implementations : List (Option Addr)
  deriving DecidableEq, Repr

/-- The struct `goEnumValue`. -/
structure goEnumValue where
  Name : String
  Description : String
  deriving DecidableEq, Repr

/-- The struct `goEnumType`. -/
structure goEnumType where
  GoName : String
  Description : String
  Values : List goEnumValue
  deriving DecidableEq, Repr

/-- A heap cell: one allocated struct, interface or enum node. -/
inductive goNode where
  | struct (s : goStructType)
  | iface (i : goInterfaceType)
  | enum (e : goEnumType)
  deriving DecidableEq, Repr

/-- The generated name of a node. -/
def goNode.GoName : goNode → String
  | .struct s => s.GoName
  | .iface i => i.GoName
  | .enum e => e.GoName

/-! ## Errors -/

/-- One constructor per `errorf` call site of `convert.go`, with the arguments
of its format string; `external` is an error returned by a helper defined
outside the sources at hand (`addRef`, `parsePrecedingComment`). -/
inductive GenError where
  | subscriptionsNotSupported
  | unexpectedOperation (op : String)
  | definedTwice (name : String) (defn : goType)
  | notImplementedSelection (goTypeName : String)
  | notImplementedKind (kind : DefinitionKind)
  | mustRequestTypename (defName : String)
  | nonObjectImplementation (defName implName : String)
  | unknownScalar (name : String)
  | unexpectedKind (kind : DefinitionKind)
  | undefinedField (fieldAlias : String)
  | external (msg : String)
  deriving DecidableEq, Repr

/-! ## The generator -/

/-- The part of `Config` the converter reads. -/
structure Config where
  Scalars : List (String × String)
  AllowBrokenFeatures : Bool

/-- The immutable part of `generator`.  The methods `addRef` and
`parsePrecedingComment` are defined outside the sources at hand and are taken
as parameters: `addRef` returns the reference and an error (its bookkeeping
of imports is not part of the state), `parsePrecedingComment` returns the
directive found before a position and an error. -/
structure Generator where
  Config : Config
  schema : Schema
  addRef : String → String × Option GenError
  parsePrecedingComment : Position → GenqlientDirective × Option GenError

/-- The mutable part of `generator`: the registry `typeMap` and the heap the
registered pointers point into. -/
structure State where
  typeMap : List (String × goType)
  heap : List goNode
  deriving DecidableEq, Repr

/-- The empty registry of a fresh run. -/
def State.empty : State := { typeMap := [], heap := [] }

/-- Allocation of a new node: its address is the next free one. -/
def State.alloc (st : State) (n : goNode) : Addr × State :=
  (st.heap.length, { st with heap := st.heap ++ [n] })

/-- The map assignment `g.typeMap[name] = t`. -/
def State.register (st : State) (name : String) (t : goType) : State :=
  { st with typeMap := (name, t) :: st.typeMap.filter (fun p => p.1 != name) }

/-- The assignment `Fields[i] = f` on a heap cell holding a struct. -/
def goNode.setField (i : Nat) (f : Option goStructField) : goNode → goNode
  | .struct s => .struct { s with Fields := s.Fields.set i f }
  | other => other

/-- The assignment `Implementations[i] = impl` on a heap cell holding an
interface. -/
def goNode.setImplementation (i : Nat) (impl : Option Addr) : goNode → goNode
  | .iface t => .iface { t with Implementations := t.Implementations.set i impl }
  | other => other

/-- The assignments `Description = d` and `Incomplete = false` on a heap cell
holding a struct. -/
def goNode.setRoot (d : String) : goNode → goNode
  | .struct s => .struct { s with Description := d, Incomplete := false }
  | other => other

/-- The assignment `goType.Fields[i] = f` on the struct at `addr`. -/
def State.setField (st : State) (addr : Addr) (i : Nat) (f : Option goStructField) : State :=
  { st with heap := List.modify (goNode.setField i f) addr st.heap }

/-- The assignment `goType.Implementations[i] = impl` on the interface at
`addr`. -/
def State.setImplementation (st : State) (addr : Addr) (i : Nat) (impl : Option Addr) : State :=
  { st with heap := List.modify (goNode.setImplementation i impl) addr st.heap }

/-- The two assignments of `convertOperation` on the root struct:
`structType.Description = d` and `structType.Incomplete = false`. -/
def State.setRoot (st : State) (addr : Addr) (d : String) : State :=
  { st with heap := List.modify (goNode.setRoot d) addr st.heap }

/-- What a call does: it returns a value in a new state, dereferences nil, or
the fuel of the embedding ran out. -/
inductive Outcome (α : Type) where
  | ok (val : α) (st : State)
  | nilDeref
  | outOfFuel
  deriving DecidableEq, Repr

/-- The Go result pair `(goType, error)`. -/
abbrev Ret := goType × Option GenError

/-! ## String helpers -/

/-- Modelled from the spec: `upperFirst` is defined outside the sources at
hand; the spec calls its result the "capitalized" name: the first character is
upper-cased, the rest is kept.  The theorems about `typeName` use nothing of
it; the examples use names that start with a letter. -/
def upperFirst (s : String) : String :=
  match s.data with
  | [] => s
  | c :: cs => String.mk (c.toUpper :: cs)

/-- Modelled from the spec: `lowerFirst`, the counterpart of `upperFirst`. -/
def lowerFirst (s : String) : String :=
  match s.data with
  | [] => s
  | c :: cs => String.mk (c.toLower :: cs)

/-- Modelled from the spec: `matchFirst` is defined outside the sources at
hand; the spec says the input type name is "matched/cased against the enclosing
operation's own name": the case of the first character of `s` follows that of
the first character of `ref`. -/
def matchFirst (s ref : String) : String :=
  match ref.data with
  | [] => s
  | c :: _ => if c.isUpper then upperFirst s else lowerFirst s

/-- The library function `strings.HasSuffix`.  Go compares bytes; on valid
UTF-8 strings a byte suffix that is itself a valid string is a suffix of the
character sequence, which is what is compared here. -/
def hasSuffix (s suffix : String) : Bool :=
  suffix.data.isSuffixOf s.data

/-! ## `convert.go` -/

/-- The table `builtinTypes`. -/
def builtinTypes : List (String × String) :=
  [("Int", "int"), ("Float", "float64"), ("String", "string"),
   ("Boolean", "bool"), ("ID", "string")]

/-- The method `generator.typeName`: the pair `(name, nextPrefix)`. -/
def typeName (namePrefix : String) (typ : Definition) : String × String :=
  let typeGoName := upperFirst typ.Name
  if typ.Kind = .Enum ∨ typ.Kind = .InputObject then
    (typeGoName, typeGoName)
  else
    let name := if !hasSuffix namePrefix typeGoName then namePrefix ++ typeGoName else namePrefix
    if typ.Kind = .Interface ∨ typ.Kind = .Union then
      (name, namePrefix)
    else
      (name, name)

/-- Sequencing of calls: a nil dereference or the end of the fuel in the first
call ends the whole computation. -/
def Outcome.bind {α β : Type} (x : Outcome α) (f : α → State → Outcome β) : Outcome β :=
  match x with
  | .ok v st => f v st
  | .nilDeref => .nilDeref
  | .outOfFuel => .outOfFuel

/-- The signature of `generator.convertDefinition` (the position argument is
left out). -/
abbrev ConvDef :=
  String → String → Definition → List Selection → GenqlientDirective → State → Outcome Ret

/-- The method `generator.convertType`, with the `convertDefinition` it calls
as a parameter; the recursion is on the list levels of `typ`.  When the schema
has no definition under `typ.Name()`, `def` is nil and `convertDefinition`
dereferences it on its first line. -/
def convertTypeWith (g : Generator) (convDef : ConvDef) (name namePrefix : String)
    (typ : AstType) (selectionSet : List Selection)
    (options queryOptions : GenqlientDirective) (st : State) : Outcome Ret :=
  match typ with
  | .list elem _ =>
    (convertTypeWith g convDef name namePrefix elem selectionSet options queryOptions st).bind
      fun r st1 => .ok (.slice r.1, r.2) st1
  | .named n _ =>
    match g.schema.Types.lookup n with
    | none => .nilDeref
    | some d =>
      (convDef name namePrefix d selectionSet queryOptions st).bind
        fun r st1 => .ok (if options.GetPointer then .pointer r.1 else r.1, r.2) st1

/-- The method `generator.convertField`, with the `convertDefinition` it
reaches as a parameter; the field is given by its `Alias`, `Definition` and
`SelectionSet`.  When the schema has no definition under the name of the
field's type, `typeName` dereferences nil. -/
def convertFieldWith (g : Generator) (convDef : ConvDef) (namePrefix : String)
    (fieldAlias : String) (fieldDefinition : Option FieldDefinition)
    (fieldSelectionSet : List Selection)
    (fieldOptions queryOptions : GenqlientDirective) (st : State) :
    Outcome (Option goStructField × Option GenError) :=
  match fieldDefinition with
  | none => .ok (none, some (.undefinedField fieldAlias)) st
  | some fd =>
    match g.schema.Types.lookup fd.Type_.Name with
    | none => .nilDeref
    | some fieldTypedef =>
      (convertTypeWith g convDef
          (typeName (namePrefix ++ upperFirst fieldAlias) fieldTypedef).1
          (typeName (namePrefix ++ upperFirst fieldAlias) fieldTypedef).2
          fd.Type_ fieldSelectionSet fieldOptions queryOptions st).bind
        fun r st1 =>
          match r.2 with
          | some err => .ok (none, some err) st1
          | none =>
            .ok (some { GoName := upperFirst fieldAlias, GoType := r.1,
                        JSONName := fieldAlias, Description := fd.Description }, none) st1

/-- The loop over the selection set in the `ast.Object` case of
`convertDefinition`, from index `i` on; the result is the error the loop
returns with, if any.  The assignment to `Fields[i]` is made before the error
of `convertField` is looked at, as in the source. -/
def convertSelections (g : Generator) (convDef : ConvDef) (addr : Addr)
    (namePrefix : String) (queryOptions : GenqlientDirective) :
    Nat → List Selection → State → Outcome (Option GenError)
  | _, [], st => .ok none st
  | i, selection :: rest, st =>
    match (g.parsePrecedingComment selection.GetPosition).2 with
    | some err => .ok (some err) st
    | none =>
      match selection with
      | .Field fieldAlias _ fieldDefinition fieldSelectionSet _ =>
        (convertFieldWith g convDef namePrefix fieldAlias fieldDefinition fieldSelectionSet
            (queryOptions.merge (g.parsePrecedingComment selection.GetPosition).1)
            queryOptions st).bind
          fun r st1 =>
            match r.2 with
            | some err => .ok (some err) (st1.setField addr i r.1)
            | none =>
              convertSelections g convDef addr namePrefix queryOptions (i + 1) rest
                (st1.setField addr i r.1)
      | .FragmentSpread _ _ => .ok (some (.notImplementedSelection "*ast.FragmentSpread")) st
      | .InlineFragment _ _ _ => .ok (some (.notImplementedSelection "*ast.InlineFragment")) st

/-- The loop over the schema fields in the `ast.InputObject` case of
`convertDefinition`, from index `i` on. -/
def convertInputFields (g : Generator) (convDef : ConvDef) (addr : Addr)
    (queryOptions : GenqlientDirective) :
    Nat → List FieldDefinition → State → Outcome (Option GenError)
  | _, [], st => .ok none st
  | i, field :: rest, st =>
    (convertTypeWith g convDef field.Type_.Name "" field.Type_ []
        queryOptions queryOptions st).bind
      fun r st1 =>
        match r.2 with
        | some err => .ok (some err) st1
        | none =>
          convertInputFields g convDef addr queryOptions (i + 1) rest
            (st1.setField addr i
              (some { GoName := upperFirst field.Name, GoType := r.1,
                      JSONName := field.Name, Description := field.Description }))

/-- The loop over the possible types in the `ast.Interface, ast.Union` case of
`convertDefinition`, from index `i` on. -/
def convertImplementations (g : Generator) (convDef : ConvDef) (addr : Addr)
    (defName namePrefix : String) (selectionSet : List Selection)
    (queryOptions : GenqlientDirective) :
    Nat → List Definition → State → Outcome (Option GenError)
  | _, [], st => .ok none st
  | i, implDef :: rest, st =>
    (convDef (typeName namePrefix implDef).1 (typeName namePrefix implDef).2 implDef
        selectionSet queryOptions st).bind
      fun r st1 =>
        match r.2 with
        | some err => .ok (some err) st1
        | none =>
          match r.1 with
          | .structPtr a =>
            convertImplementations g convDef addr defName namePrefix selectionSet queryOptions
              (i + 1) rest (st1.setImplementation addr i (some a))
          | _ => .ok (some (.nonObjectImplementation defName implDef.Name)) st1

/-- The loop that computes `hasTypename`. -/
def hasTypename (selectionSet : List Selection) : Bool :=
  selectionSet.any fun selection =>
    match selection with
    | .Field _ fieldName _ _ _ => fieldName == "__typename"
    | _ => false

/-- The end of a case of `convertDefinition`: `return nil, err` when the loop
returned with an error, `return goType, nil` otherwise. -/
def finish (t : goType) (err : Option GenError) (st : State) : Outcome Ret :=
  match err with
  | some e => .ok (.nil, some e) st
  | none => .ok (t, none) st

/-- The case `ast.Object` of `convertDefinition`. -/
def convertObject (g : Generator) (convDef : ConvDef) (name namePrefix : String)
    (d : Definition) (selectionSet : List Selection) (queryOptions : GenqlientDirective)
    (st : State) : Outcome Ret :=
  (convertSelections g convDef st.heap.length namePrefix queryOptions 0 selectionSet
      ((st.alloc (.struct
          { GoName := name, Description := d.Description, GraphQLName := d.Name,
            Fields := List.replicate selectionSet.length none,
            Incomplete := true })).2.register name (.structPtr st.heap.length))).bind
    (finish (.structPtr st.heap.length))

/-- The case `ast.InputObject` of `convertDefinition`. -/
def convertInputObject (g : Generator) (convDef : ConvDef) (name : String)
    (d : Definition) (queryOptions : GenqlientDirective) (st : State) : Outcome Ret :=
  (convertInputFields g convDef st.heap.length queryOptions 0 d.Fields
      ((st.alloc (.struct
          { GoName := name, Description := d.Description, GraphQLName := d.Name,
            Fields := List.replicate d.Fields.length none,
            Incomplete := false })).2.register name (.structPtr st.heap.length))).bind
    (finish (.structPtr st.heap.length))

/-- The case `ast.Interface, ast.Union` of `convertDefinition`. -/
def convertInterface (g : Generator) (convDef : ConvDef) (name namePrefix : String)
    (d : Definition) (selectionSet : List Selection) (queryOptions : GenqlientDirective)
    (st : State) : Outcome Ret :=
  if !g.Config.AllowBrokenFeatures then
    .ok (.nil, some (.notImplementedKind d.Kind)) st
  else if !hasTypename selectionSet then
    .ok (.nil, some (.mustRequestTypename d.Name)) st
  else
    (convertImplementations g convDef st.heap.length d.Name namePrefix selectionSet
        queryOptions 0 (g.schema.GetPossibleTypes d)
        ((st.alloc (.iface
            { GoName := name, Description := d.Description, GraphQLName := d.Name,
              Implementations := List.replicate (g.schema.GetPossibleTypes d).length none
            })).2.register name (.interfacePtr st.heap.length))).bind
      (finish (.interfacePtr st.heap.length))

/-- The case `ast.Enum` of `convertDefinition`; the loop that fills `Values`
calls nothing and is written as a map. -/
def convertEnum (name : String) (d : Definition) (st : State) : Outcome Ret :=
  .ok (.enumPtr st.heap.length, none)
    ((st.alloc (.enum
        { GoName := name, Description := d.Description,
          Values := d.EnumValues.map
            fun val => { Name := val.Name, Description := val.Description } })).2.register
      name (.enumPtr st.heap.length))

/-- The body of `generator.convertDefinition`, with the `convertDefinition` of
its recursive calls as a parameter. -/
def convertDefinitionStep (g : Generator) (convDef : ConvDef) (name namePrefix : String)
    (d : Definition) (selectionSet : List Selection) (queryOptions : GenqlientDirective)
    (st : State) : Outcome Ret :=
  match g.Config.Scalars.lookup d.Name with
  | some qualifiedGoName =>
    .ok (.opaqueRef (g.addRef qualifiedGoName).1, (g.addRef qualifiedGoName).2) st
  | none =>
    match builtinTypes.lookup d.Name with
    | some goBuiltinName => .ok (.opaqueRef goBuiltinName, none) st
    | none =>
      match d.Kind with
      | .Object => convertObject g convDef name namePrefix d selectionSet queryOptions st
      | .InputObject => convertInputObject g convDef name d queryOptions st
      | .Interface => convertInterface g convDef name namePrefix d selectionSet queryOptions st
      | .Union => convertInterface g convDef name namePrefix d selectionSet queryOptions st
      | .Enum => convertEnum name d st
      | .Scalar => .ok (.nil, some (.unknownScalar d.Name)) st
      | .Other raw => .ok (.nil, some (.unexpectedKind (.Other raw))) st

/-- The method `generator.convertDefinition`: each level of the Go recursion
uses one unit of fuel. -/
def convertDefinition (g : Generator) : Nat → ConvDef
  | 0 => fun _ _ _ _ _ _ => .outOfFuel
  | fuel + 1 => convertDefinitionStep g (convertDefinition g fuel)

/-- The method `generator.convertType`. -/
def convertType (g : Generator) (fuel : Nat) (name namePrefix : String)
    (typ : AstType) (selectionSet : List Selection)
    (options queryOptions : GenqlientDirective) (st : State) : Outcome Ret :=
  convertTypeWith g (convertDefinition g fuel) name namePrefix typ selectionSet
    options queryOptions st

/-- The method `generator.convertField`. -/
def convertField (g : Generator) (fuel : Nat) (namePrefix : String)
    (fieldAlias : String) (fieldDefinition : Option FieldDefinition)
    (fieldSelectionSet : List Selection)
    (fieldOptions queryOptions : GenqlientDirective) (st : State) :
    Outcome (Option goStructField × Option GenError) :=
  convertFieldWith g (convertDefinition g fuel) namePrefix fieldAlias fieldDefinition
    fieldSelectionSet fieldOptions queryOptions st

/-- The method `generator.convertInputType`. -/
def convertInputType (g : Generator) (fuel : Nat) (opName : String) (typ : AstType)
    (options queryOptions : GenqlientDirective) (st : State) : Outcome Ret :=
  convertType g fuel (matchFirst typ.Name opName) "" typ [] options queryOptions st

/-- The method `generator.baseTypeForOperation`. -/
def baseTypeForOperation (g : Generator) (operation : Operation) :
    Option Definition × Option GenError :=
  match operation with
  | .Query => (g.schema.Query, none)
  | .Mutation => (g.schema.Mutation, none)
  | .Subscription =>
    if !g.Config.AllowBrokenFeatures then (none, some .subscriptionsNotSupported)
    else (g.schema.Subscription, none)
  | .Other raw => (none, some (.unexpectedOperation raw))

/-- The method `generator.convertOperation`.  The error of
`baseTypeForOperation` is passed on with the position of the operation added,
that is, unchanged here; a nil base type is dereferenced by
`convertDefinition`. -/
def convertOperation (g : Generator) (fuel : Nat) (operation : OperationDefinition)
    (queryOptions : GenqlientDirective) (st : State) : Outcome Ret :=
  match st.typeMap.lookup (operation.Name ++ "Response") with
  | some d => .ok (.nil, some (.definedTwice (operation.Name ++ "Response") d)) st
  | none =>
    match (baseTypeForOperation g operation.Operation).2 with
    | some err => .ok (.nil, some err) st
    | none =>
      match (baseTypeForOperation g operation.Operation).1 with
      | none => .nilDeref
      | some baseType =>
        (convertDefinition g fuel (operation.Name ++ "Response") operation.Name baseType
            operation.SelectionSet queryOptions st).bind
          fun r st1 =>
            match r.1 with
            | .structPtr a =>
              .ok r (st1.setRoot a
                ((operation.Name ++ "Response") ++ " is returned by " ++ operation.Name
                  ++ " on success."))
            | _ => .ok r st1

/-! ## Predicates used to state the properties -/

/-- The immutable part of a node: the node without its `Fields` or
`Implementations` slots. -/
def goNode.header : goNode → goNode
  | .struct s => .struct { s with Fields := [] }
  | .iface i => .iface { i with Implementations := [] }
  | .enum e => .enum e

/-- The heap `h2` extends `h1`: every cell of `h1` is still there, unchanged. -/
def HeapExt (h1 h2 : List goNode) : Prop :=
  h1.length ≤ h2.length ∧ ∀ a, a < h1.length → h2[a]? = h1[a]?

/-- The heap `h2` extends `h1` except that the slots of the cell at `addr` may
have been assigned. -/
def LoopExt (addr : Addr) (h1 h2 : List goNode) : Prop :=
  h1.length ≤ h2.length ∧
  ∀ a, a < h1.length →
    (a ≠ addr → h2[a]? = h1[a]?) ∧ (h2[a]?).map goNode.header = (h1[a]?).map goNode.header

/-- Every key of the registry `m1` is a key of `m2`. -/
def KeysKept (m1 m2 : List (String × goType)) : Prop :=
  ∀ k, (m1.lookup k).isSome = true → (m2.lookup k).isSome = true

/-- The value `t` returned for the generated name `name` is nil, an opaque
reference, or a pointer to a node of the heap `h` whose generated name is
`name`; it is never a slice or a pointer wrapper. -/
def Named (name : String) (t : goType) (h : List goNode) : Prop :=
  match t with
  | .nil => True
  | .opaqueRef _ => True
  | .slice _ => False
  | .pointer _ => False
  | .structPtr b => ∃ s, h[b]? = some (.struct s) ∧ s.GoName = name
  | .interfacePtr b => ∃ i, h[b]? = some (.iface i) ∧ i.GoName = name
  | .enumPtr b => ∃ e, h[b]? = some (.enum e) ∧ e.GoName = name

/-- What every call of `convertDefinition` guarantees when it returns: the
heap is extended, the registry keeps its keys, and the returned value is a
node named `name`. -/
def ConvDef.Sound (convDef : ConvDef) : Prop :=
  ∀ name namePrefix d selectionSet queryOptions st r st1,
    convDef name namePrefix d selectionSet queryOptions st = .ok r st1 →
      HeapExt st.heap st1.heap ∧ KeysKept st.typeMap st1.typeMap ∧ Named name r.1 st1.heap

/-- The value `t` inside `n` slice wrappers. -/
def wrapSlices : Nat → goType → goType
  | 0, t => t
  | n + 1, t => .slice (wrapSlices n t)

/-- The last step of `convertType`, at the named type: the definition is
looked up in the schema and converted. -/
def convertNamed (g : Generator) (convDef : ConvDef) (name namePrefix typeName_ : String)
    (selectionSet : List Selection) (queryOptions : GenqlientDirective) (st : State) :
    Outcome Ret :=
  match g.schema.Types.lookup typeName_ with
  | none => .nilDeref
  | some d => convDef name namePrefix d selectionSet queryOptions st

/-- The named node under the slice and pointer wrappers of a value. -/
def goType.core : goType → goType
  | .slice e => e.core
  | .pointer e => e.core
  | t => t

/-- The value is a slice or pointer wrapper. -/
def goType.isWrapper : goType → Bool
  | .slice _ => true
  | .pointer _ => true
  | _ => false

/-- A pointer wrapper occurs among the wrappers of the value. -/
def goType.hasPointer : goType → Bool
  | .slice e => e.hasPointer
  | .pointer _ => true
  | _ => false

/-- A pointer wrapper stands directly around a slice wrapper somewhere among
the wrappers of the value. -/
def goType.pointerAroundSlice : goType → Bool
  | .slice e => e.pointerAroundSlice
  | .pointer (.slice _) => true
  | .pointer e => e.pointerAroundSlice
  | _ => false

/-! ## Example inputs -/

/-- An object type of a schema. -/
def objectDef (name : String) (fields : List FieldDefinition) : Definition :=
  { Kind := .Object, Description := "", Name := name, Fields := fields, EnumValues := [] }

/-- A schema field without description. -/
def fieldDef (name : String) (typ : AstType) : FieldDefinition :=
  { Name := name, Description := "", Type_ := typ }

/-- A generator over the given schema and configuration, whose `addRef` returns
the name it is given and in whose documents no selection is preceded by a
directive. -/
def exampleGenerator (config : Config) (schema : Schema) : Generator :=
  { Config := config, schema := schema,
    addRef := fun s => (s, none),
    parsePrecedingComment := fun _ => ({ Pointer := none }, none) }

/-- The options of an operation without directive. -/
def noOptions : GenqlientDirective := { Pointer := none }

/-- The type `User` of the example schema. -/
def userDef : Definition :=
  objectDef "User" [fieldDef "id" (.named "ID" true), fieldDef "name" (.named "String" false)]

/-- The root type of the example schema:
`type Query { user: User  users: [[User]]  response: Response }`. -/
def queryDef : Definition :=
  objectDef "Query"
    [fieldDef "user" (.named "User" false),
     fieldDef "users" (.list (.list (.named "User" false) false) false),
     fieldDef "response" (.named "Response" false)]

/-- The type `Response` of the example schema: `type Response { x: String }`. -/
def responseDef : Definition :=
  objectDef "Response" [fieldDef "x" (.named "String" false)]

/-- The example schema. -/
def exampleSchema : Schema :=
  { Query := some queryDef, Mutation := none, Subscription := none,
    Types := [("Query", queryDef), ("User", userDef), ("Response", responseDef),
              ("String", { Kind := .Scalar, Description := "", Name := "String",
                           Fields := [], EnumValues := [] }),
              ("ID", { Kind := .Scalar, Description := "", Name := "ID",
                       Fields := [], EnumValues := [] })],
    PossibleTypes := [] }

/-- The generator of the examples: no scalar bindings, experimental features
off. -/
def exampleGen : Generator :=
  exampleGenerator { Scalars := [], AllowBrokenFeatures := false } exampleSchema

/-- The same generator with the root type name `Query` bound as a scalar in
the configuration. -/
def boundRootGen : Generator :=
  exampleGenerator { Scalars := [("Query", "mypkg.Query")], AllowBrokenFeatures := false }
    exampleSchema

/-- A field selection without sub-selection. -/
def leafSel (fieldAlias fieldName : String) (typ : AstType) : Selection :=
  .Field fieldAlias fieldName (some (fieldDef fieldName typ)) [] 0

/-- The operation `query GetUser { user { id } }`. -/
def getUserOp : OperationDefinition :=
  { Operation := .Query, Name := "GetUser",
    SelectionSet :=
      [.Field "user" "user" (some (fieldDef "user" (.named "User" false)))
        [leafSel "id" "id" (.named "ID" true)] 0] }

/-- The registry and heap after `getUserOp` was converted in a fresh run. -/
def getUserState : State :=
  { typeMap := [("GetUserUser", .structPtr 1), ("GetUserResponse", .structPtr 0)],
    heap :=
      [.struct { GoName := "GetUserResponse",
                 Description := "GetUserResponse is returned by GetUser on success.",
                 GraphQLName := "Query",
                 Fields := [some { GoName := "User", GoType := .structPtr 1,
                                   JSONName := "user", Description := "" }],
                 Incomplete := false },
       .struct { GoName := "GetUserUser", Description := "", GraphQLName := "User",
                 Fields := [some { GoName := "Id", GoType := .opaqueRef "string",
                                   JSONName := "id", Description := "" }],
                 Incomplete := true }] }

/-- The type `Article` of the union example. -/
def articleDef : Definition := objectDef "Article" [fieldDef "id" (.named "ID" true)]

/-- The type `Video` of the union example. -/
def videoDef : Definition := objectDef "Video" [fieldDef "id" (.named "ID" true)]

/-- The union `LeafContent = Article | Video`. -/
def leafContentDef : Definition :=
  { Kind := .Union, Description := "LeafContent represents content items.",
    Name := "LeafContent", Fields := [], EnumValues := [] }

/-- The root type of the union example: `type Query { randomLeaf: LeafContent }`. -/
def unionQueryDef : Definition :=
  objectDef "Query" [fieldDef "randomLeaf" (.named "LeafContent" false)]

/-- The schema of the union example. -/
def unionSchema : Schema :=
  { Query := some unionQueryDef, Mutation := none, Subscription := none,
    Types := [("Query", unionQueryDef), ("LeafContent", leafContentDef),
              ("Article", articleDef), ("Video", videoDef),
              ("String", { Kind := .Scalar, Description := "", Name := "String",
                           Fields := [], EnumValues := [] }),
              ("ID", { Kind := .Scalar, Description := "", Name := "ID",
                       Fields := [], EnumValues := [] })],
    PossibleTypes := [("LeafContent", [articleDef, videoDef])] }

/-- The generator of the union example, experimental features on. -/
def unionGen : Generator :=
  exampleGenerator { Scalars := [], AllowBrokenFeatures := true } unionSchema

/-- The same generator with the union name `LeafContent` bound as a scalar in
the configuration. -/
def boundUnionGen : Generator :=
  exampleGenerator { Scalars := [("LeafContent", "mypkg.Leaf")], AllowBrokenFeatures := true }
    unionSchema

/-- The selection `typename: __typename`. -/
def typenameSel : Selection := leafSel "typename" "__typename" (.named "String" true)

/-- The state after the field `randomLeaf { __typename }` was converted under
the prefix `UnionNoFragmentsQuery` in a fresh run, with the selection
`typename: __typename`. -/
def randomLeafState : State :=
  { typeMap := [("UnionNoFragmentsQueryRandomLeafVideo", .structPtr 2),
                ("UnionNoFragmentsQueryRandomLeafArticle", .structPtr 1),
                ("UnionNoFragmentsQueryRandomLeafLeafContent", .interfacePtr 0)],
    heap :=
      [.iface { GoName := "UnionNoFragmentsQueryRandomLeafLeafContent",
                Description := "LeafContent represents content items.",
                GraphQLName := "LeafContent", Implementations := [some 1, some 2] },
       .struct { GoName := "UnionNoFragmentsQueryRandomLeafArticle", Description := "",
                 GraphQLName := "Article",
                 Fields := [some { GoName := "Typename", GoType := .opaqueRef "string",
                                   JSONName := "typename", Description := "" }],
                 Incomplete := true },
       .struct { GoName := "UnionNoFragmentsQueryRandomLeafVideo", Description := "",
                 GraphQLName := "Video",
                 Fields := [some { GoName := "Typename", GoType := .opaqueRef "string",
                                   JSONName := "typename", Description := "" }],
                 Incomplete := true }] }

/-- The operation `query Q { response { x } }` on the example schema. -/
def collisionOp : OperationDefinition :=
  { Operation := .Query, Name := "Q",
    SelectionSet :=
      [.Field "response" "response" (some (fieldDef "response" (.named "Response" false)))
        [leafSel "x" "x" (.named "String" false)] 0] }

/-- The state in which the conversion of `collisionOp` ends. -/
def collisionState : State :=
  { typeMap := [("QResponse", .structPtr 1)],
    heap :=
      [.struct { GoName := "QResponse",
                 Description := "QResponse is returned by Q on success.",
                 GraphQLName := "Query",
                 Fields := [some { GoName := "Response", GoType := .structPtr 1,
                                   JSONName := "response", Description := "" }],
                 Incomplete := false },
       .struct { GoName := "QResponse", Description := "", GraphQLName := "Response",
                 Fields := [some { GoName := "X", GoType := .opaqueRef "string",
                                   JSONName := "x", Description := "" }],
                 Incomplete := true }] }

/-- The operation `query Q { my: user { id } myUser: user { name } }` on the
example schema. -/
def aliasOp : OperationDefinition :=
  { Operation := .Query, Name := "Q",
    SelectionSet :=
      [.Field "my" "user" (some (fieldDef "user" (.named "User" false)))
        [leafSel "id" "id" (.named "ID" true)] 0,
       .Field "myUser" "user" (some (fieldDef "user" (.named "User" false)))
        [leafSel "name" "name" (.named "String" false)] 0] }

/-- The state in which the conversion of `aliasOp` ends. -/
def aliasState : State :=
  { typeMap := [("QMyUser", .structPtr 2), ("QResponse", .structPtr 0)],
    heap :=
      [.struct { GoName := "QResponse",
                 Description := "QResponse is returned by Q on success.",
                 GraphQLName := "Query",
                 Fields := [some { GoName := "My", GoType := .structPtr 1,
                                   JSONName := "my", Description := "" },
                            some { GoName := "MyUser", GoType := .structPtr 2,
                                   JSONName := "myUser", Description := "" }],
                 Incomplete := false },
       .struct { GoName := "QMyUser", Description := "", GraphQLName := "User",
                 Fields := [some { GoName := "Id", GoType := .opaqueRef "string",
                                   JSONName := "id", Description := "" }],
                 Incomplete := true },
       .struct { GoName := "QMyUser", Description := "", GraphQLName := "User",
                 Fields := [some { GoName := "Name", GoType := .opaqueRef "string",
                                   JSONName := "name", Description := "" }],
                 Incomplete := true }] }

/-- The type expression `[[User]]`. -/
def usersType : AstType := .list (.list (.named "User" false) false) false

/-- The state after `[[User]]` with the selection `{ id }` was converted under
the name `QUsersUser` in a fresh run. -/
def usersState : State :=
  { typeMap := [("QUsersUser", .structPtr 0)],
    heap :=
      [.struct { GoName := "QUsersUser", Description := "", GraphQLName := "User",
                 Fields := [some { GoName := "Id", GoType := .opaqueRef "string",
                                   JSONName := "id", Description := "" }],
                 Incomplete := true }] }

/-- The enum `enum role { ADMIN USER }` of the examples. -/
def roleDef : Definition :=
  { Kind := .Enum, Description := "", Name := "role", Fields := [],
    EnumValues := [{ Name := "ADMIN", Description := "" }, { Name := "USER", Description := "" }] }

/-- The generator of the union example with the experimental features off. -/
def unionOffGen : Generator :=
  exampleGenerator { Scalars := [], AllowBrokenFeatures := false } unionSchema

/-- The generator of the union example with the experimental features off and
the union name `LeafContent` bound as a scalar in the configuration. -/
def boundUnionOffGen : Generator :=
  exampleGenerator { Scalars := [("LeafContent", "mypkg.Leaf")], AllowBrokenFeatures := false }
    unionSchema

/-- The generator of the examples with the builtin name `ID` bound to an
external type in the configuration. -/
def boundIDGen : Generator :=
  exampleGenerator { Scalars := [("ID", "mypkg.ID")], AllowBrokenFeatures := false }
    exampleSchema

/-- The operation `query QueryWithDoubleAlias { user { ID: id AlsoID: id } }`. -/
def doubleAliasOp : OperationDefinition :=
  { Operation := .Query, Name := "QueryWithDoubleAlias",
    SelectionSet :=
      [.Field "user" "user" (some (fieldDef "user" (.named "User" false)))
        [leafSel "ID" "id" (.named "ID" true), leafSel "AlsoID" "id" (.named "ID" true)] 0] }

/-- The state in which the conversion of `doubleAliasOp` ends. -/
def doubleAliasState : State :=
  { typeMap := [("QueryWithDoubleAliasUser", .structPtr 1),
                ("QueryWithDoubleAliasResponse", .structPtr 0)],
    heap :=
      [.struct { GoName := "QueryWithDoubleAliasResponse",
                 Description :=
                   "QueryWithDoubleAliasResponse is returned by QueryWithDoubleAlias on success.",
                 GraphQLName := "Query",
                 Fields := [some { GoName := "User", GoType := .structPtr 1,
                                   JSONName := "user", Description := "" }],
                 Incomplete := false },
       .struct { GoName := "QueryWithDoubleAliasUser", Description := "",
                 GraphQLName := "User",
                 Fields := [some { GoName := "ID", GoType := .opaqueRef "mypkg.ID",
                                   JSONName := "ID", Description := "" },
                            some { GoName := "AlsoID", GoType := .opaqueRef "mypkg.ID",
                                   JSONName := "AlsoID", Description := "" }],
                 Incomplete := true }] }

/-- The struct field generated for the selection `AlsoID: id`. -/
def alsoIDField : goStructField :=
  { GoName := "AlsoID", GoType := .opaqueRef "mypkg.ID", JSONName := "AlsoID",
    Description := "" }

/-- The builtin scalar `ID` as the schema defines it. -/
def idScalarDef : Definition :=
  { Kind := .Scalar, Description := "", Name := "ID", Fields := [], EnumValues := [] }

/-- The builtin scalar `String` as the schema defines it. -/
def stringScalarDef : Definition :=
  { Kind := .Scalar, Description := "", Name := "String", Fields := [], EnumValues := [] }

/-- A custom scalar `DateTime` of a schema. -/
def dateTimeDef : Definition :=
  { Kind := .Scalar, Description := "", Name := "DateTime", Fields := [], EnumValues := [] }

/-- The selection is a fragment spread or an inline fragment. -/
def Selection.isFragment : Selection → Bool
  | .Field _ _ _ _ _ => false
  | .FragmentSpread _ _ => true
  | .InlineFragment _ _ _ => true

/-- The Go type of a selection, as `%T` prints it. -/
def Selection.goTypeName : Selection → String
  | .Field _ _ _ _ _ => "*ast.Field"
  | .FragmentSpread _ _ => "*ast.FragmentSpread"
  | .InlineFragment _ _ _ => "*ast.InlineFragment"

/-- The state in which the loop of the `ast.Object` case starts: the struct is
allocated with empty slots and registered under `name`. -/
def objectStart (name : String) (d : Definition) (selectionSet : List Selection)
    (st : State) : State :=
  (st.alloc (.struct
      { GoName := name, Description := d.Description, GraphQLName := d.Name,
        Fields := List.replicate selectionSet.length none,
        Incomplete := true })).2.register name (.structPtr st.heap.length)

/-- The state after the type `User` with the selection `{ id }` was converted
under the name `GetUserUser` in a fresh run. -/
def nestedUserState : State :=
  { typeMap := [("GetUserUser", .structPtr 0)],
    heap :=
      [.struct { GoName := "GetUserUser", Description := "", GraphQLName := "User",
                 Fields := [some { GoName := "Id", GoType := .opaqueRef "string",
                                   JSONName := "id", Description := "" }],
                 Incomplete := true }] }

/-- The state in which the loop over `{ id ...UserFields }` on the type `User`
has converted `id` and reaches the fragment spread. -/
def fragmentState : State :=
  { typeMap := [("GetUserUser", .structPtr 0)],
    heap :=
      [.struct { GoName := "GetUserUser", Description := "", GraphQLName := "User",
                 Fields := [some { GoName := "Id", GoType := .opaqueRef "string",
                                   JSONName := "id", Description := "" }, none],
                 Incomplete := true }] }

/-- The generator of the examples with the object type name `User` bound as a
scalar in the configuration. -/
def boundUserGen : Generator :=
  exampleGenerator { Scalars := [("User", "mypkg.User")], AllowBrokenFeatures := false }
    exampleSchema

/-- The state after the union `LeafContent` with the selection
`{ typename: __typename }` was converted under the name `QLeafContent` and the
prefix `Q` in a fresh run. -/
def leafContentState : State :=
  { typeMap := [("QVideo", .structPtr 2), ("QArticle", .structPtr 1),
                ("QLeafContent", .interfacePtr 0)],
    heap :=
      [.iface { GoName := "QLeafContent",
                Description := "LeafContent represents content items.",
                GraphQLName := "LeafContent", Implementations := [some 1, some 2] },
       .struct { GoName := "QArticle", Description := "", GraphQLName := "Article",
                 Fields := [some { GoName := "Typename", GoType := .opaqueRef "string",
                                   JSONName := "typename", Description := "" }],
                 Incomplete := true },
       .struct { GoName := "QVideo", Description := "", GraphQLName := "Video",
                 Fields := [some { GoName := "Typename", GoType := .opaqueRef "string",
                                   JSONName := "typename", Description := "" }],
                 Incomplete := true }] }

/-- The enum `enum Role { ADMIN USER }` of the input example. -/
def roleEnumDef : Definition :=
  { Kind := .Enum, Description := "", Name := "Role", Fields := [],
    EnumValues := [{ Name := "ADMIN", Description := "" }, { Name := "USER", Description := "" }] }

/-- The input object `input UserFilter { role: Role  name: String }`. -/
def userFilterDef : Definition :=
  { Kind := .InputObject, Description := "", Name := "UserFilter",
    Fields := [fieldDef "role" (.named "Role" false), fieldDef "name" (.named "String" false)],
    EnumValues := [] }

/-- The root type of the input example:
`type Query { users(filter: UserFilter): [User]  role: Role }`. -/
def inputQueryDef : Definition :=
  objectDef "Query"
    [fieldDef "users" (.list (.named "User" false) false), fieldDef "role" (.named "Role" false)]

/-- The schema of the input example. -/
def inputSchema : Schema :=
  { Query := some inputQueryDef, Mutation := none, Subscription := none,
    Types := [("Query", inputQueryDef), ("User", userDef), ("Role", roleEnumDef),
              ("UserFilter", userFilterDef), ("String", stringScalarDef),
              ("ID", idScalarDef)],
    PossibleTypes := [] }

/-- The generator of the input example. -/
def inputGen : Generator :=
  exampleGenerator { Scalars := [], AllowBrokenFeatures := false } inputSchema

/-- The generator of the input example with the input object name `UserFilter`
bound as a scalar in the configuration. -/
def boundFilterGen : Generator :=
  exampleGenerator { Scalars := [("UserFilter", "mypkg.UserFilter")],
                     AllowBrokenFeatures := false } inputSchema

/-- The state after the input object `UserFilter` was converted under the name
`UserFilter` in a fresh run. -/
def userFilterState : State :=
  { typeMap := [("Role", .enumPtr 1), ("UserFilter", .structPtr 0)],
    heap :=
      [.struct { GoName := "UserFilter", Description := "", GraphQLName := "UserFilter",
                 Fields := [some { GoName := "Role", GoType := .enumPtr 1,
                                   JSONName := "role", Description := "" },
                            some { GoName := "Name", GoType := .opaqueRef "string",
                                   JSONName := "name", Description := "" }],
                 Incomplete := false },
       .enum { GoName := "Role", Description := "",
               Values := [{ Name := "ADMIN", Description := "" },
                          { Name := "USER", Description := "" }] }] }

/-- The value a call returns, when it returns. -/
def Outcome.result {α : Type} : Outcome α → Option α
  | .ok v _ => some v
  | .nilDeref => none
  | .outOfFuel => none

/-- The state a call ends in, when it returns. -/
def Outcome.state {α : Type} : Outcome α → Option State
  | .ok _ st => some st
  | .nilDeref => none
  | .outOfFuel => none

/-- The `Incomplete` flag of a heap cell holding a struct. -/
def goNode.Incomplete : goNode → Bool
  | .struct s => s.Incomplete
  | _ => false

/-- The reference `ref` comes from one of the two escape hatches: it is what
`addRef` returns for a type bound in `Config.Scalars`, or an entry of the table
`builtinTypes`. -/
def FromHatch (g : Generator) (ref : String) : Prop :=
  (∃ k q, g.Config.Scalars.lookup k = some q ∧ ref = (g.addRef q).1) ∨
  (∃ k, builtinTypes.lookup k = some ref)

/-- When the node under the wrappers of `t` is an opaque reference, the
reference comes from an escape hatch. -/
def LeafOK (g : Generator) (t : goType) : Prop :=
  ∀ ref, t.core = .opaqueRef ref → FromHatch g ref

/-- Every filled field of every struct of the heap has a type whose opaque
reference, if it is one, comes from an escape hatch. -/
def HeapLeafOK (g : Generator) (h : List goNode) : Prop :=
  ∀ (a : Addr) (s : goStructType) (i : Nat) (f : goStructField),
    h[a]? = some (.struct s) → s.Fields[i]? = some (some f) → LeafOK g f.GoType

/-- A `convertDefinition` that keeps `HeapLeafOK` and returns a value with
`LeafOK`. -/
def ConvDef.Leafy (g : Generator) (convDef : ConvDef) : Prop :=
  ∀ name namePrefix d selectionSet queryOptions st r st1,
    convDef name namePrefix d selectionSet queryOptions st = .ok r st1 →
      HeapLeafOK g st.heap → HeapLeafOK g st1.heap ∧ LeafOK g r.1

/-! ## Relocation of addresses -/

/-- The value `t` with every address moved up by `k`. -/
def goType.shift (k : Nat) : goType → goType
  | .nil => .nil
  | .opaqueRef r => .opaqueRef r
  | .slice e => .slice (e.shift k)
  | .pointer e => .pointer (e.shift k)
  | .structPtr a => .structPtr (a + k)
  | .interfacePtr a => .interfacePtr (a + k)
  | .enumPtr a => .enumPtr (a + k)

/-- The struct field `f` with every address of its type moved up by `k`. -/
def goStructField.shift (k : Nat) (f : goStructField) : goStructField :=
  { f with GoType := f.GoType.shift k }

/-- The heap cell `n` with every address it holds moved up by `k`. -/
def goNode.shift (k : Nat) : goNode → goNode
  | .struct s => .struct { s with Fields := s.Fields.map (Option.map (goStructField.shift k)) }
  | .iface t => .iface { t with Implementations := t.Implementations.map (Option.map (· + k)) }
  | .enum e => .enum e

/-- The cells of `s2` from address `n + k` on are the cells of `s1` from address
`n` on, moved up by `k`: the part of the heap of `s2` built since the heap had
`n + k` cells is a relocated copy of the part of the heap of `s1` built since
it had `n` cells. -/
def Relocated (n k : Nat) (s1 s2 : State) : Prop :=
  n ≤ s1.heap.length ∧ s2.heap.length = s1.heap.length + k ∧
  ∀ a, n ≤ a → s2.heap[a + k]? = (s1.heap[a]?).map (goNode.shift k)

/-- A `convertDefinition` whose result does not depend on where the heap
stands: from a relocated state it returns the relocated value and ends in a
relocated state. -/
def ConvDef.Relocatable (convDef : ConvDef) : Prop :=
  ∀ (n k : Nat) name namePrefix d selectionSet queryOptions (s1 s2 : State) r t1,
    Relocated n k s1 s2 →
    convDef name namePrefix d selectionSet queryOptions s1 = .ok r t1 →
    ∃ t2, convDef name namePrefix d selectionSet queryOptions s2 = .ok (r.1.shift k, r.2) t2 ∧
      Relocated n k t1 t2

/-- The keys of the registry. -/
def State.keys (st : State) : List String := st.typeMap.map Prod.fst

/-- The types of the fields of a heap cell holding a struct. -/
def goNode.fieldTypes : goNode → List (Option goType)
  | .struct s => s.Fields.map (Option.map goStructField.GoType)
  | _ => []

/-- The node under the wrappers of `t` is a struct or enum node of the heap
whose generated name is `name`, and `name` is a key of the registry. -/
def RegisteredAs (name : String) (t : goType) (st : State) : Prop :=
  ∃ (a : Addr) (n : goNode), (t.core = .structPtr a ∨ t.core = .enumPtr a) ∧
    st.heap[a]? = some n ∧ n.GoName = name ∧ (st.typeMap.lookup name).isSome = true

/-- The state after the input object `UserFilter` was converted a second time,
for an operation with the pointer option set, in the state `userFilterState`. -/
def twoFiltersState : State :=
  { typeMap := [("Role", .enumPtr 3), ("UserFilter", .structPtr 2)],
    heap :=
      [.struct { GoName := "UserFilter", Description := "", GraphQLName := "UserFilter",
                 Fields := [some { GoName := "Role", GoType := .enumPtr 1,
                                   JSONName := "role", Description := "" },
                            some { GoName := "Name", GoType := .opaqueRef "string",
                                   JSONName := "name", Description := "" }],
                 Incomplete := false },
       .enum { GoName := "Role", Description := "",
               Values := [{ Name := "ADMIN", Description := "" },
                          { Name := "USER", Description := "" }] },
       .struct { GoName := "UserFilter", Description := "", GraphQLName := "UserFilter",
                 Fields := [some { GoName := "Role", GoType := .pointer (.enumPtr 3),
                                   JSONName := "role", Description := "" },
                            some { GoName := "Name", GoType := .pointer (.opaqueRef "string"),
                                   JSONName := "name", Description := "" }],
                 Incomplete := false },
       .enum { GoName := "Role", Description := "",
               Values := [{ Name := "ADMIN", Description := "" },
                          { Name := "USER", Description := "" }] }] }

/-- The input object `input filter { role: role }` over the enum `role`. -/
def lowerFilterDef : Definition :=
  { Kind := .InputObject, Description := "", Name := "filter",
    Fields := [fieldDef "role" (.named "role" false)], EnumValues := [] }

/-- A schema whose type names are written in lower case. -/
def lowerSchema : Schema :=
  { Query := some (objectDef "query" [fieldDef "role" (.named "role" false)]),
    Mutation := none, Subscription := none,
    Types := [("query", objectDef "query" [fieldDef "role" (.named "role" false)]),
              ("role", roleDef), ("filter", lowerFilterDef)],
    PossibleTypes := [] }

/-- The generator over `lowerSchema`. -/
def lowerGen : Generator :=
  exampleGenerator { Scalars := [], AllowBrokenFeatures := false } lowerSchema

/-- The struct field generated for the selection `role` of type `Role`. -/
def roleField : goStructField :=
  { GoName := "Role", GoType := .enumPtr 0, JSONName := "role", Description := "" }

/-- The state after the field `role` of type `Role` was converted in a fresh
run. -/
def roleFieldState : State :=
  { typeMap := [("Role", .enumPtr 0)],
    heap := [.enum { GoName := "Role", Description := "",
                     Values := [{ Name := "ADMIN", Description := "" },
                                { Name := "USER", Description := "" }] }] }

/-- Two generators agree on everything the conversion of a definition reads:
the configuration, the type table and the possible types of the schema, and the
two helper methods.  They may differ in the root types of the schema. -/
def Generator.Agree (g1 g2 : Generator) : Prop :=
  g1.Config.Scalars = g2.Config.Scalars ∧
  g1.Config.AllowBrokenFeatures = g2.Config.AllowBrokenFeatures ∧
  g1.schema.Types = g2.schema.Types ∧
  g1.schema.PossibleTypes = g2.schema.PossibleTypes ∧
  g1.addRef = g2.addRef ∧
  g1.parsePrecedingComment = g2.parsePrecedingComment

/-- The type `Event` of the subscription example. -/
def eventDef : Definition := objectDef "Event" [fieldDef "id" (.named "ID" true)]

/-- The subscription root of the example: `type Subscription { event: Event }`. -/
def subscriptionDef : Definition :=
  objectDef "Subscription" [fieldDef "event" (.named "Event" false)]

/-- A schema with a subscription root and no query root. -/
def subscriptionSchema : Schema :=
  { Query := none, Mutation := none, Subscription := some subscriptionDef,
    Types := [("Subscription", subscriptionDef), ("Event", eventDef),
              ("String", stringScalarDef), ("ID", idScalarDef)],
    PossibleTypes := [] }

/-- The same schema with the subscription root type as query root. -/
def subscriptionAsQuerySchema : Schema :=
  { subscriptionSchema with Query := some subscriptionDef }

/-- The generator of the subscription example, experimental features on. -/
def subscriptionGen : Generator :=
  exampleGenerator { Scalars := [], AllowBrokenFeatures := true } subscriptionSchema

/-- The generator of the subscription example, experimental features off. -/
def subscriptionOffGen : Generator :=
  exampleGenerator { Scalars := [], AllowBrokenFeatures := false } subscriptionSchema

/-- The generator over the schema with the subscription root as query root. -/
def subscriptionAsQueryGen : Generator :=
  exampleGenerator { Scalars := [], AllowBrokenFeatures := true } subscriptionAsQuerySchema

/-- The selection set `{ event { id } }`. -/
def eventSelections : List Selection :=
  [.Field "event" "event" (some (fieldDef "event" (.named "Event" false)))
    [leafSel "id" "id" (.named "ID" true)] 0]

/-- The operation `subscription OnEvent { event { id } }`. -/
def onEventOp : OperationDefinition :=
  { Operation := .Subscription, Name := "OnEvent", SelectionSet := eventSelections }

/-- The operation `subscription GetUser { event { id } }`, named like
`getUserOp`. -/
def getUserSubscriptionOp : OperationDefinition :=
  { Operation := .Subscription, Name := "GetUser", SelectionSet := eventSelections }

/-- The recursive input object `input Filter { and: Filter }`. -/
def recursiveFilterDef : Definition :=
  { Kind := .InputObject, Description := "", Name := "Filter",
    Fields := [fieldDef "and" (.named "Filter" false)], EnumValues := [] }

/-- A schema with the recursive input object `Filter`:
`type Query { users(filter: Filter): [User] }`. -/
def recursiveInputSchema : Schema :=
  { Query := some (objectDef "Query" [fieldDef "users" (.list (.named "User" false) false)]),
    Mutation := none, Subscription := none,
    Types := [("Query", objectDef "Query"
                [fieldDef "users" (.list (.named "User" false) false)]),
              ("User", userDef), ("Filter", recursiveFilterDef),
              ("String", stringScalarDef), ("ID", idScalarDef)],
    PossibleTypes := [] }

/-- The generator over the schema with the recursive input object. -/
def recursiveInputGen : Generator :=
  exampleGenerator { Scalars := [], AllowBrokenFeatures := false } recursiveInputSchema

/-- Input objects are nested at most `n` deep below the definition: with `n = 0`
the definition is not an input object; with `n + 1`, when it is an input
object, the types of its fields are nested at most `n` deep.  An input object
that has, directly or indirectly, a field of its own type has no such bound. -/
def Definition.inputDepthLe (s : Schema) : Nat → Definition → Bool
  | 0, d => decide (d.Kind ≠ .InputObject)
  | n + 1, d =>
    decide (d.Kind ≠ .InputObject) ||
    d.Fields.all fun f =>
      match s.Types.lookup f.Type_.Name with
      | none => true
      | some d1 => Definition.inputDepthLe s n d1

mutual
/-- The nesting depth of a selection: a field counts one level more than its
sub-selection, a fragment counts none. -/
def Selection.depth : Selection → Nat
  | .Field _ _ _ ss _ => Selection.depthList ss + 1
  | .FragmentSpread _ _ => 0
  | .InlineFragment _ _ _ => 0
/-- The nesting depth of a selection set: the largest depth of its entries. -/
def Selection.depthList : List Selection → Nat
  | [] => 0
  | s :: rest => max (Selection.depth s) (Selection.depthList rest)
end

/-- The type named by the field definition is not an input object of the
schema. -/
def FieldDefinition.isOutput (g : Generator) (fd : FieldDefinition) : Bool :=
  match g.schema.Types.lookup fd.Type_.Name with
  | none => true
  | some d => decide (d.Kind ≠ .InputObject)

mutual
/-- No field selected in the selection, at any depth, has an input object as
its type. -/
def Selection.outputOnly (g : Generator) : Selection → Bool
  | .Field _ _ fd ss _ =>
    (match fd with
      | none => true
      | some fd => fd.isOutput g) && Selection.outputOnlyList g ss
  | .FragmentSpread _ _ => true
  | .InlineFragment _ _ _ => true
/-- No field selected in the selection set, at any depth, has an input object
as its type. -/
def Selection.outputOnlyList (g : Generator) : List Selection → Bool
  | [] => true
  | s :: rest => Selection.outputOnly g s && Selection.outputOnlyList g rest
end

/-- A `convertDefinition` with less fuel: whenever `c1` returns or dereferences
nil, `c2` does the same. -/
def ConvDef.Below (c1 c2 : ConvDef) : Prop :=
  ∀ name namePrefix d selectionSet queryOptions st,
    c1 name namePrefix d selectionSet queryOptions st ≠ .outOfFuel →
    c2 name namePrefix d selectionSet queryOptions st =
      c1 name namePrefix d selectionSet queryOptions st

/-- The recursive object type `type Person { id: ID!  friend: Person }`. -/
def personDef : Definition :=
  objectDef "Person" [fieldDef "id" (.named "ID" true), fieldDef "friend" (.named "Person" false)]

/-- The root type `type Query { person: Person }`. -/
def personQueryDef : Definition :=
  objectDef "Query" [fieldDef "person" (.named "Person" false)]

/-- A schema with the recursive object type `Person`. -/
def personSchema : Schema :=
  { Query := some personQueryDef, Mutation := none, Subscription := none,
    Types := [("Query", personQueryDef), ("Person", personDef),
              ("String", stringScalarDef), ("ID", idScalarDef)],
    PossibleTypes := [] }

/-- The generator over the schema with the recursive object type. -/
def personGen : Generator :=
  exampleGenerator { Scalars := [], AllowBrokenFeatures := false } personSchema

/-- The operation `query Friends { person { friend { friend { id } } } }`. -/
def friendsOp : OperationDefinition :=
  { Operation := .Query, Name := "Friends",
    SelectionSet :=
      [.Field "person" "person" (some (fieldDef "person" (.named "Person" false)))
        [.Field "friend" "friend" (some (fieldDef "friend" (.named "Person" false)))
          [.Field "friend" "friend" (some (fieldDef "friend" (.named "Person" false)))
            [leafSel "id" "id" (.named "ID" true)] 0] 0] 0] }

/-- The pointer to the node `n` when it stands at address `a`. -/
def goNode.ref (a : Addr) : goNode → goType
  | .struct _ => .structPtr a
  | .iface _ => .interfacePtr a
  | .enum _ => .enumPtr a

/-- The value `t` is the pointer to a struct, interface or enum node of the
heap `h` whose generated name is `k`. -/
def NodeNamed (k : String) (t : goType) (h : List goNode) : Prop :=
  ∃ (a : Addr) (n : goNode), h[a]? = some n ∧ t = n.ref a ∧ n.GoName = k

/-- The registry invariant: every entry maps its key to the pointer to a
struct, interface or enum node whose generated name is the key. -/
def RegistryOK (st : State) : Prop :=
  ∀ k t, st.typeMap.lookup k = some t → NodeNamed k t st.heap

/-- The value `t` is a pointer to a node at an address from `n` on, that is, a
node allocated after the heap had `n` cells. -/
def FreshPtr (n : Nat) (t : goType) : Prop :=
  ∃ (a : Addr), n ≤ a ∧ (t = .structPtr a ∨ t = .interfacePtr a ∨ t = .enumPtr a)

/-- Every entry of the registry `m2` is an entry of `m1` or points to a node
allocated after the heap had `n` cells. -/
def EntriesFrom (n : Nat) (m1 m2 : List (String × goType)) : Prop :=
  ∀ k t, m2.lookup k = some t → m1.lookup k = some t ∨ FreshPtr n t

/-- What a conversion call does to the registry, from the state `st` to the
state `st1`: the heap does not shrink, every entry is an old one or points to a
new node, and the registry invariant is kept. -/
def Kept (st st1 : State) : Prop :=
  st.heap.length ≤ st1.heap.length ∧
  EntriesFrom st.heap.length st.typeMap st1.typeMap ∧
  (RegistryOK st → RegistryOK st1)

/-- Every returning call of `convDef` relates the state before to the state
after by `R`. -/
def ConvDef.Respects (R : State → State → Prop) (convDef : ConvDef) : Prop :=
  ∀ name namePrefix d selectionSet queryOptions st r st1,
    convDef name namePrefix d selectionSet queryOptions st = .ok r st1 → R st st1

/-- What a relation on states must satisfy to hold across every conversion
call: it is reflexive and transitive, and it holds across the assignment of a
field or implementation slot and across the allocation and registration of a
node under its generated name. -/
structure StepRel (R : State → State → Prop) : Prop where
  refl : ∀ st, R st st
  trans : ∀ st1 st2 st3, R st1 st2 → R st2 st3 → R st1 st3
  setField : ∀ st addr i f, R st (st.setField addr i f)
  setImplementation : ∀ st addr i impl, R st (st.setImplementation addr i impl)
  allocate : ∀ (st : State) (n : goNode),
    R st ((st.alloc n).2.register n.GoName (n.ref st.heap.length))

/-- The input object `input Search { filter: UserFilter  when: DateTime }`,
whose second field has the scalar type `DateTime`. -/
def searchDef : Definition :=
  { Kind := .InputObject, Description := "", Name := "Search",
    Fields := [fieldDef "filter" (.named "UserFilter" false),
               fieldDef "when" (.named "DateTime" false)],
    EnumValues := [] }

/-- The schema of the input example with the input object `Search` and the
scalar `DateTime` added. -/
def searchSchema : Schema :=
  { inputSchema with
    Types := inputSchema.Types ++ [("Search", searchDef), ("DateTime", dateTimeDef)] }

/-- The generator over `searchSchema`; the scalar `DateTime` has no binding. -/
def searchGen : Generator :=
  exampleGenerator { Scalars := [], AllowBrokenFeatures := false } searchSchema

/-- The state after the conversion of the input object `Search` for an
operation with the pointer option failed at the field `when`, started in the
state `userFilterState`. -/
def failedSearchState : State :=
  { typeMap := [("Role", .enumPtr 4), ("UserFilter", .structPtr 3), ("Search", .structPtr 2)],
    heap := userFilterState.heap ++
      [.struct { GoName := "Search", Description := "", GraphQLName := "Search",
                 Fields := [some { GoName := "Filter", GoType := .pointer (.structPtr 3),
                                   JSONName := "filter", Description := "" },
                            none],
                 Incomplete := false },
       .struct { GoName := "UserFilter", Description := "", GraphQLName := "UserFilter",
                 Fields := [some { GoName := "Role", GoType := .pointer (.enumPtr 4),
                                   JSONName := "role", Description := "" },
                            some { GoName := "Name", GoType := .pointer (.opaqueRef "string"),
                                   JSONName := "name", Description := "" }],
                 Incomplete := false },
       .enum { GoName := "Role", Description := "",
               Values := [{ Name := "ADMIN", Description := "" },
                          { Name := "USER", Description := "" }] }] }

/-- The state in which the loop of the `ast.Interface, ast.Union` case starts:
the interface node is allocated with empty slots and registered under `name`. -/
def interfaceStart (g : Generator) (name : String) (d : Definition) (st : State) : State :=
  (st.alloc (.iface
      { GoName := name, Description := d.Description, GraphQLName := d.Name,
        Implementations := List.replicate (g.schema.GetPossibleTypes d).length none
      })).2.register name (.interfacePtr st.heap.length)

/-- The operation `query GetUser { user { nickname id } name }`: the field
`nickname` of the sub-selection has no resolved definition. -/
def failingOp : OperationDefinition :=
  { Operation := .Query, Name := "GetUser",
    SelectionSet :=
      [.Field "user" "user" (some (fieldDef "user" (.named "User" false)))
        [.Field "nickname" "nickname" none [] 0, leafSel "id" "id" (.named "ID" true)] 0,
       .Field "title" "title" none [] 0] }

/-- The generator of the examples in a document where the selection at
position 1 is preceded by the directive `pointer: true`. -/
def pointerAtOneGen : Generator :=
  { Config := { Scalars := [], AllowBrokenFeatures := false }, schema := exampleSchema,
    addRef := fun s => (s, none),
    parsePrecedingComment := fun p =>
      if p = 1 then ({ Pointer := some true }, none) else ({ Pointer := none }, none) }

/-- The selection set `{ user { id name } users { id } }`, where the field
`user` stands at position 1 and the other fields at positions 2 to 5. -/
def pointerSelections : List Selection :=
  [.Field "user" "user" (some (fieldDef "user" (.named "User" false)))
      [.Field "id" "id" (some (fieldDef "id" (.named "ID" true))) [] 2,
       .Field "name" "name" (some (fieldDef "name" (.named "String" false))) [] 3] 1,
   .Field "users" "users" (some (fieldDef "users" usersType))
      [.Field "id" "id" (some (fieldDef "id" (.named "ID" true))) [] 5] 4]

/-- The state after the root type `Query` was converted with the selection set
`pointerSelections` under the name `QResponse` in a fresh run. -/
def pointerFieldsState : State :=
  { typeMap := [("QUsersUser", .structPtr 2), ("QUser", .structPtr 1),
                ("QResponse", .structPtr 0)],
    heap :=
      [.struct { GoName := "QResponse", Description := "", GraphQLName := "Query",
                 Fields := [some { GoName := "User", GoType := .pointer (.structPtr 1),
                                   JSONName := "user", Description := "" },
                            some { GoName := "Users",
                                   GoType := .slice (.slice (.structPtr 2)),
                                   JSONName := "users", Description := "" }],
                 Incomplete := true },
       .struct { GoName := "QUser", Description := "", GraphQLName := "User",
                 Fields := [some { GoName := "Id", GoType := .opaqueRef "string",
                                   JSONName := "id", Description := "" },
                            some { GoName := "Name", GoType := .opaqueRef "string",
                                   JSONName := "name", Description := "" }],
                 Incomplete := true },
       .struct { GoName := "QUsersUser", Description := "", GraphQLName := "User",
                 Fields := [some { GoName := "Id", GoType := .opaqueRef "string",
                                   JSONName := "id", Description := "" }],
                 Incomplete := true }] }

/-- The name of the type of the field definition is a key of the type table of
the schema. -/
def FieldDefinition.typeDefined (s : Schema) (fd : FieldDefinition) : Bool :=
  (s.Types.lookup fd.Type_.Name).isSome

mutual
/-- The type of every field selected in the selection, at any depth, is named
by a key of the type table of the schema. -/
def Selection.typesDefined (s : Schema) : Selection → Bool
  | .Field _ _ fd ss _ =>
    (match fd with
      | none => true
      | some fd => fd.typeDefined s) && Selection.typesDefinedList s ss
  | .FragmentSpread _ _ => true
  | .InlineFragment _ _ _ => true
/-- The type of every field selected in the selection set, at any depth, is
named by a key of the type table of the schema. -/
def Selection.typesDefinedList (s : Schema) : List Selection → Bool
  | [] => true
  | sel :: rest => Selection.typesDefined s sel && Selection.typesDefinedList s rest
end

/-- When the definition is an input object, the type of each of its fields is
named by a key of the type table of the schema. -/
def Definition.inputFieldsDefined (s : Schema) (d : Definition) : Bool :=
  decide (d.Kind ≠ .InputObject) || d.Fields.all (fun f => f.typeDefined s)

/-- The definition occurs in the schema: as a value of the type table, as a
root type, or as a possible type. -/
def Schema.Defines (s : Schema) (d : Definition) : Prop :=
  (∃ p, p ∈ s.Types ∧ p.2 = d) ∨ s.Query = some d ∨ s.Mutation = some d ∨
  s.Subscription = some d ∨ ∃ p, p ∈ s.PossibleTypes ∧ d ∈ p.2

/-- Every type name referenced by the type of a field of an input object of
the schema is a key of the type table. -/
def Schema.inputFieldsDefined (s : Schema) : Bool :=
  s.Types.all (fun p => p.2.inputFieldsDefined s) &&
  (s.Query.toList ++ s.Mutation.toList ++ s.Subscription.toList).all
    (fun d => d.inputFieldsDefined s) &&
  s.PossibleTypes.all (fun p => p.2.all (fun d => d.inputFieldsDefined s))

/-- The schema defines the root type of the kind of the operation: when
`baseTypeForOperation` returns no error, the type it returns is not nil. -/
def rootDefined (g : Generator) (operation : Operation) : Bool :=
  (baseTypeForOperation g operation).2.isSome || (baseTypeForOperation g operation).1.isSome

/-! ## Basic facts -/

theorem Outcome.bind_eq_ok {α β : Type} (x : Outcome α) (f : α → State → Outcome β)
    (r : β) (s : State) :
    x.bind f = .ok r s ↔ ∃ v s0, x = .ok v s0 ∧ f v s0 = .ok r s := by
  cases x with
  | ok v s0 =>
    constructor
    · intro h
      exact ⟨v, s0, rfl, h⟩
    · rintro ⟨v1, s1, h1, h2⟩
      cases h1
      exact h2
  | nilDeref => simp [Outcome.bind]
  | outOfFuel => simp [Outcome.bind]

theorem heapExt_refl (h : List goNode) : HeapExt h h :=
  ⟨Nat.le_refl _, fun _ _ => rfl⟩

theorem heapExt_trans {h1 h2 h3 : List goNode} (h12 : HeapExt h1 h2) (h23 : HeapExt h2 h3) :
    HeapExt h1 h3 :=
  ⟨Nat.le_trans h12.1 h23.1, fun a ha => by
    rw [h23.2 a (Nat.lt_of_lt_of_le ha h12.1), h12.2 a ha]⟩

theorem heapExt_toLoopExt {h1 h2 : List goNode} (addr : Addr) (h12 : HeapExt h1 h2) :
    LoopExt addr h1 h2 :=
  ⟨h12.1, fun a ha => ⟨fun _ => h12.2 a ha, by rw [h12.2 a ha]⟩⟩

theorem loopExt_refl (addr : Addr) (h : List goNode) : LoopExt addr h h :=
  heapExt_toLoopExt addr (heapExt_refl h)

theorem loopExt_trans {addr : Addr} {h1 h2 h3 : List goNode} (h12 : LoopExt addr h1 h2)
    (h23 : LoopExt addr h2 h3) : LoopExt addr h1 h3 :=
  ⟨Nat.le_trans h12.1 h23.1, fun a ha => by
    have ha2 := Nat.lt_of_lt_of_le ha h12.1
    refine ⟨fun hne => ?_, ?_⟩
    · rw [(h23.2 a ha2).1 hne, (h12.2 a ha).1 hne]
    · rw [(h23.2 a ha2).2, (h12.2 a ha).2]⟩

theorem heapExt_append (h : List goNode) (n : goNode) : HeapExt h (h ++ [n]) :=
  ⟨by simp, fun a ha => List.getElem?_append_left ha⟩

theorem loopExt_toHeapExt {h1 h2 : List goNode} (h12 : LoopExt h1.length (h1 ++ [n]) h2) :
    HeapExt h1 h2 := by
  refine ⟨Nat.le_trans (by simp) h12.1, fun a ha => ?_⟩
  have := (h12.2 a (by simp; omega)).1 (Nat.ne_of_lt ha)
  rw [this, List.getElem?_append_left ha]

theorem goNode.header_setField (i : Nat) (f : Option goStructField) (n : goNode) :
    (n.setField i f).header = n.header := by
  cases n <;> rfl

theorem goNode.header_setImplementation (i : Nat) (impl : Option Addr) (n : goNode) :
    (n.setImplementation i impl).header = n.header := by
  cases n <;> rfl

theorem loopExt_modify (addr : Addr) (f : goNode → goNode) (hf : ∀ n, (f n).header = n.header)
    (h : List goNode) : LoopExt addr h (List.modify f addr h) := by
  refine ⟨by simp, fun a _ => ⟨fun hne => ?_, ?_⟩⟩
  · exact List.getElem?_modify_ne f h (Ne.symm hne)
  · rw [List.getElem?_modify]
    split
    · cases h[a]? <;> simp [hf]
    · simp

theorem keysKept_refl (m : List (String × goType)) : KeysKept m m := fun _ h => h

theorem keysKept_trans {m1 m2 m3 : List (String × goType)} (h12 : KeysKept m1 m2)
    (h23 : KeysKept m2 m3) : KeysKept m1 m3 := fun k h => h23 k (h12 k h)

theorem lookup_filter_ne (m : List (String × goType)) (k k1 : String) (h : k1 ≠ k) :
    (m.filter (fun p => p.1 != k)).lookup k1 = m.lookup k1 := by
  induction m with
  | nil => rfl
  | cons p m ih =>
    obtain ⟨a, b⟩ := p
    by_cases hp : a = k
    · subst hp
      have h1 : (k1 == a) = false := by simp [h]
      simp [List.filter_cons, List.lookup_cons, h1, ih]
    · by_cases h2 : k1 = a
      · simp [List.filter_cons, hp, List.lookup_cons, h2]
      · have h1 : (k1 == a) = false := by simp [h2]
        simp [List.filter_cons, hp, List.lookup_cons, h1, ih]

theorem lookup_register (st : State) (k : String) (t : goType) (k1 : String) :
    (st.register k t).typeMap.lookup k1 = if k1 = k then some t else st.typeMap.lookup k1 := by
  unfold State.register
  by_cases h : k1 = k
  · simp [h]
  · have h1 : (k1 == k) = false := by simp [h]
    simp [List.lookup_cons, h1, h, lookup_filter_ne]

theorem keysKept_register (st : State) (k : String) (t : goType) :
    KeysKept st.typeMap (st.register k t).typeMap := by
  intro k1 h
  rw [lookup_register]
  split
  · rfl
  · exact h

theorem hasSuffix_iff (s t : String) : hasSuffix s t = true ↔ ∃ p : String, s = p ++ t := by
  unfold hasSuffix
  rw [List.isSuffixOf_iff_suffix]
  constructor
  · rintro ⟨l, hl⟩
    exact ⟨String.mk l, String.ext (by simp [hl])⟩
  · rintro ⟨p, hp⟩
    exact ⟨p.data, by simp [hp]⟩

theorem typeName_snd_of_interface (namePrefix : String) (typ : Definition)
    (h : typ.Kind = .Interface ∨ typ.Kind = .Union) : (typeName namePrefix typ).2 = namePrefix := by
  unfold typeName
  rcases h with h | h <;> simp [h]

theorem typeName_fst_of_object (namePrefix : String) (typ : Definition)
    (h : typ.Kind = .Object) (hs : hasSuffix namePrefix (upperFirst typ.Name) = false) :
    (typeName namePrefix typ).1 = namePrefix ++ upperFirst typ.Name := by
  unfold typeName
  simp [h, hs]

theorem core_wrapSlices (n : Nat) (t : goType) : (wrapSlices n t).core = t.core := by
  induction n with
  | zero => rfl
  | succ n ih => simpa [wrapSlices, goType.core] using ih

theorem core_of_named {name : String} {t : goType} {h : List goNode} (hn : Named name t h) :
    t.core = t := by
  cases t <;> first | rfl | exact absurd hn (by simp [Named])

theorem getElem?_lt_length {h : List goNode} {a : Nat} {n : goNode} (ha : h[a]? = some n) :
    a < h.length := by
  by_contra hc
  rw [List.getElem?_eq_none (Nat.le_of_not_lt hc)] at ha
  cases ha

theorem isWrapper_of_named {name : String} {t : goType} {h : List goNode}
    (hn : Named name t h) : t.isWrapper = false := by
  cases t <;> first | rfl | exact absurd hn (by simp [Named])

theorem hasPointer_wrapSlices (n : Nat) (t : goType) (ht : t.isWrapper = false) :
    (wrapSlices n t).hasPointer = false := by
  induction n with
  | zero => cases t <;> first | rfl | cases ht
  | succ n ih => simpa [wrapSlices, goType.hasPointer] using ih

theorem pointerAroundSlice_wrapSlices (n : Nat) (t : goType) :
    (wrapSlices n t).pointerAroundSlice = t.pointerAroundSlice := by
  induction n with
  | zero => rfl
  | succ n ih => simpa [wrapSlices, goType.pointerAroundSlice] using ih

theorem pointerAroundSlice_of_not_wrapper (t : goType) (ht : t.isWrapper = false) :
    t.pointerAroundSlice = false ∧ (goType.pointer t).pointerAroundSlice = false := by
  cases t <;> first | exact ⟨rfl, rfl⟩ | cases ht

theorem header_struct {n : goNode} {s : goStructType} (h : n.header = goNode.header (.struct s)) :
    ∃ s1, n = .struct s1 ∧ s1.GoName = s.GoName ∧ s1.Description = s.Description ∧
      s1.GraphQLName = s.GraphQLName ∧ s1.Incomplete = s.Incomplete := by
  cases n with
  | struct s1 =>
    simp only [goNode.header, goNode.struct.injEq, goStructType.mk.injEq] at h
    exact ⟨s1, rfl, h.1, h.2.1, h.2.2.1, h.2.2.2.2⟩
  | iface i => simp [goNode.header] at h
  | enum e => simp [goNode.header] at h

theorem header_iface {n : goNode} {t : goInterfaceType}
    (h : n.header = goNode.header (.iface t)) :
    ∃ t1, n = .iface t1 ∧ t1.GoName = t.GoName ∧ t1.Description = t.Description ∧
      t1.GraphQLName = t.GraphQLName := by
  cases n with
  | struct s1 => simp [goNode.header] at h
  | iface i =>
    simp only [goNode.header, goNode.iface.injEq, goInterfaceType.mk.injEq] at h
    exact ⟨i, rfl, h.1, h.2.1, h.2.2.1⟩
  | enum e => simp [goNode.header] at h

theorem loopExt_alloc_cell {h h2 : List goNode} {n : goNode}
    (hl : LoopExt h.length (h ++ [n]) h2) :
    ∃ n1, h2[h.length]? = some n1 ∧ n1.header = n.header := by
  have h1 := (hl.2 h.length (by simp)).2
  rw [List.getElem?_append_right (Nat.le_refl _)] at h1
  simp only [Nat.sub_self, List.getElem?_cons_zero, Option.map_some'] at h1
  cases hc : h2[h.length]? with
  | none => rw [hc] at h1; simp at h1
  | some n1 =>
    rw [hc] at h1
    simp only [Option.map_some', Option.some.injEq] at h1
    exact ⟨n1, rfl, h1⟩

theorem hasTypename_eq_false (selectionSet : List Selection)
    (h : ∀ a n fd ss p, Selection.Field a n fd ss p ∈ selectionSet → n ≠ "__typename") :
    hasTypename selectionSet = false := by
  unfold hasTypename
  rw [List.any_eq_false]
  intro x hx
  cases x with
  | Field a n fd ss p => simpa using h a n fd ss p hx
  | FragmentSpread n p => simp
  | InlineFragment t ss p => simp

/-! ## What every conversion call preserves -/

theorem convertTypeWith_eq (g : Generator) (convDef : ConvDef) (name namePrefix : String)
    (typ : AstType) (selectionSet : List Selection)
    (options queryOptions : GenqlientDirective) (st : State) :
    convertTypeWith g convDef name namePrefix typ selectionSet options queryOptions st =
      (convertNamed g convDef name namePrefix typ.Name selectionSet queryOptions st).bind
        fun r st1 =>
          .ok (wrapSlices typ.listDepth (if options.GetPointer then .pointer r.1 else r.1),
               r.2) st1 := by
  induction typ with
  | named n nn =>
    simp only [convertTypeWith, convertNamed, AstType.Name, AstType.listDepth, wrapSlices]
    cases g.schema.Types.lookup n <;> rfl
  | list elem nn ih =>
    simp only [convertTypeWith, AstType.Name, AstType.listDepth, wrapSlices, ih]
    cases convertNamed g convDef name namePrefix elem.Name selectionSet queryOptions st <;> rfl

theorem convertNamed_sound (g : Generator) (convDef : ConvDef) (hS : convDef.Sound)
    {name namePrefix n : String} {selectionSet : List Selection}
    {queryOptions : GenqlientDirective} {st : State} {r : Ret} {st1 : State}
    (h : convertNamed g convDef name namePrefix n selectionSet queryOptions st = .ok r st1) :
    HeapExt st.heap st1.heap ∧ KeysKept st.typeMap st1.typeMap ∧ Named name r.1 st1.heap := by
  unfold convertNamed at h
  cases hl : g.schema.Types.lookup n with
  | none => rw [hl] at h; cases h
  | some d => rw [hl] at h; exact hS _ _ _ _ _ _ _ _ h

theorem convertTypeWith_sound (g : Generator) (convDef : ConvDef) (hS : convDef.Sound)
    {name namePrefix : String} {typ : AstType} {selectionSet : List Selection}
    {options queryOptions : GenqlientDirective} {st : State} {r : Ret} {st1 : State}
    (h : convertTypeWith g convDef name namePrefix typ selectionSet options queryOptions st
      = .ok r st1) :
    HeapExt st.heap st1.heap ∧ KeysKept st.typeMap st1.typeMap := by
  rw [convertTypeWith_eq, Outcome.bind_eq_ok] at h
  obtain ⟨v, s0, h1, h2⟩ := h
  have hs := convertNamed_sound g convDef hS h1
  cases h2
  exact ⟨hs.1, hs.2.1⟩

theorem convertFieldWith_sound (g : Generator) (convDef : ConvDef) (hS : convDef.Sound)
    {namePrefix fieldAlias : String} {fieldDefinition : Option FieldDefinition}
    {fieldSelectionSet : List Selection} {fieldOptions queryOptions : GenqlientDirective}
    {st : State} {r : Option goStructField × Option GenError} {st1 : State}
    (h : convertFieldWith g convDef namePrefix fieldAlias fieldDefinition fieldSelectionSet
      fieldOptions queryOptions st = .ok r st1) :
    HeapExt st.heap st1.heap ∧ KeysKept st.typeMap st1.typeMap := by
  unfold convertFieldWith at h
  cases fieldDefinition with
  | none =>
    cases h
    exact ⟨heapExt_refl _, keysKept_refl _⟩
  | some fd =>
    simp only at h
    cases hl : g.schema.Types.lookup fd.Type_.Name with
    | none => rw [hl] at h; cases h
    | some fieldTypedef =>
      rw [hl] at h
      simp only [Outcome.bind_eq_ok] at h
      obtain ⟨v, s0, h1, h2⟩ := h
      have hs := convertTypeWith_sound g convDef hS h1
      cases hv : v.2 with
      | none => rw [hv] at h2; cases h2; exact hs
      | some e => rw [hv] at h2; cases h2; exact hs

theorem convertSelections_sound (g : Generator) (convDef : ConvDef) (hS : convDef.Sound)
    (addr : Addr) (namePrefix : String) (queryOptions : GenqlientDirective)
    (selectionSet : List Selection) :
    ∀ (i : Nat) (st : State) (r : Option GenError) (st1 : State),
      convertSelections g convDef addr namePrefix queryOptions i selectionSet st = .ok r st1 →
      LoopExt addr st.heap st1.heap ∧ KeysKept st.typeMap st1.typeMap := by
  induction selectionSet with
  | nil =>
    intro i st r st1 h
    simp only [convertSelections] at h
    cases h
    exact ⟨loopExt_refl _ _, keysKept_refl _⟩
  | cons selection rest ih =>
    intro i st r st1 h
    simp only [convertSelections] at h
    cases hp : (g.parsePrecedingComment selection.GetPosition).2 with
    | some err =>
      rw [hp] at h
      cases h
      exact ⟨loopExt_refl _ _, keysKept_refl _⟩
    | none =>
      rw [hp] at h
      cases selection with
      | FragmentSpread n p => cases h; exact ⟨loopExt_refl _ _, keysKept_refl _⟩
      | InlineFragment t s p => cases h; exact ⟨loopExt_refl _ _, keysKept_refl _⟩
      | Field fa fn fdef fsel p =>
        simp only [Outcome.bind_eq_ok] at h
        obtain ⟨v, s0, h1, h2⟩ := h
        have hs := convertFieldWith_sound g convDef hS h1
        have hset : LoopExt addr s0.heap (s0.setField addr i v.1).heap :=
          loopExt_modify addr _ (goNode.header_setField i v.1) s0.heap
        have hmid : LoopExt addr st.heap (s0.setField addr i v.1).heap :=
          loopExt_trans (heapExt_toLoopExt addr hs.1) hset
        cases hv : v.2 with
        | some e =>
          rw [hv] at h2
          cases h2
          exact ⟨hmid, hs.2⟩
        | none =>
          rw [hv] at h2
          have := ih _ _ _ _ h2
          exact ⟨loopExt_trans hmid this.1, keysKept_trans hs.2 this.2⟩

theorem convertInputFields_sound (g : Generator) (convDef : ConvDef) (hS : convDef.Sound)
    (addr : Addr) (queryOptions : GenqlientDirective) (fields : List FieldDefinition) :
    ∀ (i : Nat) (st : State) (r : Option GenError) (st1 : State),
      convertInputFields g convDef addr queryOptions i fields st = .ok r st1 →
      LoopExt addr st.heap st1.heap ∧ KeysKept st.typeMap st1.typeMap := by
  induction fields with
  | nil =>
    intro i st r st1 h
    simp only [convertInputFields] at h
    cases h
    exact ⟨loopExt_refl _ _, keysKept_refl _⟩
  | cons field rest ih =>
    intro i st r st1 h
    simp only [convertInputFields, Outcome.bind_eq_ok] at h
    obtain ⟨v, s0, h1, h2⟩ := h
    have hs := convertTypeWith_sound g convDef hS h1
    cases hv : v.2 with
    | some e =>
      rw [hv] at h2
      cases h2
      exact ⟨heapExt_toLoopExt addr hs.1, hs.2⟩
    | none =>
      rw [hv] at h2
      have := ih _ _ _ _ h2
      exact ⟨loopExt_trans (loopExt_trans (heapExt_toLoopExt addr hs.1)
        (loopExt_modify addr _ (goNode.header_setField i _) s0.heap)) this.1,
        keysKept_trans hs.2 this.2⟩

theorem convertImplementations_sound (g : Generator) (convDef : ConvDef) (hS : convDef.Sound)
    (addr : Addr) (defName namePrefix : String) (selectionSet : List Selection)
    (queryOptions : GenqlientDirective) (impls : List Definition) :
    ∀ (i : Nat) (st : State) (r : Option GenError) (st1 : State),
      convertImplementations g convDef addr defName namePrefix selectionSet queryOptions
        i impls st = .ok r st1 →
      LoopExt addr st.heap st1.heap ∧ KeysKept st.typeMap st1.typeMap := by
  induction impls with
  | nil =>
    intro i st r st1 h
    simp only [convertImplementations] at h
    cases h
    exact ⟨loopExt_refl _ _, keysKept_refl _⟩
  | cons implDef rest ih =>
    intro i st r st1 h
    simp only [convertImplementations, Outcome.bind_eq_ok] at h
    obtain ⟨v, s0, h1, h2⟩ := h
    have hs := hS _ _ _ _ _ _ _ _ h1
    cases hv : v.2 with
    | some e =>
      rw [hv] at h2
      cases h2
      exact ⟨heapExt_toLoopExt addr hs.1, hs.2.1⟩
    | none =>
      rw [hv] at h2
      cases hv1 : v.1 with
      | structPtr a =>
        rw [hv1] at h2
        have := ih _ _ _ _ h2
        exact ⟨loopExt_trans (loopExt_trans (heapExt_toLoopExt addr hs.1)
          (loopExt_modify addr _ (goNode.header_setImplementation i _) s0.heap)) this.1,
          keysKept_trans hs.2.1 this.2⟩
      | _ =>
        rw [hv1] at h2
        cases h2
        exact ⟨heapExt_toLoopExt addr hs.1, hs.2.1⟩

theorem finish_eq_ok {t : goType} {err : Option GenError} {st : State} {r : Ret} {st1 : State}
    (h : finish t err st = .ok r st1) :
    st1 = st ∧ r.2 = err ∧ ((err = none ∧ r.1 = t) ∨ (err ≠ none ∧ r.1 = .nil)) := by
  cases err with
  | none => cases h; exact ⟨rfl, rfl, Or.inl ⟨rfl, rfl⟩⟩
  | some e => cases h; exact ⟨rfl, rfl, Or.inr ⟨by simp, rfl⟩⟩

/-- What the `ast.Object` case guarantees when it returns. -/
theorem convertObject_ok (g : Generator) (convDef : ConvDef) (hS : convDef.Sound)
    {name namePrefix : String} {d : Definition} {selectionSet : List Selection}
    {queryOptions : GenqlientDirective} {st : State} {r : Ret} {st1 : State}
    (h : convertObject g convDef name namePrefix d selectionSet queryOptions st = .ok r st1) :
    HeapExt st.heap st1.heap ∧ KeysKept st.typeMap st1.typeMap ∧
    (st1.typeMap.lookup name).isSome = true ∧
    ((r.2 = none ∧ r.1 = .structPtr st.heap.length) ∨ (r.2 ≠ none ∧ r.1 = .nil)) ∧
    ∃ s, st1.heap[st.heap.length]? = some (.struct s) ∧ s.GoName = name ∧
      s.Description = d.Description ∧ s.GraphQLName = d.Name ∧ s.Incomplete = true := by
  unfold convertObject at h
  rw [Outcome.bind_eq_ok] at h
  obtain ⟨err, s0, h1, h2⟩ := h
  have hl := convertSelections_sound g convDef hS _ _ _ _ _ _ _ _ h1
  obtain ⟨hst, hr2, hr⟩ := finish_eq_ok h2
  subst hst
  have hheap := hl.1
  simp only [State.alloc, State.register] at hheap
  obtain ⟨n1, hn1, hhd⟩ := loopExt_alloc_cell hheap
  obtain ⟨s1, rfl, hs1⟩ := header_struct hhd
  refine ⟨loopExt_toHeapExt hheap, keysKept_trans (keysKept_register _ _ _) hl.2, ?_, ?_,
    ⟨s1, hn1, hs1⟩⟩
  · apply hl.2
    rw [lookup_register]
    simp
  · rw [hr2]
    exact hr

/-- What the `ast.InputObject` case guarantees when it returns. -/
theorem convertInputObject_ok (g : Generator) (convDef : ConvDef) (hS : convDef.Sound)
    {name : String} {d : Definition}
    {queryOptions : GenqlientDirective} {st : State} {r : Ret} {st1 : State}
    (h : convertInputObject g convDef name d queryOptions st = .ok r st1) :
    HeapExt st.heap st1.heap ∧ KeysKept st.typeMap st1.typeMap ∧
    (st1.typeMap.lookup name).isSome = true ∧
    ((r.2 = none ∧ r.1 = .structPtr st.heap.length) ∨ (r.2 ≠ none ∧ r.1 = .nil)) ∧
    ∃ s, st1.heap[st.heap.length]? = some (.struct s) ∧ s.GoName = name ∧
      s.Description = d.Description ∧ s.GraphQLName = d.Name ∧ s.Incomplete = false := by
  unfold convertInputObject at h
  rw [Outcome.bind_eq_ok] at h
  obtain ⟨err, s0, h1, h2⟩ := h
  have hl := convertInputFields_sound g convDef hS _ _ _ _ _ _ _ h1
  obtain ⟨hst, hr2, hr⟩ := finish_eq_ok h2
  subst hst
  have hheap := hl.1
  simp only [State.alloc, State.register] at hheap
  obtain ⟨n1, hn1, hhd⟩ := loopExt_alloc_cell hheap
  obtain ⟨s1, rfl, hs1⟩ := header_struct hhd
  refine ⟨loopExt_toHeapExt hheap, keysKept_trans (keysKept_register _ _ _) hl.2, ?_, ?_,
    ⟨s1, hn1, hs1⟩⟩
  · apply hl.2
    rw [lookup_register]
    simp
  · rw [hr2]
    exact hr

/-- What the `ast.Interface, ast.Union` case guarantees when it returns. -/
theorem convertInterface_ok (g : Generator) (convDef : ConvDef) (hS : convDef.Sound)
    {name namePrefix : String} {d : Definition} {selectionSet : List Selection}
    {queryOptions : GenqlientDirective} {st : State} {r : Ret} {st1 : State}
    (h : convertInterface g convDef name namePrefix d selectionSet queryOptions st = .ok r st1) :
    HeapExt st.heap st1.heap ∧ KeysKept st.typeMap st1.typeMap ∧
    ((r.2 = none ∧ r.1 = .interfacePtr st.heap.length ∧
        (st1.typeMap.lookup name).isSome = true ∧
        ∃ t, st1.heap[st.heap.length]? = some (.iface t) ∧ t.GoName = name) ∨
      (r.2 ≠ none ∧ r.1 = .nil)) := by
  unfold convertInterface at h
  by_cases hA : g.Config.AllowBrokenFeatures = true
  · by_cases hT : hasTypename selectionSet = true
    · simp only [hA, hT, Bool.not_true, Bool.false_eq_true, if_false] at h
      rw [Outcome.bind_eq_ok] at h
      obtain ⟨err, s0, h1, h2⟩ := h
      have hl := convertImplementations_sound g convDef hS _ _ _ _ _ _ _ _ _ _ h1
      obtain ⟨hst, hr2, hr⟩ := finish_eq_ok h2
      subst hst
      have hheap := hl.1
      simp only [State.alloc, State.register] at hheap
      obtain ⟨n1, hn1, hhd⟩ := loopExt_alloc_cell hheap
      obtain ⟨t1, rfl, ht1⟩ := header_iface hhd
      refine ⟨loopExt_toHeapExt hheap, keysKept_trans (keysKept_register _ _ _) hl.2, ?_⟩
      rcases hr with ⟨he, hr1⟩ | ⟨he, hr1⟩
      · refine Or.inl ⟨by rw [hr2]; exact he, hr1, ?_, t1, hn1, ht1.1⟩
        apply hl.2
        rw [lookup_register]
        simp
      · exact Or.inr ⟨by rw [hr2]; exact he, hr1⟩
    · simp only [hA, hT, Bool.not_true, Bool.false_eq_true, if_false, Bool.not_false,
        if_true] at h
      cases h
      exact ⟨heapExt_refl _, keysKept_refl _, Or.inr ⟨by simp, rfl⟩⟩
  · simp only [hA, Bool.not_false, if_true] at h
    cases h
    exact ⟨heapExt_refl _, keysKept_refl _, Or.inr ⟨by simp, rfl⟩⟩

/-- What the `ast.Enum` case guarantees. -/
theorem convertEnum_ok {name : String} {d : Definition} {st : State} {r : Ret} {st1 : State}
    (h : convertEnum name d st = .ok r st1) :
    HeapExt st.heap st1.heap ∧ KeysKept st.typeMap st1.typeMap ∧
    (st1.typeMap.lookup name).isSome = true ∧ r.2 = none ∧ r.1 = .enumPtr st.heap.length ∧
    ∃ e, st1.heap[st.heap.length]? = some (.enum e) ∧ e.GoName = name := by
  unfold convertEnum at h
  cases h
  refine ⟨heapExt_append _ _, keysKept_register _ _ _, ?_, rfl, rfl, ?_⟩
  · rw [lookup_register]
    simp
  · simp [State.alloc, State.register]

/-- What `convertDefinition` guarantees when neither escape hatch applies and
it returns without error: the name is a key of the registry. -/
theorem convertDefinitionStep_registers (g : Generator) (convDef : ConvDef) (hS : convDef.Sound)
    {name namePrefix : String} {d : Definition} {selectionSet : List Selection}
    {queryOptions : GenqlientDirective} {st : State} {r : Ret} {st1 : State}
    (hScalars : g.Config.Scalars.lookup d.Name = none)
    (hBuiltin : builtinTypes.lookup d.Name = none)
    (h : convertDefinitionStep g convDef name namePrefix d selectionSet queryOptions st
      = .ok r st1)
    (hr : r.2 = none) :
    (st1.typeMap.lookup name).isSome = true := by
  unfold convertDefinitionStep at h
  rw [hScalars, hBuiltin] at h
  simp only at h
  cases hk : d.Kind with
  | Object => rw [hk] at h; exact (convertObject_ok g convDef hS h).2.2.1
  | InputObject => rw [hk] at h; exact (convertInputObject_ok g convDef hS h).2.2.1
  | Interface =>
    rw [hk] at h
    rcases (convertInterface_ok g convDef hS h).2.2 with h1 | h1
    · exact h1.2.2.1
    · exact absurd hr h1.1
  | Union =>
    rw [hk] at h
    rcases (convertInterface_ok g convDef hS h).2.2 with h1 | h1
    · exact h1.2.2.1
    · exact absurd hr h1.1
  | Enum => rw [hk] at h; exact (convertEnum_ok h).2.2.1
  | Scalar => rw [hk] at h; cases h; cases hr
  | Other raw => rw [hk] at h; cases h; cases hr

theorem convertDefinitionStep_sound (g : Generator) (convDef : ConvDef) (hS : convDef.Sound) :
    ConvDef.Sound (convertDefinitionStep g convDef) := by
  intro name namePrefix d selectionSet queryOptions st r st1 h
  unfold convertDefinitionStep at h
  cases hs : g.Config.Scalars.lookup d.Name with
  | some q =>
    rw [hs] at h
    cases h
    exact ⟨heapExt_refl _, keysKept_refl _, trivial⟩
  | none =>
    rw [hs] at h
    simp only at h
    cases hb : builtinTypes.lookup d.Name with
    | some q =>
      rw [hb] at h
      cases h
      exact ⟨heapExt_refl _, keysKept_refl _, trivial⟩
    | none =>
      rw [hb] at h
      simp only at h
      cases hk : d.Kind with
      | Object =>
        rw [hk] at h
        obtain ⟨h1, h2, _, h4, s, hs1, hs2, _⟩ := convertObject_ok g convDef hS h
        refine ⟨h1, h2, ?_⟩
        rcases h4 with ⟨_, h5⟩ | ⟨_, h5⟩
        · rw [h5]; exact ⟨s, hs1, hs2⟩
        · rw [h5]; trivial
      | InputObject =>
        rw [hk] at h
        obtain ⟨h1, h2, _, h4, s, hs1, hs2, _⟩ := convertInputObject_ok g convDef hS h
        refine ⟨h1, h2, ?_⟩
        rcases h4 with ⟨_, h5⟩ | ⟨_, h5⟩
        · rw [h5]; exact ⟨s, hs1, hs2⟩
        · rw [h5]; trivial
      | Interface =>
        rw [hk] at h
        obtain ⟨h1, h2, h3⟩ := convertInterface_ok g convDef hS h
        refine ⟨h1, h2, ?_⟩
        rcases h3 with ⟨_, h5, _, t, ht1, ht2⟩ | ⟨_, h5⟩
        · rw [h5]; exact ⟨t, ht1, ht2⟩
        · rw [h5]; trivial
      | Union =>
        rw [hk] at h
        obtain ⟨h1, h2, h3⟩ := convertInterface_ok g convDef hS h
        refine ⟨h1, h2, ?_⟩
        rcases h3 with ⟨_, h5, _, t, ht1, ht2⟩ | ⟨_, h5⟩
        · rw [h5]; exact ⟨t, ht1, ht2⟩
        · rw [h5]; trivial
      | Enum =>
        rw [hk] at h
        obtain ⟨h1, h2, _, _, h5, e, he1, he2⟩ := convertEnum_ok h
        refine ⟨h1, h2, ?_⟩
        rw [h5]; exact ⟨e, he1, he2⟩
      | Scalar =>
        rw [hk] at h
        cases h
        exact ⟨heapExt_refl _, keysKept_refl _, trivial⟩
      | Other raw =>
        rw [hk] at h
        cases h
        exact ⟨heapExt_refl _, keysKept_refl _, trivial⟩

theorem convertDefinition_sound (g : Generator) (fuel : Nat) :
    ConvDef.Sound (convertDefinition g fuel) := by
  induction fuel with
  | zero =>
    intro name namePrefix d selectionSet queryOptions st r st1 h
    cases h
  | succ n ih => exact convertDefinitionStep_sound g _ ih

/-- The loop over the possible types fills slot `i + j` of the interface with a
struct named by `typeName` from the incoming prefix. -/
theorem convertImplementations_names (g : Generator) (convDef : ConvDef) (hS : convDef.Sound)
    (addr : Addr) (defName namePrefix : String) (selectionSet : List Selection)
    (queryOptions : GenqlientDirective) (impls : List Definition) :
    ∀ (i : Nat) (st st1 : State) (t : goInterfaceType),
      st.heap[addr]? = some (.iface t) →
      i + impls.length ≤ t.Implementations.length →
      convertImplementations g convDef addr defName namePrefix selectionSet queryOptions
        i impls st = .ok none st1 →
      ∃ t1, st1.heap[addr]? = some (.iface t1) ∧
        t1.Implementations.length = t.Implementations.length ∧
        (∀ k, k < i → t1.Implementations[k]? = t.Implementations[k]?) ∧
        ∀ (j : Nat) (implDef : Definition), impls[j]? = some implDef →
          ∃ (b : Addr) (s : goStructType), t1.Implementations[i + j]? = some (some b) ∧
            st1.heap[b]? = some (.struct s) ∧ s.GoName = (typeName namePrefix implDef).1 := by
  induction impls with
  | nil =>
    intro i st st1 t ht _ h
    simp only [convertImplementations] at h
    cases h
    exact ⟨t, ht, rfl, fun _ _ => rfl, fun j implDef hj => by simp at hj⟩
  | cons implDef rest ih =>
    intro i st st1 t ht hlen h
    simp only [convertImplementations, Outcome.bind_eq_ok] at h
    obtain ⟨v, s0, h1, h2⟩ := h
    obtain ⟨hext, _, hnamed⟩ := hS _ _ _ _ _ _ _ _ h1
    cases hv : v.2 with
    | some e => rw [hv] at h2; cases h2
    | none =>
      rw [hv] at h2
      cases hv1 : v.1 with
      | structPtr a =>
        rw [hv1] at h2 hnamed
        obtain ⟨s, hs1, hs2⟩ := hnamed
        have haddr : addr < st.heap.length := getElem?_lt_length ht
        have ht0 : s0.heap[addr]? = some (.iface t) := by rw [hext.2 addr haddr, ht]
        have hne : a ≠ addr := by
          intro hc
          rw [hc, ht0] at hs1
          cases hs1
        have ht2 : (s0.setImplementation addr i (some a)).heap[addr]? =
            some (.iface { t with Implementations := t.Implementations.set i (some a) }) := by
          simp [State.setImplementation, List.getElem?_modify_eq, ht0,
            goNode.setImplementation]
        have hs3 : (s0.setImplementation addr i (some a)).heap[a]? = some (.struct s) := by
          simp only [State.setImplementation]
          rw [List.getElem?_modify_ne _ _ (Ne.symm hne), hs1]
        have hlen2 : i + 1 + rest.length ≤
            (t.Implementations.set i (some a)).length := by
          simp only [List.length_set, List.length_cons] at hlen ⊢
          omega
        obtain ⟨t1, ht1, hl1, hk1, hj1⟩ := ih (i + 1) _ st1 _ ht2 hlen2 h2
        have hloop := (convertImplementations_sound g convDef hS addr defName namePrefix
          selectionSet queryOptions rest _ _ _ _ h2).1
        refine ⟨t1, ht1, by simpa using hl1, ?_, ?_⟩
        · intro k hk
          rw [hk1 k (by omega)]
          simp only
          rw [List.getElem?_set_ne (by omega)]
        · intro j implDef1 hj
          cases j with
          | zero =>
            simp only [List.getElem?_cons_zero, Option.some.injEq] at hj
            subst hj
            refine ⟨a, s, ?_, ?_, hs2⟩
            · rw [Nat.add_zero, hk1 i (by omega)]
              simp only
              rw [List.getElem?_set_self (by simp only [List.length_cons] at hlen; omega)]
            · have ha : a < (s0.setImplementation addr i (some a)).heap.length :=
                getElem?_lt_length hs3
              rw [(hloop.2 a ha).1 hne, hs3]
          | succ j =>
            simp only [List.getElem?_cons_succ] at hj
            obtain ⟨b, s2, hb1, hb2, hb3⟩ := hj1 j implDef1 hj
            refine ⟨b, s2, ?_, hb2, hb3⟩
            rw [← hb1]
            congr 1
            omega
      | _ =>
        rw [hv1] at h2
        cases h2

/-- What the `ast.Interface, ast.Union` case returns on success: an interface
node named `name` whose implementations are structs named by `typeName` from
the incoming prefix, one per possible type. -/
theorem convertInterface_names (g : Generator) (convDef : ConvDef) (hS : convDef.Sound)
    {name namePrefix : String} {d : Definition} {selectionSet : List Selection}
    {queryOptions : GenqlientDirective} {st : State} {r : Ret} {st1 : State}
    (h : convertInterface g convDef name namePrefix d selectionSet queryOptions st = .ok r st1)
    (hr : r.2 = none) :
    r.1 = .interfacePtr st.heap.length ∧
    ∃ t, st1.heap[st.heap.length]? = some (.iface t) ∧ t.GoName = name ∧
      t.Implementations.length = (g.schema.GetPossibleTypes d).length ∧
      ∀ (j : Nat) (implDef : Definition), (g.schema.GetPossibleTypes d)[j]? = some implDef →
        ∃ (b : Addr) (s : goStructType), t.Implementations[j]? = some (some b) ∧
          st1.heap[b]? = some (.struct s) ∧ s.GoName = (typeName namePrefix implDef).1 := by
  have hok := convertInterface_ok g convDef hS h
  rcases hok.2.2 with ⟨_, h5, _, t0, ht0, hname⟩ | ⟨h5, _⟩
  · refine ⟨h5, ?_⟩
    unfold convertInterface at h
    by_cases hA : g.Config.AllowBrokenFeatures = true
    · by_cases hT : hasTypename selectionSet = true
      · simp only [hA, hT, Bool.not_true, Bool.false_eq_true, if_false] at h
        rw [Outcome.bind_eq_ok] at h
        obtain ⟨err, s0, h1, h2⟩ := h
        obtain ⟨hst, hr2, _⟩ := finish_eq_ok h2
        subst hst
        rw [hr] at hr2
        subst hr2
        have hcell : ((st.alloc (.iface
            { GoName := name, Description := d.Description, GraphQLName := d.Name,
              Implementations := List.replicate (g.schema.GetPossibleTypes d).length none
            })).2.register name (.interfacePtr st.heap.length)).heap[st.heap.length]? =
            some (.iface
            { GoName := name, Description := d.Description, GraphQLName := d.Name,
              Implementations := List.replicate (g.schema.GetPossibleTypes d).length none
            }) := by
          simp [State.alloc, State.register]
        obtain ⟨t1, ht1, hl1, _, hj1⟩ := convertImplementations_names g convDef hS _ _ _ _ _ _
          0 _ _ _ hcell (by simp) h1
        rw [ht0] at ht1
        cases ht1
        refine ⟨t0, ht0, hname, by simpa using hl1, ?_⟩
        intro j implDef hj
        obtain ⟨b, s, hb1, hb2, hb3⟩ := hj1 j implDef hj
        exact ⟨b, s, by simpa using hb1, hb2, hb3⟩
      · simp only [hA, hT, Bool.not_true, Bool.false_eq_true, if_false, Bool.not_false,
          if_true] at h
        cases h
        cases hr
    · simp only [hA, Bool.not_false, if_true] at h
      cases h
      cases hr
  · exact absurd hr h5

theorem convertOperation_defined_twice (g : Generator) (fuel : Nat)
    (operation : OperationDefinition) (queryOptions : GenqlientDirective) (st : State)
    (d : goType) (h : st.typeMap.lookup (operation.Name ++ "Response") = some d) :
    convertOperation g fuel operation queryOptions st =
      .ok (.nil, some (.definedTwice (operation.Name ++ "Response") d)) st := by
  unfold convertOperation
  rw [h]

theorem convertOperation_eq_ok (g : Generator) (fuel : Nat)
    (operation : OperationDefinition) (queryOptions : GenqlientDirective) (st : State)
    (r : Ret) (st1 : State) (baseType : Definition)
    (hBase : baseTypeForOperation g operation.Operation = (some baseType, none))
    (h : convertOperation g fuel operation queryOptions st = .ok r st1) (hr : r.2 = none) :
    ∃ s0, convertDefinition g fuel (operation.Name ++ "Response") operation.Name baseType
        operation.SelectionSet queryOptions st = .ok r s0 ∧
      ((∃ a, r.1 = .structPtr a ∧ st1 = s0.setRoot a
          ((operation.Name ++ "Response") ++ " is returned by " ++ operation.Name
            ++ " on success.")) ∨
       ((∀ a, r.1 ≠ .structPtr a) ∧ st1 = s0)) := by
  unfold convertOperation at h
  cases hl : st.typeMap.lookup (operation.Name ++ "Response") with
  | some d =>
    rw [hl] at h
    cases h
    cases hr
  | none =>
    rw [hl, hBase] at h
    simp only [Outcome.bind_eq_ok] at h
    obtain ⟨v, s0, h1, h2⟩ := h
    cases hv : v.1 with
    | structPtr a =>
      rw [hv] at h2
      cases h2
      exact ⟨s0, h1, Or.inl ⟨a, hv, rfl⟩⟩
    | _ =>
      rw [hv] at h2
      cases h2
      exact ⟨_, h1, Or.inr ⟨fun a ha => (by rw [hv] at ha; cases ha), rfl⟩⟩

/-! ## What the loops of `convertDefinition` fill in -/

theorem convertFieldWith_ok_field (g : Generator) (convDef : ConvDef)
    {namePrefix fieldAlias : String} {fieldDefinition : Option FieldDefinition}
    {fieldSelectionSet : List Selection} {fieldOptions queryOptions : GenqlientDirective}
    {st : State} {x : Option goStructField} {st1 : State}
    (h : convertFieldWith g convDef namePrefix fieldAlias fieldDefinition fieldSelectionSet
      fieldOptions queryOptions st = .ok (x, none) st1) :
    ∃ fd fld, fieldDefinition = some fd ∧ x = some fld ∧ fld.GoName = upperFirst fieldAlias ∧
      fld.JSONName = fieldAlias ∧ fld.Description = fd.Description := by
  unfold convertFieldWith at h
  cases fieldDefinition with
  | none => cases h
  | some fd =>
    simp only at h
    cases hl : g.schema.Types.lookup fd.Type_.Name with
    | none => rw [hl] at h; cases h
    | some fieldTypedef =>
      rw [hl] at h
      simp only [Outcome.bind_eq_ok] at h
      obtain ⟨v, s0, _, h2⟩ := h
      cases hv : v.2 with
      | some e => rw [hv] at h2; cases h2
      | none =>
        rw [hv] at h2
        cases h2
        exact ⟨fd, _, rfl, rfl, rfl, rfl, rfl⟩

theorem named_of_loopExt {addr : Addr} {h1 h2 : List goNode} {name : String} {t : goType}
    (hl : LoopExt addr h1 h2) (hn : Named name t h1) : Named name t h2 := by
  have key : ∀ (b : Addr) (n : goNode), h1[b]? = some n →
      ∃ n1, h2[b]? = some n1 ∧ n1.header = n.header := by
    intro b n hb
    have hlt : b < h1.length := getElem?_lt_length hb
    have hh := (hl.2 b hlt).2
    rw [hb] at hh
    cases hc : h2[b]? with
    | none => rw [hc] at hh; simp at hh
    | some n1 =>
      rw [hc] at hh
      simp only [Option.map_some', Option.some.injEq] at hh
      exact ⟨n1, rfl, hh⟩
  cases t with
  | nil => trivial
  | opaqueRef r => trivial
  | slice e => exact hn
  | pointer e => exact hn
  | structPtr b =>
    obtain ⟨s, hs1, hs2⟩ := hn
    obtain ⟨n1, hn1, hh⟩ := key b _ hs1
    obtain ⟨s1, rfl, hs3, _⟩ := header_struct hh
    exact ⟨s1, hn1, by rw [hs3, hs2]⟩
  | interfacePtr b =>
    obtain ⟨s, hs1, hs2⟩ := hn
    obtain ⟨n1, hn1, hh⟩ := key b _ hs1
    obtain ⟨s1, rfl, hs3, _⟩ := header_iface hh
    exact ⟨s1, hn1, by rw [hs3, hs2]⟩
  | enumPtr b =>
    obtain ⟨s, hs1, hs2⟩ := hn
    obtain ⟨n1, hn1, hh⟩ := key b _ hs1
    cases n1 with
    | struct x => simp [goNode.header] at hh
    | iface x => simp [goNode.header] at hh
    | enum x =>
      simp only [goNode.header, goNode.enum.injEq] at hh
      exact ⟨x, hn1, by rw [hh, hs2]⟩

theorem convertTypeWith_named (g : Generator) (convDef : ConvDef) (hS : convDef.Sound)
    {name namePrefix : String} {typ : AstType} {selectionSet : List Selection}
    {options queryOptions : GenqlientDirective} {st : State} {r : Ret} {st1 : State}
    (h : convertTypeWith g convDef name namePrefix typ selectionSet options queryOptions st
      = .ok r st1) :
    Named name r.1.core st1.heap := by
  rw [convertTypeWith_eq, Outcome.bind_eq_ok] at h
  obtain ⟨v, s0, h1, h2⟩ := h
  have hn := (convertNamed_sound g convDef hS h1).2.2
  cases h2
  simp only [core_wrapSlices]
  split
  · simpa [goType.core, core_of_named hn] using hn
  · rw [core_of_named hn]
    exact hn

/-- The loop over the selection set fills slot `i + j` of the struct with the
field generated for the j-th selection, which is a field selection. -/
theorem convertSelections_fields (g : Generator) (convDef : ConvDef) (hS : convDef.Sound)
    (addr : Addr) (namePrefix : String) (queryOptions : GenqlientDirective)
    (selectionSet : List Selection) :
    ∀ (i : Nat) (st st1 : State) (s : goStructType),
      st.heap[addr]? = some (.struct s) →
      i + selectionSet.length ≤ s.Fields.length →
      convertSelections g convDef addr namePrefix queryOptions i selectionSet st
        = .ok none st1 →
      ∃ s1, st1.heap[addr]? = some (.struct s1) ∧
        s1.Fields.length = s.Fields.length ∧
        (∀ k, k < i → s1.Fields[k]? = s.Fields[k]?) ∧
        ∀ (j : Nat) (sel : Selection), selectionSet[j]? = some sel →
          ∃ (fieldAlias fieldName : String) (fd : FieldDefinition) (ss : List Selection)
            (p : Position) (fld : goStructField),
            sel = .Field fieldAlias fieldName (some fd) ss p ∧
            s1.Fields[i + j]? = some (some fld) ∧ fld.GoName = upperFirst fieldAlias ∧
            fld.JSONName = fieldAlias ∧ fld.Description = fd.Description := by
  induction selectionSet with
  | nil =>
    intro i st st1 s hs _ h
    simp only [convertSelections] at h
    cases h
    exact ⟨s, hs, rfl, fun _ _ => rfl, fun j sel hj => by simp at hj⟩
  | cons selection rest ih =>
    intro i st st1 s hs hlen h
    simp only [convertSelections] at h
    cases hp : (g.parsePrecedingComment selection.GetPosition).2 with
    | some err => rw [hp] at h; cases h
    | none =>
      rw [hp] at h
      cases selection with
      | FragmentSpread n p => cases h
      | InlineFragment t ss p => cases h
      | Field fa fn fdef fsel p =>
        simp only [Outcome.bind_eq_ok] at h
        obtain ⟨v, s0, h1, h2⟩ := h
        cases hv : v.2 with
        | some e => rw [hv] at h2; cases h2
        | none =>
          rw [hv] at h2
          have h1a : convertFieldWith g convDef namePrefix fa fdef fsel
              (queryOptions.merge (g.parsePrecedingComment
                (Selection.Field fa fn fdef fsel p).GetPosition).1) queryOptions st
              = .ok (v.1, none) s0 := by rw [← hv]; exact h1
          obtain ⟨fd, fld, hfd, hx, hn1, hn2, hn3⟩ := convertFieldWith_ok_field g convDef h1a
          have hext := (convertFieldWith_sound g convDef hS h1).1
          have haddr : addr < st.heap.length := getElem?_lt_length hs
          have hs0 : s0.heap[addr]? = some (.struct s) := by rw [hext.2 addr haddr, hs]
          have hs2 : (s0.setField addr i v.1).heap[addr]? =
              some (.struct { s with Fields := s.Fields.set i v.1 }) := by
            simp [State.setField, List.getElem?_modify_eq, hs0, goNode.setField]
          have hlen2 : i + 1 + rest.length ≤ (s.Fields.set i v.1).length := by
            simp only [List.length_set, List.length_cons] at hlen ⊢
            omega
          obtain ⟨s1, hs1, hl1, hk1, hj1⟩ := ih (i + 1) _ st1 _ hs2 hlen2 h2
          refine ⟨s1, hs1, by simpa using hl1, ?_, ?_⟩
          · intro k hk
            rw [hk1 k (by omega)]
            simp only
            rw [List.getElem?_set_ne (by omega)]
          · intro j sel hj
            cases j with
            | zero =>
              simp only [List.getElem?_cons_zero, Option.some.injEq] at hj
              subst hj
              refine ⟨fa, fn, fd, fsel, p, fld, by rw [hfd], ?_, hn1, hn2, hn3⟩
              rw [Nat.add_zero, hk1 i (by omega)]
              simp only
              rw [List.getElem?_set_self (by simp only [List.length_cons] at hlen; omega), hx]
            | succ j =>
              simp only [List.getElem?_cons_succ] at hj
              obtain ⟨a1, a2, a3, a4, a5, a6, hb1, hb2, hb3⟩ := hj1 j sel hj
              refine ⟨a1, a2, a3, a4, a5, a6, hb1, ?_, hb3⟩
              rw [← hb2]
              congr 1
              omega

/-- The loop over the schema fields of an input object fills slot `i + j` of
the struct with the field generated for the j-th schema field; `Q` is any
property of the converted field type that later steps of the loop preserve. -/
theorem convertInputFields_fields (g : Generator) (convDef : ConvDef) (hS : convDef.Sound)
    (addr : Addr) (queryOptions : GenqlientDirective)
    (Q : FieldDefinition → goType → State → Prop)
    (hQ : ∀ (f : FieldDefinition) (st : State) (r : Ret) (st1 : State),
      convertTypeWith g convDef f.Type_.Name "" f.Type_ [] queryOptions queryOptions st
        = .ok r st1 → r.2 = none → Q f r.1 st1)
    (hStable : ∀ (f : FieldDefinition) (t : goType) (st st2 : State), Q f t st →
      LoopExt addr st.heap st2.heap → KeysKept st.typeMap st2.typeMap → Q f t st2)
    (fields : List FieldDefinition) :
    ∀ (i : Nat) (st st1 : State) (s : goStructType),
      st.heap[addr]? = some (.struct s) →
      i + fields.length ≤ s.Fields.length →
      convertInputFields g convDef addr queryOptions i fields st = .ok none st1 →
      ∃ s1, st1.heap[addr]? = some (.struct s1) ∧
        s1.Fields.length = s.Fields.length ∧
        (∀ k, k < i → s1.Fields[k]? = s.Fields[k]?) ∧
        ∀ (j : Nat) (f : FieldDefinition), fields[j]? = some f →
          ∃ (t : goType),
            s1.Fields[i + j]? = some (some
              { GoName := upperFirst f.Name, GoType := t, JSONName := f.Name,
                Description := f.Description }) ∧ Q f t st1 := by
  induction fields with
  | nil =>
    intro i st st1 s hs _ h
    simp only [convertInputFields] at h
    cases h
    exact ⟨s, hs, rfl, fun _ _ => rfl, fun j sel hj => by simp at hj⟩
  | cons field rest ih =>
    intro i st st1 s hs hlen h
    simp only [convertInputFields, Outcome.bind_eq_ok] at h
    obtain ⟨v, s0, h1, h2⟩ := h
    cases hv : v.2 with
    | some e => rw [hv] at h2; cases h2
    | none =>
      rw [hv] at h2
      have hsound := convertTypeWith_sound g convDef hS h1
      have hq := hQ field st v s0 h1 hv
      have haddr : addr < st.heap.length := getElem?_lt_length hs
      have hs0 : s0.heap[addr]? = some (.struct s) := by rw [hsound.1.2 addr haddr, hs]
      have hs2 : (s0.setField addr i (some
            { GoName := upperFirst field.Name, GoType := v.1, JSONName := field.Name,
              Description := field.Description })).heap[addr]? =
          some (.struct { s with Fields := s.Fields.set i (some
            { GoName := upperFirst field.Name, GoType := v.1, JSONName := field.Name,
              Description := field.Description }) }) := by
        simp [State.setField, List.getElem?_modify_eq, hs0, goNode.setField]
      have hlen2 : i + 1 + rest.length ≤ (s.Fields.set i (some
            { GoName := upperFirst field.Name, GoType := v.1, JSONName := field.Name,
              Description := field.Description })).length := by
        simp only [List.length_set, List.length_cons] at hlen ⊢
        omega
      obtain ⟨s1, hs1, hl1, hk1, hj1⟩ := ih (i + 1) _ st1 _ hs2 hlen2 h2
      have hloop := convertInputFields_sound g convDef hS addr queryOptions rest _ _ _ _ h2
      refine ⟨s1, hs1, by simpa using hl1, ?_, ?_⟩
      · intro k hk
        rw [hk1 k (by omega)]
        simp only
        rw [List.getElem?_set_ne (by omega)]
      · intro j f hj
        cases j with
        | zero =>
          simp only [List.getElem?_cons_zero, Option.some.injEq] at hj
          subst hj
          refine ⟨v.1, ?_, ?_⟩
          · rw [Nat.add_zero, hk1 i (by omega)]
            simp only
            rw [List.getElem?_set_self (by simp only [List.length_cons] at hlen; omega)]
          · exact hStable _ _ s0 st1 hq
              (loopExt_trans (loopExt_modify addr _ (goNode.header_setField i _) s0.heap)
                hloop.1) hloop.2
        | succ j =>
          simp only [List.getElem?_cons_succ] at hj
          obtain ⟨t, hb1, hb2⟩ := hj1 j f hj
          refine ⟨t, ?_, hb2⟩
          rw [← hb1]
          congr 1
          omega

/-- The loop over the possible types fills slot `i + j` of the interface with a
pointer to the struct converted from the j-th possible type; `P` is any
property that `convertDefinition` gives to the struct it returns. -/
theorem convertImplementations_slots (g : Generator) (convDef : ConvDef) (hS : convDef.Sound)
    (P : Definition → goStructType → Prop)
    (hP : ∀ (name namePrefix : String) (d : Definition) (selectionSet : List Selection)
      (queryOptions : GenqlientDirective) (st : State) (r : Ret) (st1 : State) (b : Addr),
      convDef name namePrefix d selectionSet queryOptions st = .ok r st1 →
      r.1 = .structPtr b → ∃ s, st1.heap[b]? = some (.struct s) ∧ P d s)
    (addr : Addr) (defName namePrefix : String) (selectionSet : List Selection)
    (queryOptions : GenqlientDirective) (impls : List Definition) :
    ∀ (i : Nat) (st st1 : State) (t : goInterfaceType),
      st.heap[addr]? = some (.iface t) →
      i + impls.length ≤ t.Implementations.length →
      convertImplementations g convDef addr defName namePrefix selectionSet queryOptions
        i impls st = .ok none st1 →
      ∃ t1, st1.heap[addr]? = some (.iface t1) ∧
        t1.Implementations.length = t.Implementations.length ∧
        (∀ k, k < i → t1.Implementations[k]? = t.Implementations[k]?) ∧
        ∀ (j : Nat) (implDef : Definition), impls[j]? = some implDef →
          ∃ (b : Addr) (s : goStructType), t1.Implementations[i + j]? = some (some b) ∧
            st1.heap[b]? = some (.struct s) ∧ P implDef s := by
  induction impls with
  | nil =>
    intro i st st1 t ht _ h
    simp only [convertImplementations] at h
    cases h
    exact ⟨t, ht, rfl, fun _ _ => rfl, fun j implDef hj => by simp at hj⟩
  | cons implDef rest ih =>
    intro i st st1 t ht hlen h
    simp only [convertImplementations, Outcome.bind_eq_ok] at h
    obtain ⟨v, s0, h1, h2⟩ := h
    obtain ⟨hext, _, _⟩ := hS _ _ _ _ _ _ _ _ h1
    cases hv : v.2 with
    | some e => rw [hv] at h2; cases h2
    | none =>
      rw [hv] at h2
      cases hv1 : v.1 with
      | structPtr a =>
        rw [hv1] at h2
        obtain ⟨s, hs1, hs2⟩ := hP _ _ _ _ _ _ _ _ a h1 hv1
        have haddr : addr < st.heap.length := getElem?_lt_length ht
        have ht0 : s0.heap[addr]? = some (.iface t) := by rw [hext.2 addr haddr, ht]
        have hne : a ≠ addr := by
          intro hc
          rw [hc, ht0] at hs1
          cases hs1
        have ht2 : (s0.setImplementation addr i (some a)).heap[addr]? =
            some (.iface { t with Implementations := t.Implementations.set i (some a) }) := by
          simp [State.setImplementation, List.getElem?_modify_eq, ht0,
            goNode.setImplementation]
        have hs3 : (s0.setImplementation addr i (some a)).heap[a]? = some (.struct s) := by
          simp only [State.setImplementation]
          rw [List.getElem?_modify_ne _ _ (Ne.symm hne), hs1]
        have hlen2 : i + 1 + rest.length ≤
            (t.Implementations.set i (some a)).length := by
          simp only [List.length_set, List.length_cons] at hlen ⊢
          omega
        obtain ⟨t1, ht1, hl1, hk1, hj1⟩ := ih (i + 1) _ st1 _ ht2 hlen2 h2
        have hloop := (convertImplementations_sound g convDef hS addr defName namePrefix
          selectionSet queryOptions rest _ _ _ _ h2).1
        refine ⟨t1, ht1, by simpa using hl1, ?_, ?_⟩
        · intro k hk
          rw [hk1 k (by omega)]
          simp only
          rw [List.getElem?_set_ne (by omega)]
        · intro j implDef1 hj
          cases j with
          | zero =>
            simp only [List.getElem?_cons_zero, Option.some.injEq] at hj
            subst hj
            refine ⟨a, s, ?_, ?_, hs2⟩
            · rw [Nat.add_zero, hk1 i (by omega)]
              simp only
              rw [List.getElem?_set_self (by simp only [List.length_cons] at hlen; omega)]
            · have ha : a < (s0.setImplementation addr i (some a)).heap.length :=
                getElem?_lt_length hs3
              rw [(hloop.2 a ha).1 hne, hs3]
          | succ j =>
            simp only [List.getElem?_cons_succ] at hj
            obtain ⟨b, s2, hb1, hb2, hb3⟩ := hj1 j implDef1 hj
            refine ⟨b, s2, ?_, hb2, hb3⟩
            rw [← hb1]
            congr 1
            omega
      | _ =>
        rw [hv1] at h2
        cases h2

theorem convertDefinition_struct_graphQLName (g : Generator) (fuel : Nat) :
    ∀ (name namePrefix : String) (d : Definition) (selectionSet : List Selection)
      (queryOptions : GenqlientDirective) (st : State) (r : Ret) (st1 : State) (b : Addr),
      convertDefinition g fuel name namePrefix d selectionSet queryOptions st = .ok r st1 →
      r.1 = .structPtr b → ∃ s, st1.heap[b]? = some (.struct s) ∧ s.GraphQLName = d.Name := by
  intro name namePrefix d selectionSet queryOptions st r st1 b h hb
  cases fuel with
  | zero => cases h
  | succ f =>
    simp only [convertDefinition, convertDefinitionStep] at h
    cases hs : g.Config.Scalars.lookup d.Name with
    | some q => rw [hs] at h; cases h; cases hb
    | none =>
      rw [hs] at h
      simp only at h
      cases hbt : builtinTypes.lookup d.Name with
      | some q => rw [hbt] at h; cases h; cases hb
      | none =>
        rw [hbt] at h
        simp only at h
        cases hk : d.Kind with
        | Object =>
          rw [hk] at h
          obtain ⟨_, _, _, h4, s, hs1, _, _, hs4, _⟩ :=
            convertObject_ok g _ (convertDefinition_sound g f) h
          rcases h4 with ⟨_, h5⟩ | ⟨_, h5⟩
          · rw [h5] at hb; cases hb; exact ⟨s, hs1, hs4⟩
          · rw [h5] at hb; cases hb
        | InputObject =>
          rw [hk] at h
          obtain ⟨_, _, _, h4, s, hs1, _, _, hs4, _⟩ :=
            convertInputObject_ok g _ (convertDefinition_sound g f) h
          rcases h4 with ⟨_, h5⟩ | ⟨_, h5⟩
          · rw [h5] at hb; cases hb; exact ⟨s, hs1, hs4⟩
          · rw [h5] at hb; cases hb
        | Interface =>
          rw [hk] at h
          rcases (convertInterface_ok g _ (convertDefinition_sound g f) h).2.2 with
            ⟨_, h5, _⟩ | ⟨_, h5⟩
          · rw [h5] at hb; cases hb
          · rw [h5] at hb; cases hb
        | Union =>
          rw [hk] at h
          rcases (convertInterface_ok g _ (convertDefinition_sound g f) h).2.2 with
            ⟨_, h5, _⟩ | ⟨_, h5⟩
          · rw [h5] at hb; cases hb
          · rw [h5] at hb; cases hb
        | Enum =>
          rw [hk] at h
          have h5 := (convertEnum_ok h).2.2.2.2.1
          rw [h5] at hb; cases hb
        | Scalar => rw [hk] at h; cases h; cases hb
        | Other raw => rw [hk] at h; cases h; cases hb

/-- What the `ast.Interface, ast.Union` case returns on success, with any
property `P` that `convertDefinition` gives to the structs it returns. -/
theorem convertInterface_slots (g : Generator) (convDef : ConvDef) (hS : convDef.Sound)
    (P : Definition → goStructType → Prop)
    (hP : ∀ (name namePrefix : String) (d : Definition) (selectionSet : List Selection)
      (queryOptions : GenqlientDirective) (st : State) (r : Ret) (st1 : State) (b : Addr),
      convDef name namePrefix d selectionSet queryOptions st = .ok r st1 →
      r.1 = .structPtr b → ∃ s, st1.heap[b]? = some (.struct s) ∧ P d s)
    {name namePrefix : String} {d : Definition} {selectionSet : List Selection}
    {queryOptions : GenqlientDirective} {st : State} {r : Ret} {st1 : State}
    (h : convertInterface g convDef name namePrefix d selectionSet queryOptions st = .ok r st1)
    (hr : r.2 = none) :
    g.Config.AllowBrokenFeatures = true ∧ hasTypename selectionSet = true ∧
    r.1 = .interfacePtr st.heap.length ∧
    ∃ t, st1.heap[st.heap.length]? = some (.iface t) ∧ t.GoName = name ∧
      t.Implementations.length = (g.schema.GetPossibleTypes d).length ∧
      ∀ (j : Nat) (implDef : Definition), (g.schema.GetPossibleTypes d)[j]? = some implDef →
        ∃ (b : Addr) (s : goStructType), t.Implementations[j]? = some (some b) ∧
          st1.heap[b]? = some (.struct s) ∧ P implDef s := by
  have hok := convertInterface_ok g convDef hS h
  rcases hok.2.2 with ⟨_, h5, _, t0, ht0, hname⟩ | ⟨h5, _⟩
  · unfold convertInterface at h
    by_cases hA : g.Config.AllowBrokenFeatures = true
    · by_cases hT : hasTypename selectionSet = true
      · refine ⟨hA, hT, h5, ?_⟩
        simp only [hA, hT, Bool.not_true, Bool.false_eq_true, if_false] at h
        rw [Outcome.bind_eq_ok] at h
        obtain ⟨err, s0, h1, h2⟩ := h
        obtain ⟨hst, hr2, _⟩ := finish_eq_ok h2
        subst hst
        rw [hr] at hr2
        subst hr2
        have hcell : ((st.alloc (.iface
            { GoName := name, Description := d.Description, GraphQLName := d.Name,
              Implementations := List.replicate (g.schema.GetPossibleTypes d).length none
            })).2.register name (.interfacePtr st.heap.length)).heap[st.heap.length]? =
            some (.iface
            { GoName := name, Description := d.Description, GraphQLName := d.Name,
              Implementations := List.replicate (g.schema.GetPossibleTypes d).length none
            }) := by
          simp [State.alloc, State.register]
        obtain ⟨t1, ht1, hl1, _, hj1⟩ := convertImplementations_slots g convDef hS P hP
          _ _ _ _ _ _ 0 _ _ _ hcell (by simp) h1
        rw [ht0] at ht1
        cases ht1
        refine ⟨t0, ht0, hname, by simpa using hl1, ?_⟩
        intro j implDef hj
        obtain ⟨b, s, hb1, hb2, hb3⟩ := hj1 j implDef hj
        exact ⟨b, s, by simpa using hb1, hb2, hb3⟩
      · simp only [hA, hT, Bool.not_true, Bool.false_eq_true, if_false, Bool.not_false,
          if_true] at h
        cases h
        cases hr
    · simp only [hA, Bool.not_false, if_true] at h
      cases h
      cases hr
  · exact absurd hr h5

theorem objectStart_cell (name : String) (d : Definition) (selectionSet : List Selection)
    (st : State) :
    (objectStart name d selectionSet st).heap[st.heap.length]? =
      some (.struct
        { GoName := name, Description := d.Description, GraphQLName := d.Name,
          Fields := List.replicate selectionSet.length none, Incomplete := true }) := by
  simp [objectStart, State.alloc, State.register]

theorem convertObject_eq (g : Generator) (convDef : ConvDef) (name namePrefix : String)
    (d : Definition) (selectionSet : List Selection) (queryOptions : GenqlientDirective)
    (st : State) :
    convertObject g convDef name namePrefix d selectionSet queryOptions st =
      (convertSelections g convDef st.heap.length namePrefix queryOptions 0 selectionSet
        (objectStart name d selectionSet st)).bind (finish (.structPtr st.heap.length)) :=
  rfl

/-- What the `ast.Object` case returns on success: the struct has one filled
slot per selection, in selection order, each selection being a field. -/
theorem convertObject_fields (g : Generator) (convDef : ConvDef) (hS : convDef.Sound)
    {name namePrefix : String} {d : Definition} {selectionSet : List Selection}
    {queryOptions : GenqlientDirective} {st : State} {r : Ret} {st1 : State}
    (h : convertObject g convDef name namePrefix d selectionSet queryOptions st = .ok r st1)
    (hr : r.2 = none) :
    r.1 = .structPtr st.heap.length ∧
    ∃ s, st1.heap[st.heap.length]? = some (.struct s) ∧ s.GoName = name ∧
      s.Incomplete = true ∧ s.Fields.length = selectionSet.length ∧
      ∀ (j : Nat) (sel : Selection), selectionSet[j]? = some sel →
        ∃ (fieldAlias fieldName : String) (fd : FieldDefinition) (ss : List Selection)
          (p : Position) (fld : goStructField),
          sel = .Field fieldAlias fieldName (some fd) ss p ∧
          s.Fields[j]? = some (some fld) ∧ fld.GoName = upperFirst fieldAlias ∧
          fld.JSONName = fieldAlias ∧ fld.Description = fd.Description := by
  obtain ⟨_, _, _, h4, s, hs1, hs2, _, _, hs5⟩ := convertObject_ok g convDef hS h
  rcases h4 with ⟨_, h5⟩ | ⟨h5, _⟩
  · refine ⟨h5, ?_⟩
    rw [convertObject_eq, Outcome.bind_eq_ok] at h
    obtain ⟨err, s0, h1, h2⟩ := h
    obtain ⟨hst, hr2, _⟩ := finish_eq_ok h2
    subst hst
    rw [hr] at hr2
    subst hr2
    obtain ⟨s1, hc1, hl1, _, hj1⟩ := convertSelections_fields g convDef hS _ _ _ selectionSet
      0 _ _ _ (objectStart_cell name d selectionSet st) (by simp) h1
    rw [hs1] at hc1
    cases hc1
    refine ⟨s, hs1, hs2, hs5, by simpa using hl1, ?_⟩
    intro j sel hj
    obtain ⟨a1, a2, a3, a4, a5, a6, hb1, hb2, hb3⟩ := hj1 j sel hj
    exact ⟨a1, a2, a3, a4, a5, a6, hb1, by simpa using hb2, hb3⟩
  · exact absurd hr h5

theorem convertSelections_append (g : Generator) (convDef : ConvDef) (addr : Addr)
    (namePrefix : String) (queryOptions : GenqlientDirective) (pre rest : List Selection) :
    ∀ (i : Nat) (st : State),
      convertSelections g convDef addr namePrefix queryOptions i (pre ++ rest) st =
        (convertSelections g convDef addr namePrefix queryOptions i pre st).bind
          fun err st1 =>
            match err with
            | some e => .ok (some e) st1
            | none =>
              convertSelections g convDef addr namePrefix queryOptions (i + pre.length)
                rest st1 := by
  induction pre with
  | nil =>
    intro i st
    simp [convertSelections, Outcome.bind]
  | cons selection pre ih =>
    intro i st
    simp only [List.cons_append, convertSelections, List.length_cons]
    cases hp : (g.parsePrecedingComment selection.GetPosition).2 with
    | some err => simp [Outcome.bind]
    | none =>
      cases selection with
      | FragmentSpread n p => simp [Outcome.bind]
      | InlineFragment t ss p => simp [Outcome.bind]
      | Field fa fn fdef fsel p =>
        simp only
        cases hc : convertFieldWith g convDef namePrefix fa fdef fsel
            (queryOptions.merge (g.parsePrecedingComment
              (Selection.Field fa fn fdef fsel p).GetPosition).1) queryOptions st with
        | nilDeref => simp [Outcome.bind]
        | outOfFuel => simp [Outcome.bind]
        | ok v s0 =>
          simp only [Outcome.bind]
          cases hv : v.2 with
          | some e => simp
          | none =>
            simp only
            have key := ih (i + 1) (s0.setField addr i v.1)
            have e : i + 1 + pre.length = i + (pre.length + 1) := by omega
            rw [e] at key
            exact key

/-! ## Opaque references come from the escape hatches -/

theorem heapLeafOK_append (g : Generator) (h : List goNode) (n : goNode)
    (hh : HeapLeafOK g h)
    (hn : ∀ (s : goStructType), n = .struct s →
      ∀ (i : Nat) (f : goStructField), s.Fields[i]? ≠ some (some f)) :
    HeapLeafOK g (h ++ [n]) := by
  intro a s i f ha hf
  by_cases hlt : a < h.length
  · rw [List.getElem?_append_left hlt] at ha
    exact hh a s i f ha hf
  · rw [List.getElem?_append_right (Nat.le_of_not_lt hlt)] at ha
    cases hk : a - h.length with
    | zero =>
      rw [hk] at ha
      simp only [List.getElem?_cons_zero, Option.some.injEq] at ha
      exact absurd hf (hn s ha i f)
    | succ k =>
      rw [hk] at ha
      simp at ha

theorem replicate_none_no_field {α : Type} (n i : Nat) (f : α) :
    (List.replicate n (none : Option α))[i]? ≠ some (some f) := by
  intro h
  have := List.getElem?_mem h
  simp [List.mem_replicate] at this

theorem heapLeafOK_setField (g : Generator) (h : List goNode) (addr : Addr) (i : Nat)
    (fo : Option goStructField) (hh : HeapLeafOK g h)
    (hfo : ∀ f, fo = some f → LeafOK g f.GoType) :
    HeapLeafOK g (List.modify (goNode.setField i fo) addr h) := by
  intro a s k f ha hf
  by_cases hne : addr = a
  · subst hne
    rw [List.getElem?_modify_eq] at ha
    cases hc : h[addr]? with
    | none => rw [hc] at ha; simp at ha
    | some n =>
      rw [hc] at ha
      cases n with
      | struct s0 =>
        simp only [Option.map_eq_map, Option.map_some', goNode.setField, Option.some.injEq,
          goNode.struct.injEq] at ha
        subst ha
        simp only at hf
        by_cases hik : i = k
        · subst hik
          by_cases hlt : i < s0.Fields.length
          · rw [List.getElem?_set_self hlt] at hf
            simp only [Option.some.injEq] at hf
            exact hfo f hf
          · rw [List.getElem?_eq_none (by simpa using Nat.le_of_not_lt hlt)] at hf
            cases hf
        · rw [List.getElem?_set_ne hik] at hf
          exact hh addr s0 k f hc hf
      | iface t =>
        simp only [Option.map_eq_map, Option.map_some', goNode.setField, Option.some.injEq]
          at ha
        cases ha
      | enum e =>
        simp only [Option.map_eq_map, Option.map_some', goNode.setField, Option.some.injEq]
          at ha
        cases ha
  · rw [List.getElem?_modify_ne _ _ hne] at ha
    exact hh a s k f ha hf

theorem heapLeafOK_modify_fields (g : Generator) (h : List goNode) (addr : Addr)
    (m : goNode → goNode) (hh : HeapLeafOK g h)
    (hm : ∀ n s, m n = .struct s → ∃ s0, n = .struct s0 ∧ s.Fields = s0.Fields) :
    HeapLeafOK g (List.modify m addr h) := by
  intro a s k f ha hf
  by_cases hne : addr = a
  · subst hne
    rw [List.getElem?_modify_eq] at ha
    cases hc : h[addr]? with
    | none => rw [hc] at ha; simp at ha
    | some n =>
      rw [hc] at ha
      simp only [Option.map_eq_map, Option.map_some', Option.some.injEq] at ha
      obtain ⟨s0, hs0, hfields⟩ := hm n s ha
      subst hs0
      rw [hfields] at hf
      exact hh addr s0 k f hc hf
  · rw [List.getElem?_modify_ne _ _ hne] at ha
    exact hh a s k f ha hf

theorem heapLeafOK_setImplementation (g : Generator) (st : State) (addr : Addr) (i : Nat)
    (impl : Option Addr) (hh : HeapLeafOK g st.heap) :
    HeapLeafOK g (st.setImplementation addr i impl).heap := by
  apply heapLeafOK_modify_fields g st.heap addr _ hh
  intro n s hn
  cases n with
  | struct s0 =>
    simp only [goNode.setImplementation, goNode.struct.injEq] at hn
    exact ⟨s0, rfl, by rw [hn]⟩
  | iface t => simp [goNode.setImplementation] at hn
  | enum e => simp [goNode.setImplementation] at hn

theorem heapLeafOK_setRoot (g : Generator) (st : State) (addr : Addr) (d : String)
    (hh : HeapLeafOK g st.heap) : HeapLeafOK g (st.setRoot addr d).heap := by
  apply heapLeafOK_modify_fields g st.heap addr _ hh
  intro n s hn
  cases n with
  | struct s0 =>
    simp only [goNode.setRoot, goNode.struct.injEq] at hn
    exact ⟨s0, rfl, by rw [← hn]⟩
  | iface t => simp [goNode.setRoot] at hn
  | enum e => simp [goNode.setRoot] at hn

theorem leafOK_of_core_eq (g : Generator) {t u : goType} (h : t.core = u.core)
    (hu : LeafOK g u) : LeafOK g t := by
  intro ref hr
  exact hu ref (by rw [← h]; exact hr)

theorem convertTypeWith_leafy (g : Generator) (convDef : ConvDef) (hL : convDef.Leafy g)
    {name namePrefix : String} {typ : AstType} {selectionSet : List Selection}
    {options queryOptions : GenqlientDirective} {st : State} {r : Ret} {st1 : State}
    (h : convertTypeWith g convDef name namePrefix typ selectionSet options queryOptions st
      = .ok r st1)
    (hh : HeapLeafOK g st.heap) : HeapLeafOK g st1.heap ∧ LeafOK g r.1 := by
  rw [convertTypeWith_eq, Outcome.bind_eq_ok] at h
  obtain ⟨v, s0, h1, h2⟩ := h
  unfold convertNamed at h1
  cases hl : g.schema.Types.lookup typ.Name with
  | none => rw [hl] at h1; cases h1
  | some d =>
    rw [hl] at h1
    obtain ⟨hh1, hv⟩ := hL _ _ _ _ _ _ _ _ h1 hh
    cases h2
    refine ⟨hh1, leafOK_of_core_eq g ?_ hv⟩
    simp only [core_wrapSlices]
    split
    · rfl
    · rfl

theorem convertFieldWith_leafy (g : Generator) (convDef : ConvDef) (hL : convDef.Leafy g)
    {namePrefix fieldAlias : String} {fieldDefinition : Option FieldDefinition}
    {fieldSelectionSet : List Selection} {fieldOptions queryOptions : GenqlientDirective}
    {st : State} {r : Option goStructField × Option GenError} {st1 : State}
    (h : convertFieldWith g convDef namePrefix fieldAlias fieldDefinition fieldSelectionSet
      fieldOptions queryOptions st = .ok r st1)
    (hh : HeapLeafOK g st.heap) :
    HeapLeafOK g st1.heap ∧ ∀ f, r.1 = some f → LeafOK g f.GoType := by
  unfold convertFieldWith at h
  cases fieldDefinition with
  | none =>
    cases h
    exact ⟨hh, fun f hf => by cases hf⟩
  | some fd =>
    simp only at h
    cases hl : g.schema.Types.lookup fd.Type_.Name with
    | none => rw [hl] at h; cases h
    | some fieldTypedef =>
      rw [hl] at h
      simp only [Outcome.bind_eq_ok] at h
      obtain ⟨v, s0, h1, h2⟩ := h
      obtain ⟨hh1, hv⟩ := convertTypeWith_leafy g convDef hL h1 hh
      cases hv2 : v.2 with
      | none =>
        rw [hv2] at h2
        cases h2
        refine ⟨hh1, fun f hf => ?_⟩
        simp only [Option.some.injEq] at hf
        subst hf
        exact hv
      | some e =>
        rw [hv2] at h2
        cases h2
        exact ⟨hh1, fun f hf => by cases hf⟩

theorem convertSelections_leafy (g : Generator) (convDef : ConvDef) (hL : convDef.Leafy g)
    (addr : Addr) (namePrefix : String) (queryOptions : GenqlientDirective)
    (selectionSet : List Selection) :
    ∀ (i : Nat) (st : State) (r : Option GenError) (st1 : State),
      convertSelections g convDef addr namePrefix queryOptions i selectionSet st = .ok r st1 →
      HeapLeafOK g st.heap → HeapLeafOK g st1.heap := by
  induction selectionSet with
  | nil =>
    intro i st r st1 h hh
    simp only [convertSelections] at h
    cases h
    exact hh
  | cons selection rest ih =>
    intro i st r st1 h hh
    simp only [convertSelections] at h
    cases hp : (g.parsePrecedingComment selection.GetPosition).2 with
    | some err => rw [hp] at h; cases h; exact hh
    | none =>
      rw [hp] at h
      cases selection with
      | FragmentSpread n p => cases h; exact hh
      | InlineFragment t s p => cases h; exact hh
      | Field fa fn fdef fsel p =>
        simp only [Outcome.bind_eq_ok] at h
        obtain ⟨v, s0, h1, h2⟩ := h
        obtain ⟨hh1, hv⟩ := convertFieldWith_leafy g convDef hL h1 hh
        have hset : HeapLeafOK g (s0.setField addr i v.1).heap :=
          heapLeafOK_setField g s0.heap addr i v.1 hh1 hv
        cases hv2 : v.2 with
        | some e => rw [hv2] at h2; cases h2; exact hset
        | none => rw [hv2] at h2; exact ih _ _ _ _ h2 hset

theorem convertInputFields_leafy (g : Generator) (convDef : ConvDef) (hL : convDef.Leafy g)
    (addr : Addr) (queryOptions : GenqlientDirective) (fields : List FieldDefinition) :
    ∀ (i : Nat) (st : State) (r : Option GenError) (st1 : State),
      convertInputFields g convDef addr queryOptions i fields st = .ok r st1 →
      HeapLeafOK g st.heap → HeapLeafOK g st1.heap := by
  induction fields with
  | nil =>
    intro i st r st1 h hh
    simp only [convertInputFields] at h
    cases h
    exact hh
  | cons field rest ih =>
    intro i st r st1 h hh
    simp only [convertInputFields, Outcome.bind_eq_ok] at h
    obtain ⟨v, s0, h1, h2⟩ := h
    obtain ⟨hh1, hv⟩ := convertTypeWith_leafy g convDef hL h1 hh
    cases hv2 : v.2 with
    | some e => rw [hv2] at h2; cases h2; exact hh1
    | none =>
      rw [hv2] at h2
      refine ih _ _ _ _ h2 (heapLeafOK_setField g s0.heap addr i _ hh1 ?_)
      intro f hf
      simp only [Option.some.injEq] at hf
      subst hf
      exact hv

theorem convertImplementations_leafy (g : Generator) (convDef : ConvDef)
    (hL : convDef.Leafy g) (addr : Addr) (defName namePrefix : String)
    (selectionSet : List Selection) (queryOptions : GenqlientDirective)
    (impls : List Definition) :
    ∀ (i : Nat) (st : State) (r : Option GenError) (st1 : State),
      convertImplementations g convDef addr defName namePrefix selectionSet queryOptions
        i impls st = .ok r st1 →
      HeapLeafOK g st.heap → HeapLeafOK g st1.heap := by
  induction impls with
  | nil =>
    intro i st r st1 h hh
    simp only [convertImplementations] at h
    cases h
    exact hh
  | cons implDef rest ih =>
    intro i st r st1 h hh
    simp only [convertImplementations, Outcome.bind_eq_ok] at h
    obtain ⟨v, s0, h1, h2⟩ := h
    obtain ⟨hh1, _⟩ := hL _ _ _ _ _ _ _ _ h1 hh
    cases hv2 : v.2 with
    | some e => rw [hv2] at h2; cases h2; exact hh1
    | none =>
      rw [hv2] at h2
      cases hv1 : v.1 with
      | structPtr a =>
        rw [hv1] at h2
        exact ih _ _ _ _ h2 (heapLeafOK_setImplementation g s0 addr i (some a) hh1)
      | _ =>
        rw [hv1] at h2
        cases h2
        exact hh1

theorem leafOK_of_other_node (g : Generator) (t : goType)
    (h : ∀ ref, t.core ≠ .opaqueRef ref) : LeafOK g t :=
  fun ref hr => absurd hr (h ref)

theorem finish_leafy (g : Generator) {t : goType} {err : Option GenError} {st : State}
    {r : Ret} {st1 : State} (h : finish t err st = .ok r st1)
    (ht : ∀ ref, t.core ≠ .opaqueRef ref) : st1 = st ∧ LeafOK g r.1 := by
  obtain ⟨hst, _, hr⟩ := finish_eq_ok h
  refine ⟨hst, ?_⟩
  rcases hr with ⟨_, h1⟩ | ⟨_, h1⟩
  · rw [h1]; exact leafOK_of_other_node g t ht
  · rw [h1]; exact leafOK_of_other_node g _ (by intro ref hc; cases hc)

theorem convertDefinitionStep_leafy (g : Generator) (convDef : ConvDef)
    (hL : convDef.Leafy g) : ConvDef.Leafy g (convertDefinitionStep g convDef) := by
  intro name namePrefix d selectionSet queryOptions st r st1 h hh
  unfold convertDefinitionStep at h
  cases hs : g.Config.Scalars.lookup d.Name with
  | some q =>
    rw [hs] at h
    cases h
    refine ⟨hh, fun ref hr => ?_⟩
    simp only [goType.core, goType.opaqueRef.injEq] at hr
    exact Or.inl ⟨d.Name, q, hs, hr.symm⟩
  | none =>
    rw [hs] at h
    simp only at h
    cases hb : builtinTypes.lookup d.Name with
    | some q =>
      rw [hb] at h
      cases h
      refine ⟨hh, fun ref hr => ?_⟩
      simp only [goType.core, goType.opaqueRef.injEq] at hr
      exact Or.inr ⟨d.Name, by rw [hb, hr]⟩
    | none =>
      rw [hb] at h
      simp only at h
      have hobj : ∀ (selSet : List Selection),
          convertObject g convDef name namePrefix d selSet queryOptions st = .ok r st1 →
          HeapLeafOK g st1.heap ∧ LeafOK g r.1 := by
        intro selSet h
        unfold convertObject at h
        rw [Outcome.bind_eq_ok] at h
        obtain ⟨err, s0, h1, h2⟩ := h
        obtain ⟨hst, hr⟩ := finish_leafy g h2 (by intro ref hc; cases hc)
        subst hst
        refine ⟨convertSelections_leafy g convDef hL _ _ _ _ _ _ _ _ h1 ?_, hr⟩
        simp only [State.alloc, State.register]
        apply heapLeafOK_append g _ _ hh
        intro s hs1 i f
        simp only [goNode.struct.injEq] at hs1
        subst hs1
        exact replicate_none_no_field _ _ _
      have hiface : convertInterface g convDef name namePrefix d selectionSet queryOptions st
          = .ok r st1 → HeapLeafOK g st1.heap ∧ LeafOK g r.1 := by
        intro h
        unfold convertInterface at h
        by_cases hA : g.Config.AllowBrokenFeatures = true
        · by_cases hT : hasTypename selectionSet = true
          · simp only [hA, hT, Bool.not_true, Bool.false_eq_true, if_false] at h
            rw [Outcome.bind_eq_ok] at h
            obtain ⟨err, s0, h1, h2⟩ := h
            obtain ⟨hst, hr⟩ := finish_leafy g h2 (by intro ref hc; cases hc)
            subst hst
            refine ⟨convertImplementations_leafy g convDef hL _ _ _ _ _ _ _ _ _ _ h1 ?_, hr⟩
            simp only [State.alloc, State.register]
            apply heapLeafOK_append g _ _ hh
            intro s hs1
            cases hs1
          · simp only [hA, hT, Bool.not_true, Bool.false_eq_true, if_false, Bool.not_false,
              if_true] at h
            cases h
            exact ⟨hh, leafOK_of_other_node g _ (by intro ref hc; cases hc)⟩
        · simp only [hA, Bool.not_false, if_true] at h
          cases h
          exact ⟨hh, leafOK_of_other_node g _ (by intro ref hc; cases hc)⟩
      cases hk : d.Kind with
      | Object => rw [hk] at h; exact hobj _ h
      | InputObject =>
        rw [hk] at h
        unfold convertInputObject at h
        rw [Outcome.bind_eq_ok] at h
        obtain ⟨err, s0, h1, h2⟩ := h
        obtain ⟨hst, hr⟩ := finish_leafy g h2 (by intro ref hc; cases hc)
        subst hst
        refine ⟨convertInputFields_leafy g convDef hL _ _ _ _ _ _ _ h1 ?_, hr⟩
        simp only [State.alloc, State.register]
        apply heapLeafOK_append g _ _ hh
        intro s hs1 i f
        simp only [goNode.struct.injEq] at hs1
        subst hs1
        exact replicate_none_no_field _ _ _
      | Interface => rw [hk] at h; exact hiface h
      | Union => rw [hk] at h; exact hiface h
      | Enum =>
        rw [hk] at h
        unfold convertEnum at h
        cases h
        refine ⟨?_, leafOK_of_other_node g _ (by intro ref hc; cases hc)⟩
        simp only [State.alloc, State.register]
        apply heapLeafOK_append g _ _ hh
        intro s hs1
        cases hs1
      | Scalar =>
        rw [hk] at h
        cases h
        exact ⟨hh, leafOK_of_other_node g _ (by intro ref hc; cases hc)⟩
      | Other raw =>
        rw [hk] at h
        cases h
        exact ⟨hh, leafOK_of_other_node g _ (by intro ref hc; cases hc)⟩

theorem convertDefinition_leafy (g : Generator) (fuel : Nat) :
    ConvDef.Leafy g (convertDefinition g fuel) := by
  induction fuel with
  | zero =>
    intro name namePrefix d selectionSet queryOptions st r st1 h
    cases h
  | succ n ih => exact convertDefinitionStep_leafy g _ ih

/-! ## Conversion does not depend on where the heap stands -/

theorem goType.core_shift (k : Nat) (t : goType) : (t.shift k).core = t.core.shift k := by
  induction t with
  | slice e ih => simpa [goType.shift, goType.core] using ih
  | pointer e ih => simpa [goType.shift, goType.core] using ih
  | _ => rfl

theorem wrapSlices_shift (k n : Nat) (t : goType) :
    (wrapSlices n t).shift k = wrapSlices n (t.shift k) := by
  induction n with
  | zero => rfl
  | succ n ih => simp [wrapSlices, goType.shift, ih]

theorem goNode.shift_setField (k i : Nat) (f : Option goStructField) (n : goNode) :
    (n.setField i f).shift k = (n.shift k).setField i (f.map (goStructField.shift k)) := by
  cases n with
  | struct s => simp [goNode.setField, goNode.shift, List.map_set]
  | iface t => rfl
  | enum e => rfl

theorem goNode.shift_setImplementation (k i : Nat) (impl : Option Addr) (n : goNode) :
    (n.setImplementation i impl).shift k =
      (n.shift k).setImplementation i (impl.map (· + k)) := by
  cases n with
  | struct s => rfl
  | iface t => simp [goNode.setImplementation, goNode.shift, List.map_set]
  | enum e => rfl

theorem relocated_modify {n k : Nat} {s1 s2 : State} (addr : Nat) (m1 m2 : goNode → goNode)
    (hm : ∀ nd, m2 (nd.shift k) = (m1 nd).shift k)
    (hR : Relocated n k s1 s2) (h1 h2 : List goNode)
    (e1 : h1 = List.modify m1 addr s1.heap) (e2 : h2 = List.modify m2 (addr + k) s2.heap) :
    Relocated n k { s1 with heap := h1 } { s2 with heap := h2 } := by
  subst e1 e2
  refine ⟨by simpa using hR.1, by simpa using hR.2.1, ?_⟩
  intro a ha
  simp only [List.getElem?_modify, hR.2.2 a ha]
  cases s1.heap[a]? with
  | none => rfl
  | some nd =>
    by_cases hc : addr = a
    · subst hc
      simp [hm]
    · have : ¬ addr + k = a + k := by omega
      simp [hc, this]

theorem relocated_setField {n k : Nat} {s1 s2 : State} (hR : Relocated n k s1 s2)
    (addr i : Nat) (f : Option goStructField) :
    Relocated n k (s1.setField addr i f)
      (s2.setField (addr + k) i (f.map (goStructField.shift k))) :=
  relocated_modify addr _ _ (fun nd => (goNode.shift_setField k i f nd).symm) hR _ _ rfl rfl

theorem relocated_setImplementation {n k : Nat} {s1 s2 : State} (hR : Relocated n k s1 s2)
    (addr i : Nat) (impl : Option Addr) :
    Relocated n k (s1.setImplementation addr i impl)
      (s2.setImplementation (addr + k) i (impl.map (· + k))) :=
  relocated_modify addr _ _ (fun nd => (goNode.shift_setImplementation k i impl nd).symm)
    hR _ _ rfl rfl

theorem relocated_alloc {n k : Nat} {s1 s2 : State} (hR : Relocated n k s1 s2)
    (nd : goNode) (hnd : nd.shift k = nd) (name : String) (t1 t2 : goType) :
    Relocated n k ((s1.alloc nd).2.register name t1) ((s2.alloc nd).2.register name t2) := by
  refine ⟨?_, ?_, ?_⟩
  · simp only [State.alloc, State.register, List.length_append, List.length_singleton]
    exact Nat.le_trans hR.1 (Nat.le_succ _)
  · simp only [State.alloc, State.register, List.length_append, List.length_singleton, hR.2.1]
    omega
  · intro a ha
    simp only [State.alloc, State.register]
    by_cases hlt : a < s1.heap.length
    · rw [List.getElem?_append_left hlt,
        List.getElem?_append_left (by rw [hR.2.1]; omega)]
      exact hR.2.2 a ha
    · have hle : s1.heap.length ≤ a := Nat.le_of_not_lt hlt
      rw [List.getElem?_append_right hle,
        List.getElem?_append_right (by rw [hR.2.1]; omega)]
      have e : a + k - s2.heap.length = a - s1.heap.length := by rw [hR.2.1]; omega
      rw [e]
      cases a - s1.heap.length with
      | zero => simp [hnd]
      | succ j => simp

theorem relocated_typeMap {n k : Nat} {s1 s2 : State} (hR : Relocated n k s1 s2)
    (m1 m2 : List (String × goType)) :
    Relocated n k { s1 with typeMap := m1 } { s2 with typeMap := m2 } := hR

theorem convertNamed_relocatable (g : Generator) (convDef : ConvDef)
    (hC : convDef.Relocatable) {n k : Nat} {name namePrefix typeName_ : String}
    {selectionSet : List Selection} {queryOptions : GenqlientDirective}
    {s1 s2 : State} {r : Ret} {t1 : State} (hR : Relocated n k s1 s2)
    (h : convertNamed g convDef name namePrefix typeName_ selectionSet queryOptions s1
      = .ok r t1) :
    ∃ t2, convertNamed g convDef name namePrefix typeName_ selectionSet queryOptions s2
        = .ok (r.1.shift k, r.2) t2 ∧ Relocated n k t1 t2 := by
  unfold convertNamed at h ⊢
  cases hl : g.schema.Types.lookup typeName_ with
  | none => rw [hl] at h; cases h
  | some d =>
    rw [hl] at h
    exact hC n k _ _ _ _ _ _ _ _ _ hR h

theorem convertTypeWith_relocatable (g : Generator) (convDef : ConvDef)
    (hC : convDef.Relocatable) {n k : Nat} {name namePrefix : String} {typ : AstType}
    {selectionSet : List Selection} {options queryOptions : GenqlientDirective}
    {s1 s2 : State} {r : Ret} {t1 : State} (hR : Relocated n k s1 s2)
    (h : convertTypeWith g convDef name namePrefix typ selectionSet options queryOptions s1
      = .ok r t1) :
    ∃ t2, convertTypeWith g convDef name namePrefix typ selectionSet options queryOptions s2
        = .ok (r.1.shift k, r.2) t2 ∧ Relocated n k t1 t2 := by
  rw [convertTypeWith_eq, Outcome.bind_eq_ok] at h
  obtain ⟨v, s0, h1, h2⟩ := h
  obtain ⟨t2, h3, hR2⟩ := convertNamed_relocatable g convDef hC hR h1
  cases h2
  refine ⟨t2, ?_, hR2⟩
  rw [convertTypeWith_eq, h3]
  simp only [Outcome.bind, wrapSlices_shift]
  split <;> rfl

theorem convertFieldWith_relocatable (g : Generator) (convDef : ConvDef)
    (hC : convDef.Relocatable) {n k : Nat} {namePrefix fieldAlias : String}
    {fieldDefinition : Option FieldDefinition} {fieldSelectionSet : List Selection}
    {fieldOptions queryOptions : GenqlientDirective} {s1 s2 : State}
    {r : Option goStructField × Option GenError} {t1 : State} (hR : Relocated n k s1 s2)
    (h : convertFieldWith g convDef namePrefix fieldAlias fieldDefinition fieldSelectionSet
      fieldOptions queryOptions s1 = .ok r t1) :
    ∃ t2, convertFieldWith g convDef namePrefix fieldAlias fieldDefinition fieldSelectionSet
        fieldOptions queryOptions s2 = .ok (r.1.map (goStructField.shift k), r.2) t2 ∧
      Relocated n k t1 t2 := by
  unfold convertFieldWith at h ⊢
  cases fieldDefinition with
  | none =>
    cases h
    exact ⟨s2, rfl, hR⟩
  | some fd =>
    simp only at h ⊢
    cases hl : g.schema.Types.lookup fd.Type_.Name with
    | none => rw [hl] at h; cases h
    | some fieldTypedef =>
      rw [hl] at h
      simp only [Outcome.bind_eq_ok] at h
      obtain ⟨v, s0, h1, h2⟩ := h
      obtain ⟨t2, h3, hR2⟩ := convertTypeWith_relocatable g convDef hC hR h1
      refine ⟨t2, ?_, ?_⟩
      · simp only [h3, Outcome.bind]
        cases hv : v.2 with
        | some e => rw [hv] at h2; cases h2; rfl
        | none => rw [hv] at h2; cases h2; rfl
      · cases hv : v.2 with
        | some e => rw [hv] at h2; cases h2; exact hR2
        | none => rw [hv] at h2; cases h2; exact hR2

theorem convertSelections_relocatable (g : Generator) (convDef : ConvDef)
    (hC : convDef.Relocatable) (n k : Nat) (addr : Nat) (namePrefix : String)
    (queryOptions : GenqlientDirective) (selectionSet : List Selection) :
    ∀ (i : Nat) (s1 s2 : State) (r : Option GenError) (t1 : State),
      Relocated n k s1 s2 →
      convertSelections g convDef addr namePrefix queryOptions i selectionSet s1 = .ok r t1 →
      ∃ t2, convertSelections g convDef (addr + k) namePrefix queryOptions i selectionSet s2
          = .ok r t2 ∧ Relocated n k t1 t2 := by
  induction selectionSet with
  | nil =>
    intro i s1 s2 r t1 hR h
    simp only [convertSelections] at h ⊢
    cases h
    exact ⟨s2, rfl, hR⟩
  | cons selection rest ih =>
    intro i s1 s2 r t1 hR h
    simp only [convertSelections] at h ⊢
    cases hp : (g.parsePrecedingComment selection.GetPosition).2 with
    | some err => rw [hp] at h; cases h; exact ⟨s2, rfl, hR⟩
    | none =>
      rw [hp] at h
      cases selection with
      | FragmentSpread nm p => cases h; exact ⟨s2, rfl, hR⟩
      | InlineFragment t ss p => cases h; exact ⟨s2, rfl, hR⟩
      | Field fa fn fdef fsel p =>
        simp only [Outcome.bind_eq_ok] at h
        obtain ⟨v, s0, h1, h2⟩ := h
        obtain ⟨u0, h3, hR0⟩ := convertFieldWith_relocatable g convDef hC hR h1
        have hR1 := relocated_setField hR0 addr i v.1
        simp only [h3, Outcome.bind]
        cases hv : v.2 with
        | some e =>
          rw [hv] at h2
          cases h2
          exact ⟨_, rfl, hR1⟩
        | none =>
          rw [hv] at h2
          exact ih _ _ _ _ _ hR1 h2

theorem convertInputFields_relocatable (g : Generator) (convDef : ConvDef)
    (hC : convDef.Relocatable) (n k : Nat) (addr : Nat)
    (queryOptions : GenqlientDirective) (fields : List FieldDefinition) :
    ∀ (i : Nat) (s1 s2 : State) (r : Option GenError) (t1 : State),
      Relocated n k s1 s2 →
      convertInputFields g convDef addr queryOptions i fields s1 = .ok r t1 →
      ∃ t2, convertInputFields g convDef (addr + k) queryOptions i fields s2 = .ok r t2 ∧
        Relocated n k t1 t2 := by
  induction fields with
  | nil =>
    intro i s1 s2 r t1 hR h
    simp only [convertInputFields] at h ⊢
    cases h
    exact ⟨s2, rfl, hR⟩
  | cons field rest ih =>
    intro i s1 s2 r t1 hR h
    simp only [convertInputFields, Outcome.bind_eq_ok] at h
    simp only [convertInputFields]
    obtain ⟨v, s0, h1, h2⟩ := h
    obtain ⟨u0, h3, hR0⟩ := convertTypeWith_relocatable g convDef hC hR h1
    simp only [h3, Outcome.bind]
    cases hv : v.2 with
    | some e =>
      rw [hv] at h2
      cases h2
      exact ⟨_, rfl, hR0⟩
    | none =>
      rw [hv] at h2
      exact ih _ _ _ _ _ (relocated_setField hR0 addr i (some
        { GoName := upperFirst field.Name, GoType := v.1, JSONName := field.Name,
          Description := field.Description })) h2

theorem convertImplementations_relocatable (g : Generator) (convDef : ConvDef)
    (hC : convDef.Relocatable) (n k : Nat) (addr : Nat) (defName namePrefix : String)
    (selectionSet : List Selection) (queryOptions : GenqlientDirective)
    (impls : List Definition) :
    ∀ (i : Nat) (s1 s2 : State) (r : Option GenError) (t1 : State),
      Relocated n k s1 s2 →
      convertImplementations g convDef addr defName namePrefix selectionSet queryOptions
        i impls s1 = .ok r t1 →
      ∃ t2, convertImplementations g convDef (addr + k) defName namePrefix selectionSet
          queryOptions i impls s2 = .ok r t2 ∧ Relocated n k t1 t2 := by
  induction impls with
  | nil =>
    intro i s1 s2 r t1 hR h
    simp only [convertImplementations] at h ⊢
    cases h
    exact ⟨s2, rfl, hR⟩
  | cons implDef rest ih =>
    intro i s1 s2 r t1 hR h
    simp only [convertImplementations, Outcome.bind_eq_ok] at h
    simp only [convertImplementations]
    obtain ⟨v, s0, h1, h2⟩ := h
    obtain ⟨u0, h3, hR0⟩ := hC n k _ _ _ _ _ _ _ _ _ hR h1
    simp only [h3, Outcome.bind]
    cases hv : v.2 with
    | some e =>
      rw [hv] at h2
      cases h2
      exact ⟨_, rfl, hR0⟩
    | none =>
      rw [hv] at h2
      cases hv1 : v.1 with
      | structPtr a =>
        rw [hv1] at h2
        simp only [goType.shift]
        exact ih _ _ _ _ _ (relocated_setImplementation hR0 addr i (some a)) h2
      | nil => rw [hv1] at h2; cases h2; exact ⟨_, rfl, hR0⟩
      | opaqueRef x => rw [hv1] at h2; cases h2; exact ⟨_, rfl, hR0⟩
      | slice x => rw [hv1] at h2; cases h2; exact ⟨_, rfl, hR0⟩
      | pointer x => rw [hv1] at h2; cases h2; exact ⟨_, rfl, hR0⟩
      | interfacePtr x => rw [hv1] at h2; cases h2; exact ⟨_, rfl, hR0⟩
      | enumPtr x => rw [hv1] at h2; cases h2; exact ⟨_, rfl, hR0⟩

theorem finish_relocatable (k : Nat) {t : goType} {err : Option GenError} {s0 : State}
    {r : Ret} {t1 : State} (h : finish t err s0 = .ok r t1) (u : State) :
    t1 = s0 ∧ finish (t.shift k) err u = .ok (r.1.shift k, r.2) u := by
  cases err with
  | none => cases h; exact ⟨rfl, rfl⟩
  | some e => cases h; exact ⟨rfl, rfl⟩

theorem convertDefinitionStep_relocatable (g : Generator) (convDef : ConvDef)
    (hC : convDef.Relocatable) : ConvDef.Relocatable (convertDefinitionStep g convDef) := by
  intro n k name namePrefix d selectionSet queryOptions s1 s2 r t1 hR h
  have e : s2.heap.length = s1.heap.length + k := hR.2.1
  unfold convertDefinitionStep at h ⊢
  cases hs : g.Config.Scalars.lookup d.Name with
  | some q =>
    rw [hs] at h
    cases h
    exact ⟨s2, rfl, hR⟩
  | none =>
    rw [hs] at h
    simp only at h ⊢
    cases hb : builtinTypes.lookup d.Name with
    | some q =>
      rw [hb] at h
      cases h
      exact ⟨s2, rfl, hR⟩
    | none =>
      rw [hb] at h
      simp only at h ⊢
      have hiface : convertInterface g convDef name namePrefix d selectionSet queryOptions s1
          = .ok r t1 →
          ∃ t2, convertInterface g convDef name namePrefix d selectionSet queryOptions s2
            = .ok (r.1.shift k, r.2) t2 ∧ Relocated n k t1 t2 := by
        intro h
        unfold convertInterface at h ⊢
        by_cases hA : g.Config.AllowBrokenFeatures = true
        · by_cases hT : hasTypename selectionSet = true
          · simp only [hA, hT, Bool.not_true, Bool.false_eq_true, if_false] at h ⊢
            rw [Outcome.bind_eq_ok] at h
            obtain ⟨err, s0, h1, h2⟩ := h
            obtain ⟨u, h3, hR0⟩ := convertImplementations_relocatable g convDef hC n k
              s1.heap.length d.Name namePrefix selectionSet queryOptions
              (g.schema.GetPossibleTypes d) 0 _ _ _ _
              (relocated_alloc hR _ (by simp [goNode.shift]) name _
                (.interfacePtr (s1.heap.length + k))) h1
            obtain ⟨hst, hf⟩ := finish_relocatable k h2 u
            subst hst
            refine ⟨u, ?_, hR0⟩
            rw [e, h3]
            exact hf
          · simp only [hA, hT, Bool.not_true, Bool.false_eq_true, if_false, Bool.not_false,
              if_true] at h ⊢
            cases h
            exact ⟨s2, rfl, hR⟩
        · simp only [hA, Bool.not_false, if_true] at h ⊢
          cases h
          exact ⟨s2, rfl, hR⟩
      cases hk : d.Kind with
      | Object =>
        rw [hk] at h
        simp only at h ⊢
        unfold convertObject at h ⊢
        rw [Outcome.bind_eq_ok] at h
        obtain ⟨err, s0, h1, h2⟩ := h
        obtain ⟨u, h3, hR0⟩ := convertSelections_relocatable g convDef hC n k
          s1.heap.length namePrefix queryOptions selectionSet 0 _ _ _ _
          (relocated_alloc hR _ (by simp [goNode.shift]) name _
            (.structPtr (s1.heap.length + k))) h1
        obtain ⟨hst, hf⟩ := finish_relocatable k h2 u
        subst hst
        refine ⟨u, ?_, hR0⟩
        rw [e, h3]
        exact hf
      | InputObject =>
        rw [hk] at h
        simp only at h ⊢
        unfold convertInputObject at h ⊢
        rw [Outcome.bind_eq_ok] at h
        obtain ⟨err, s0, h1, h2⟩ := h
        obtain ⟨u, h3, hR0⟩ := convertInputFields_relocatable g convDef hC n k
          s1.heap.length queryOptions d.Fields 0 _ _ _ _
          (relocated_alloc hR _ (by simp [goNode.shift]) name _
            (.structPtr (s1.heap.length + k))) h1
        obtain ⟨hst, hf⟩ := finish_relocatable k h2 u
        subst hst
        refine ⟨u, ?_, hR0⟩
        rw [e, h3]
        exact hf
      | Interface => rw [hk] at h; exact hiface h
      | Union => rw [hk] at h; exact hiface h
      | Enum =>
        rw [hk] at h
        simp only at h ⊢
        unfold convertEnum at h ⊢
        cases h
        refine ⟨_, ?_, relocated_alloc hR _ rfl name _ (.enumPtr (s1.heap.length + k))⟩
        rw [e]
        rfl
      | Scalar =>
        rw [hk] at h
        cases h
        exact ⟨s2, rfl, hR⟩
      | Other raw =>
        rw [hk] at h
        cases h
        exact ⟨s2, rfl, hR⟩

theorem convertDefinition_relocatable (g : Generator) (fuel : Nat) :
    ConvDef.Relocatable (convertDefinition g fuel) := by
  induction fuel with
  | zero =>
    intro n k name namePrefix d selectionSet queryOptions s1 s2 r t1 _ h
    cases h
  | succ f ih => exact convertDefinitionStep_relocatable g _ ih

theorem relocated_start (s1 s2 : State) (h : s1.heap.length ≤ s2.heap.length) :
    Relocated s1.heap.length (s2.heap.length - s1.heap.length) s1 s2 := by
  refine ⟨Nat.le_refl _, by omega, ?_⟩
  intro a ha
  rw [List.getElem?_eq_none (by omega), List.getElem?_eq_none ha]
  rfl

theorem convertDefinition_struct_fresh (g : Generator) (fuel : Nat) :
    ∀ (name namePrefix : String) (d : Definition) (selectionSet : List Selection)
      (queryOptions : GenqlientDirective) (st : State) (r : Ret) (st1 : State) (a : Addr),
      convertDefinition g fuel name namePrefix d selectionSet queryOptions st = .ok r st1 →
      r.1 = .structPtr a →
      a = st.heap.length ∧ (st1.typeMap.lookup name).isSome = true ∧
      ∃ s, st1.heap[a]? = some (.struct s) ∧ s.GoName = name := by
  intro name namePrefix d selectionSet queryOptions st r st1 a h ha
  cases fuel with
  | zero => cases h
  | succ f =>
    simp only [convertDefinition, convertDefinitionStep] at h
    cases hs : g.Config.Scalars.lookup d.Name with
    | some q => rw [hs] at h; cases h; cases ha
    | none =>
      rw [hs] at h
      simp only at h
      cases hbt : builtinTypes.lookup d.Name with
      | some q => rw [hbt] at h; cases h; cases ha
      | none =>
        rw [hbt] at h
        simp only at h
        cases hk : d.Kind with
        | Object =>
          rw [hk] at h
          obtain ⟨_, _, h3, h4, s, hs1, hs2, _⟩ :=
            convertObject_ok g _ (convertDefinition_sound g f) h
          rcases h4 with ⟨_, h5⟩ | ⟨_, h5⟩
          · rw [h5] at ha; cases ha; exact ⟨rfl, h3, s, hs1, hs2⟩
          · rw [h5] at ha; cases ha
        | InputObject =>
          rw [hk] at h
          obtain ⟨_, _, h3, h4, s, hs1, hs2, _⟩ :=
            convertInputObject_ok g _ (convertDefinition_sound g f) h
          rcases h4 with ⟨_, h5⟩ | ⟨_, h5⟩
          · rw [h5] at ha; cases ha; exact ⟨rfl, h3, s, hs1, hs2⟩
          · rw [h5] at ha; cases ha
        | Interface =>
          rw [hk] at h
          rcases (convertInterface_ok g _ (convertDefinition_sound g f) h).2.2 with
            ⟨_, h5, _⟩ | ⟨_, h5⟩
          · rw [h5] at ha; cases ha
          · rw [h5] at ha; cases ha
        | Union =>
          rw [hk] at h
          rcases (convertInterface_ok g _ (convertDefinition_sound g f) h).2.2 with
            ⟨_, h5, _⟩ | ⟨_, h5⟩
          · rw [h5] at ha; cases ha
          · rw [h5] at ha; cases ha
        | Enum =>
          rw [hk] at h
          have h5 := (convertEnum_ok h).2.2.2.2.1
          rw [h5] at ha; cases ha
        | Scalar => rw [hk] at h; cases h; cases ha
        | Other raw => rw [hk] at h; cases h; cases ha

theorem goName_of_header {n1 n : goNode} (h : n1.header = n.header) : n1.GoName = n.GoName := by
  cases n1 <;> cases n <;> simp [goNode.header] at h <;> simp [goNode.GoName, h]

theorem registeredAs_stable {name : String} {t : goType} {st st2 : State} {addr : Addr}
    (h : RegisteredAs name t st) (hl : LoopExt addr st.heap st2.heap)
    (hk : KeysKept st.typeMap st2.typeMap) : RegisteredAs name t st2 := by
  obtain ⟨a, n, ht, hn, hname, hkey⟩ := h
  have hlt : a < st.heap.length := getElem?_lt_length hn
  have hh := (hl.2 a hlt).2
  rw [hn] at hh
  cases hc : st2.heap[a]? with
  | none => rw [hc] at hh; simp at hh
  | some n1 =>
    rw [hc] at hh
    simp only [Option.map_some', Option.some.injEq] at hh
    exact ⟨a, n1, ht, hc, by rw [goName_of_header hh, hname], hk name hkey⟩

theorem registeredAs_of_core_eq {name : String} {t u : goType} {st : State}
    (h : t.core = u.core) (hu : RegisteredAs name u st) : RegisteredAs name t st := by
  obtain ⟨a, n, ht, hn, hname, hkey⟩ := hu
  exact ⟨a, n, by rw [h]; exact ht, hn, hname, hkey⟩

theorem convertDefinition_registeredAs (g : Generator) (fuel : Nat)
    {name namePrefix : String} {d : Definition} {selectionSet : List Selection}
    {queryOptions : GenqlientDirective} {st : State} {r : Ret} {st1 : State}
    (hKind : d.Kind = .Enum ∨ d.Kind = .InputObject)
    (hScalars : g.Config.Scalars.lookup d.Name = none)
    (hBuiltin : builtinTypes.lookup d.Name = none)
    (h : convertDefinition g fuel name namePrefix d selectionSet queryOptions st = .ok r st1)
    (hr : r.2 = none) : RegisteredAs name r.1 st1 := by
  cases fuel with
  | zero => cases h
  | succ f =>
    simp only [convertDefinition, convertDefinitionStep, hScalars, hBuiltin] at h
    rcases hKind with hk | hk
    · rw [hk] at h
      obtain ⟨_, _, h3, _, h5, e, he1, he2⟩ := convertEnum_ok h
      exact ⟨st.heap.length, .enum e, Or.inr (by rw [h5]; rfl), he1, he2, h3⟩
    · rw [hk] at h
      obtain ⟨_, _, h3, h4, s, hs1, hs2, _⟩ :=
        convertInputObject_ok g _ (convertDefinition_sound g f) h
      rcases h4 with ⟨_, h5⟩ | ⟨h5, _⟩
      · exact ⟨st.heap.length, .struct s, Or.inl (by rw [h5]; rfl), hs1, hs2, h3⟩
      · exact absurd hr h5

theorem convertTypeWith_registeredAs (g : Generator) (fuel : Nat)
    {name namePrefix : String} {typ : AstType} {d : Definition}
    {selectionSet : List Selection} {options queryOptions : GenqlientDirective}
    {st : State} {r : Ret} {st1 : State}
    (hLookup : g.schema.Types.lookup typ.Name = some d)
    (hKind : d.Kind = .Enum ∨ d.Kind = .InputObject)
    (hScalars : g.Config.Scalars.lookup d.Name = none)
    (hBuiltin : builtinTypes.lookup d.Name = none)
    (h : convertTypeWith g (convertDefinition g fuel) name namePrefix typ selectionSet
      options queryOptions st = .ok r st1)
    (hr : r.2 = none) : RegisteredAs name r.1 st1 := by
  rw [convertTypeWith_eq, Outcome.bind_eq_ok] at h
  obtain ⟨v, s0, h1, h2⟩ := h
  unfold convertNamed at h1
  rw [hLookup] at h1
  cases h2
  have := convertDefinition_registeredAs g fuel hKind hScalars hBuiltin h1 hr
  refine registeredAs_of_core_eq ?_ this
  simp only [core_wrapSlices]
  split <;> rfl

theorem convertTypeWith_agree {g1 g2 : Generator} (h : g1.Agree g2) (convDef : ConvDef)
    (name namePrefix : String) (typ : AstType) (selectionSet : List Selection)
    (options queryOptions : GenqlientDirective) (st : State) :
    convertTypeWith g1 convDef name namePrefix typ selectionSet options queryOptions st =
      convertTypeWith g2 convDef name namePrefix typ selectionSet options queryOptions st := by
  induction typ with
  | named n nn => simp only [convertTypeWith, h.2.2.1]
  | list e nn ih => simp only [convertTypeWith, ih]

theorem convertFieldWith_agree {g1 g2 : Generator} (h : g1.Agree g2) (convDef : ConvDef)
    (namePrefix fieldAlias : String) (fd : Option FieldDefinition) (ss : List Selection)
    (fieldOptions queryOptions : GenqlientDirective) (st : State) :
    convertFieldWith g1 convDef namePrefix fieldAlias fd ss fieldOptions queryOptions st =
      convertFieldWith g2 convDef namePrefix fieldAlias fd ss fieldOptions queryOptions st := by
  cases fd with
  | none => rfl
  | some fd =>
    simp only [convertFieldWith, h.2.2.1, convertTypeWith_agree h]

theorem convertSelections_agree {g1 g2 : Generator} (h : g1.Agree g2) (convDef : ConvDef)
    (addr : Addr) (namePrefix : String) (queryOptions : GenqlientDirective) (i : Nat)
    (sels : List Selection) (st : State) :
    convertSelections g1 convDef addr namePrefix queryOptions i sels st =
      convertSelections g2 convDef addr namePrefix queryOptions i sels st := by
  induction sels generalizing i st with
  | nil => rfl
  | cons sel rest ih =>
    simp only [convertSelections, h.2.2.2.2.2, convertFieldWith_agree h, ih]

theorem convertInputFields_agree {g1 g2 : Generator} (h : g1.Agree g2) (convDef : ConvDef)
    (addr : Addr) (queryOptions : GenqlientDirective) (i : Nat)
    (fields : List FieldDefinition) (st : State) :
    convertInputFields g1 convDef addr queryOptions i fields st =
      convertInputFields g2 convDef addr queryOptions i fields st := by
  induction fields generalizing i st with
  | nil => rfl
  | cons f rest ih =>
    simp only [convertInputFields, convertTypeWith_agree h, ih]

theorem convertImplementations_agree (g1 g2 : Generator) (convDef : ConvDef)
    (addr : Addr) (defName namePrefix : String) (selectionSet : List Selection)
    (queryOptions : GenqlientDirective) (i : Nat) (impls : List Definition) (st : State) :
    convertImplementations g1 convDef addr defName namePrefix selectionSet queryOptions i
        impls st =
      convertImplementations g2 convDef addr defName namePrefix selectionSet queryOptions i
        impls st := by
  induction impls generalizing i st with
  | nil => rfl
  | cons d rest ih =>
    simp only [convertImplementations, ih]

theorem convertDefinitionStep_agree {g1 g2 : Generator} (h : g1.Agree g2) (convDef : ConvDef) :
    convertDefinitionStep g1 convDef = convertDefinitionStep g2 convDef := by
  funext name namePrefix d selectionSet queryOptions st
  have hp : g1.schema.GetPossibleTypes d = g2.schema.GetPossibleTypes d := by
    simp only [Schema.GetPossibleTypes, h.2.2.2.1]
  simp only [convertDefinitionStep, convertObject, convertInputObject, convertInterface,
    h.1, h.2.1, h.2.2.2.2.1, hp, convertSelections_agree h, convertInputFields_agree h,
    convertImplementations_agree g1 g2]

theorem convertDefinition_agree {g1 g2 : Generator} (h : g1.Agree g2) (fuel : Nat) :
    convertDefinition g1 fuel = convertDefinition g2 fuel := by
  induction fuel with
  | zero => rfl
  | succ n ih => simp only [convertDefinition, ih, convertDefinitionStep_agree h]

theorem Outcome.bind_ne_outOfFuel {α β : Type} {x : Outcome α} {f : α → State → Outcome β}
    (hx : x ≠ .outOfFuel) (hf : ∀ v s, x = .ok v s → f v s ≠ .outOfFuel) :
    x.bind f ≠ .outOfFuel := by
  cases x with
  | ok v s => exact hf v s rfl
  | nilDeref => simp [Outcome.bind]
  | outOfFuel => exact absurd rfl hx

theorem Outcome.bind_below {α β : Type} {x1 x2 : Outcome α} {f1 f2 : α → State → Outcome β}
    (hx : x1 ≠ .outOfFuel → x2 = x1)
    (hf : ∀ v s, f1 v s ≠ .outOfFuel → f2 v s = f1 v s)
    (h : x1.bind f1 ≠ .outOfFuel) : x2.bind f2 = x1.bind f1 := by
  cases x1 with
  | ok v s =>
    rw [hx (by simp)]
    exact hf v s h
  | nilDeref =>
    rw [hx (by simp)]
    rfl
  | outOfFuel => exact absurd rfl h

/-! ### More fuel gives the same result -/

theorem convertTypeWith_below (g : Generator) {c1 c2 : ConvDef} (hc : c1.Below c2)
    (name namePrefix : String) (typ : AstType) (selectionSet : List Selection)
    (options queryOptions : GenqlientDirective) (st : State)
    (h : convertTypeWith g c1 name namePrefix typ selectionSet options queryOptions st
      ≠ .outOfFuel) :
    convertTypeWith g c2 name namePrefix typ selectionSet options queryOptions st =
      convertTypeWith g c1 name namePrefix typ selectionSet options queryOptions st := by
  induction typ with
  | named n nn =>
    simp only [convertTypeWith] at h ⊢
    cases hl : g.schema.Types.lookup n with
    | none => rfl
    | some d =>
      rw [hl] at h
      exact Outcome.bind_below (hc _ _ _ _ _ _) (fun _ _ _ => rfl) h
  | list e nn ih =>
    simp only [convertTypeWith] at h ⊢
    exact Outcome.bind_below ih (fun _ _ _ => rfl) h

theorem convertFieldWith_below (g : Generator) {c1 c2 : ConvDef} (hc : c1.Below c2)
    (namePrefix fieldAlias : String) (fd : Option FieldDefinition) (ss : List Selection)
    (fieldOptions queryOptions : GenqlientDirective) (st : State)
    (h : convertFieldWith g c1 namePrefix fieldAlias fd ss fieldOptions queryOptions st
      ≠ .outOfFuel) :
    convertFieldWith g c2 namePrefix fieldAlias fd ss fieldOptions queryOptions st =
      convertFieldWith g c1 namePrefix fieldAlias fd ss fieldOptions queryOptions st := by
  cases fd with
  | none => rfl
  | some fd =>
    simp only [convertFieldWith] at h ⊢
    cases hl : g.schema.Types.lookup fd.Type_.Name with
    | none => rfl
    | some d =>
      rw [hl] at h
      exact Outcome.bind_below (convertTypeWith_below g hc _ _ _ _ _ _ _) (fun _ _ _ => rfl) h

theorem convertSelections_below (g : Generator) {c1 c2 : ConvDef} (hc : c1.Below c2)
    (addr : Addr) (namePrefix : String) (queryOptions : GenqlientDirective) (i : Nat)
    (sels : List Selection) (st : State)
    (h : convertSelections g c1 addr namePrefix queryOptions i sels st ≠ .outOfFuel) :
    convertSelections g c2 addr namePrefix queryOptions i sels st =
      convertSelections g c1 addr namePrefix queryOptions i sels st := by
  induction sels generalizing i st with
  | nil => rfl
  | cons sel rest ih =>
    simp only [convertSelections] at h ⊢
    cases hp : (g.parsePrecedingComment sel.GetPosition).2 with
    | some err => rfl
    | none =>
      rw [hp] at h
      cases sel with
      | Field fieldAlias fieldName fd ss p =>
        simp only at h ⊢
        refine Outcome.bind_below (convertFieldWith_below g hc _ _ _ _ _ _ _) ?_ h
        intro r st1 h1
        cases hr : r.2 with
        | some err => rfl
        | none =>
          rw [hr] at h1
          exact ih _ _ h1
      | FragmentSpread n p => rfl
      | InlineFragment t ss p => rfl

theorem convertInputFields_below (g : Generator) {c1 c2 : ConvDef} (hc : c1.Below c2)
    (addr : Addr) (queryOptions : GenqlientDirective) (i : Nat)
    (fields : List FieldDefinition) (st : State)
    (h : convertInputFields g c1 addr queryOptions i fields st ≠ .outOfFuel) :
    convertInputFields g c2 addr queryOptions i fields st =
      convertInputFields g c1 addr queryOptions i fields st := by
  induction fields generalizing i st with
  | nil => rfl
  | cons f rest ih =>
    simp only [convertInputFields] at h ⊢
    refine Outcome.bind_below (convertTypeWith_below g hc _ _ _ _ _ _ _) ?_ h
    intro r st1 h1
    cases hr : r.2 with
    | some err => rfl
    | none =>
      rw [hr] at h1
      exact ih _ _ h1

theorem convertImplementations_below (g : Generator) {c1 c2 : ConvDef} (hc : c1.Below c2)
    (addr : Addr) (defName namePrefix : String) (selectionSet : List Selection)
    (queryOptions : GenqlientDirective) (i : Nat) (impls : List Definition) (st : State)
    (h : convertImplementations g c1 addr defName namePrefix selectionSet queryOptions i
      impls st ≠ .outOfFuel) :
    convertImplementations g c2 addr defName namePrefix selectionSet queryOptions i impls st =
      convertImplementations g c1 addr defName namePrefix selectionSet queryOptions i
        impls st := by
  induction impls generalizing i st with
  | nil => rfl
  | cons d rest ih =>
    simp only [convertImplementations] at h ⊢
    refine Outcome.bind_below (hc _ _ _ _ _ _) ?_ h
    intro r st1 h1
    cases hr : r.2 with
    | some err => rfl
    | none =>
      rw [hr] at h1
      cases ht : r.1 with
      | structPtr a =>
        rw [ht] at h1
        exact ih _ _ h1
      | nil => rfl
      | opaqueRef _ => rfl
      | slice _ => rfl
      | pointer _ => rfl
      | interfacePtr _ => rfl
      | enumPtr _ => rfl

theorem convertDefinitionStep_below (g : Generator) {c1 c2 : ConvDef} (hc : c1.Below c2) :
    ConvDef.Below (convertDefinitionStep g c1) (convertDefinitionStep g c2) := by
  intro name namePrefix d selectionSet queryOptions st h
  simp only [convertDefinitionStep] at h ⊢
  cases hs : g.Config.Scalars.lookup d.Name with
  | some q => rfl
  | none =>
    rw [hs] at h
    cases hb : builtinTypes.lookup d.Name with
    | some b => rfl
    | none =>
      rw [hb] at h
      have hI : convertInterface g c1 name namePrefix d selectionSet queryOptions st
          ≠ .outOfFuel →
          convertInterface g c2 name namePrefix d selectionSet queryOptions st =
            convertInterface g c1 name namePrefix d selectionSet queryOptions st := by
        intro h
        simp only [convertInterface] at h ⊢
        split
        · rfl
        · rename_i h1
          rw [if_neg h1] at h
          split
          · rfl
          · rename_i h2
            rw [if_neg h2] at h
            exact Outcome.bind_below (convertImplementations_below g hc _ _ _ _ _ _ _ _)
              (fun _ _ _ => rfl) h
      cases hk : d.Kind with
      | Object =>
        rw [hk] at h
        simp only [convertObject] at h ⊢
        exact Outcome.bind_below (convertSelections_below g hc _ _ _ _ _ _)
          (fun _ _ _ => rfl) h
      | InputObject =>
        rw [hk] at h
        simp only [convertInputObject] at h ⊢
        exact Outcome.bind_below (convertInputFields_below g hc _ _ _ _ _)
          (fun _ _ _ => rfl) h
      | Interface =>
        rw [hk] at h
        exact hI h
      | Union =>
        rw [hk] at h
        exact hI h
      | Enum => rfl
      | Scalar => rfl
      | Other raw => rfl

theorem convertDefinition_below_succ (g : Generator) (fuel : Nat) :
    ConvDef.Below (convertDefinition g fuel) (convertDefinition g (fuel + 1)) := by
  induction fuel with
  | zero =>
    intro name namePrefix d selectionSet queryOptions st h
    exact absurd rfl h
  | succ n ih => exact convertDefinitionStep_below g ih

theorem convertDefinition_below (g : Generator) {fuel1 fuel2 : Nat} (hle : fuel1 ≤ fuel2) :
    ConvDef.Below (convertDefinition g fuel1) (convertDefinition g fuel2) := by
  induction hle with
  | refl => intro _ _ _ _ _ _ _; rfl
  | step _ ih =>
    intro name namePrefix d selectionSet queryOptions st h
    rw [← ih _ _ _ _ _ _ h]
    exact convertDefinition_below_succ g _ _ _ _ _ _ _ (by rw [ih _ _ _ _ _ _ h]; exact h)

/-! ### Enough fuel lets the conversion of a selection tree return -/

theorem lookup_some_mem {α : Type} (l : List (String × α)) (k : String) (v : α)
    (h : l.lookup k = some v) : ∃ p, p ∈ l ∧ p.2 = v := by
  induction l with
  | nil => simp [List.lookup] at h
  | cons p rest ih =>
    obtain ⟨a, b⟩ := p
    simp only [List.lookup] at h
    split at h
    · exact ⟨(a, b), List.mem_cons_self _ _, by simpa using h⟩
    · obtain ⟨q, hq, hv⟩ := ih h
      exact ⟨q, List.mem_cons_of_mem _ hq, hv⟩

theorem possibleTypes_kind (g : Generator)
    (hPoss : ∀ p, p ∈ g.schema.PossibleTypes → ∀ impl, impl ∈ p.2 → impl.Kind = .Object)
    (d impl : Definition) (h : impl ∈ g.schema.GetPossibleTypes d) : impl.Kind = .Object := by
  unfold Schema.GetPossibleTypes at h
  cases hl : g.schema.PossibleTypes.lookup d.Name with
  | none => rw [hl] at h; simp at h
  | some l =>
    rw [hl] at h
    obtain ⟨p, hp, hv⟩ := lookup_some_mem _ _ _ hl
    exact hPoss p hp impl (by rw [hv]; simpa using h)

theorem Selection.depthList_cons (s : Selection) (rest : List Selection) :
    Selection.depthList (s :: rest) = max (Selection.depth s) (Selection.depthList rest) := by
  simp only [Selection.depthList]

theorem Selection.depth_field (a n : String) (fd : Option FieldDefinition)
    (ss : List Selection) (p : Position) :
    Selection.depth (.Field a n fd ss p) = Selection.depthList ss + 1 := by
  simp only [Selection.depth]

theorem Selection.depth_le_of_mem {sel : Selection} {sels : List Selection}
    (h : sel ∈ sels) : Selection.depth sel ≤ Selection.depthList sels := by
  induction sels with
  | nil => simp at h
  | cons s rest ih =>
    rw [Selection.depthList_cons]
    rcases List.mem_cons.1 h with h1 | h1
    · subst h1; exact le_max_left _ _
    · exact le_trans (ih h1) (le_max_right _ _)

theorem Selection.outputOnly_of_mem {g : Generator} {sel : Selection} {sels : List Selection}
    (hs : Selection.outputOnlyList g sels = true) (h : sel ∈ sels) :
    Selection.outputOnly g sel = true := by
  induction sels with
  | nil => simp at h
  | cons s rest ih =>
    simp only [Selection.outputOnlyList, Bool.and_eq_true] at hs
    rcases List.mem_cons.1 h with h1 | h1
    · subst h1; exact hs.1
    · exact ih hs.2 h1

theorem Selection.outputOnly_field {g : Generator} {a n : String} {fd : FieldDefinition}
    {ss : List Selection} {p : Position}
    (h : Selection.outputOnly g (.Field a n (some fd) ss p) = true) :
    (∀ d, g.schema.Types.lookup fd.Type_.Name = some d → d.Kind ≠ .InputObject) ∧
    Selection.outputOnlyList g ss = true := by
  simp only [Selection.outputOnly, Bool.and_eq_true] at h
  refine ⟨?_, h.2⟩
  intro d hd
  have h1 := h.1
  simp only [FieldDefinition.isOutput, hd, decide_eq_true_eq] at h1
  exact h1

theorem convertTypeWith_ne_outOfFuel (g : Generator) (convDef : ConvDef)
    (name namePrefix : String) (typ : AstType) (selectionSet : List Selection)
    (options queryOptions : GenqlientDirective) (st : State)
    (h : ∀ d, g.schema.Types.lookup typ.Name = some d → ∀ st1,
      convDef name namePrefix d selectionSet queryOptions st1 ≠ .outOfFuel) :
    convertTypeWith g convDef name namePrefix typ selectionSet options queryOptions st
      ≠ .outOfFuel := by
  induction typ with
  | named n nn =>
    simp only [convertTypeWith]
    cases hl : g.schema.Types.lookup n with
    | none => simp
    | some d =>
      exact Outcome.bind_ne_outOfFuel (h d hl st) (fun _ _ _ => by simp)
  | list e nn ih =>
    simp only [convertTypeWith]
    exact Outcome.bind_ne_outOfFuel (ih h) (fun _ _ _ => by simp)

theorem convertFieldWith_ne_outOfFuel (g : Generator) (convDef : ConvDef)
    (namePrefix fieldAlias : String) (fd : Option FieldDefinition) (ss : List Selection)
    (fieldOptions queryOptions : GenqlientDirective) (st : State)
    (h : ∀ fd1, fd = some fd1 → ∀ d, g.schema.Types.lookup fd1.Type_.Name = some d →
      ∀ name namePfx1 st1, convDef name namePfx1 d ss queryOptions st1 ≠ .outOfFuel) :
    convertFieldWith g convDef namePrefix fieldAlias fd ss fieldOptions queryOptions st
      ≠ .outOfFuel := by
  cases fd with
  | none => simp [convertFieldWith]
  | some fd =>
    simp only [convertFieldWith]
    cases hl : g.schema.Types.lookup fd.Type_.Name with
    | none => simp
    | some d =>
      refine Outcome.bind_ne_outOfFuel
        (convertTypeWith_ne_outOfFuel g convDef _ _ _ _ _ _ _
          (fun d1 hd1 st1 => h fd rfl d1 hd1 _ _ st1)) ?_
      intro r st1 _
      cases r.2 <;> simp

theorem convertSelections_ne_outOfFuel (g : Generator) (convDef : ConvDef)
    (addr : Addr) (namePrefix : String) (queryOptions : GenqlientDirective) (i : Nat)
    (sels : List Selection) (st : State)
    (h : ∀ sel, sel ∈ sels → ∀ a n fd ss p, sel = .Field a n (some fd) ss p →
      ∀ d, g.schema.Types.lookup fd.Type_.Name = some d →
      ∀ name namePfx1 st1, convDef name namePfx1 d ss queryOptions st1 ≠ .outOfFuel) :
    convertSelections g convDef addr namePrefix queryOptions i sels st ≠ .outOfFuel := by
  induction sels generalizing i st with
  | nil => simp [convertSelections]
  | cons sel rest ih =>
    simp only [convertSelections]
    cases hp : (g.parsePrecedingComment sel.GetPosition).2 with
    | some err => simp
    | none =>
      cases sel with
      | Field fieldAlias fieldName fd ss p =>
        simp only
        refine Outcome.bind_ne_outOfFuel (convertFieldWith_ne_outOfFuel g convDef _ _ _ _ _ _ _
          ?_) ?_
        · intro fd1 hfd d hd name namePfx1 st1
          subst hfd
          exact h _ (List.mem_cons_self _ _) _ _ _ _ _ rfl d hd name namePfx1 st1
        · intro r st1 _
          cases r.2 with
          | some err => simp
          | none =>
            exact ih _ _ (fun sel hsel => h sel (List.mem_cons_of_mem _ hsel))
      | FragmentSpread n p => simp
      | InlineFragment t ss p => simp

theorem convertImplementations_ne_outOfFuel (g : Generator) (convDef : ConvDef)
    (addr : Addr) (defName namePrefix : String) (selectionSet : List Selection)
    (queryOptions : GenqlientDirective) (i : Nat) (impls : List Definition) (st : State)
    (h : ∀ impl, impl ∈ impls → ∀ name namePfx1 st1,
      convDef name namePfx1 impl selectionSet queryOptions st1 ≠ .outOfFuel) :
    convertImplementations g convDef addr defName namePrefix selectionSet queryOptions i
      impls st ≠ .outOfFuel := by
  induction impls generalizing i st with
  | nil => simp [convertImplementations]
  | cons d rest ih =>
    simp only [convertImplementations]
    refine Outcome.bind_ne_outOfFuel (h d (List.mem_cons_self _ _) _ _ _) ?_
    intro r st1 _
    cases r.2 with
    | some err => simp
    | none =>
      cases r.1 with
      | structPtr a => exact ih _ _ (fun impl himpl => h impl (List.mem_cons_of_mem _ himpl))
      | nil => simp
      | opaqueRef _ => simp
      | slice _ => simp
      | pointer _ => simp
      | interfacePtr _ => simp
      | enumPtr _ => simp

theorem finish_ne_outOfFuel (t : goType) (e : Option GenError) (st : State) :
    finish t e st ≠ .outOfFuel := by
  cases e <;> simp [finish]

theorem convertDefinition_terminates (g : Generator)
    (hPoss : ∀ p, p ∈ g.schema.PossibleTypes → ∀ impl, impl ∈ p.2 → impl.Kind = .Object)
    (fuel : Nat) :
    ∀ (name namePrefix : String) (d : Definition) (selectionSet : List Selection)
      (queryOptions : GenqlientDirective) (st : State),
      Selection.outputOnlyList g selectionSet = true → d.Kind ≠ .InputObject →
      (d.Kind ≠ .Interface → d.Kind ≠ .Union →
        2 * Selection.depthList selectionSet + 1 ≤ fuel →
        convertDefinition g fuel name namePrefix d selectionSet queryOptions st ≠ .outOfFuel) ∧
      (2 * Selection.depthList selectionSet + 2 ≤ fuel →
        convertDefinition g fuel name namePrefix d selectionSet queryOptions st
          ≠ .outOfFuel) := by
  induction fuel with
  | zero =>
    intro name namePrefix d selectionSet queryOptions st _ _
    exact ⟨fun _ _ h => by omega, fun h => by omega⟩
  | succ n ih =>
    intro name namePrefix d selectionSet queryOptions st hOut hIn
    have hObj : d.Kind = .Object → 2 * Selection.depthList selectionSet ≤ n →
        convertObject g (convertDefinition g n) name namePrefix d selectionSet queryOptions st
          ≠ .outOfFuel := by
      intro _ hle
      simp only [convertObject]
      refine Outcome.bind_ne_outOfFuel (convertSelections_ne_outOfFuel g _ _ _ _ _ _ _ ?_)
        (fun _ _ _ => finish_ne_outOfFuel _ _ _)
      intro sel hsel a nm fd ss p hs d1 hd1 name1 pfx1 st1
      subst hs
      have hd := Selection.depth_le_of_mem hsel
      rw [Selection.depth_field] at hd
      obtain ⟨hk, hss⟩ := Selection.outputOnly_field (Selection.outputOnly_of_mem hOut hsel)
      exact (ih name1 pfx1 d1 ss queryOptions st1 hss (hk d1 hd1)).2 (by omega)
    have hIface : 2 * Selection.depthList selectionSet + 1 ≤ n →
        convertInterface g (convertDefinition g n) name namePrefix d selectionSet queryOptions
          st ≠ .outOfFuel := by
      intro hle
      simp only [convertInterface]
      split
      · simp
      · split
        · simp
        · refine Outcome.bind_ne_outOfFuel
            (convertImplementations_ne_outOfFuel g _ _ _ _ _ _ _ _ _ ?_)
            (fun _ _ _ => finish_ne_outOfFuel _ _ _)
          intro impl himpl name1 pfx1 st1
          have hk := possibleTypes_kind g hPoss d impl himpl
          exact (ih name1 pfx1 impl selectionSet queryOptions st1 hOut
            (by rw [hk]; simp)).1 (by rw [hk]; simp) (by rw [hk]; simp) hle
    have main : (d.Kind ≠ .Interface → d.Kind ≠ .Union →
          2 * Selection.depthList selectionSet ≤ n →
          convertDefinitionStep g (convertDefinition g n) name namePrefix d selectionSet
            queryOptions st ≠ .outOfFuel) ∧
        (2 * Selection.depthList selectionSet + 1 ≤ n →
          convertDefinitionStep g (convertDefinition g n) name namePrefix d selectionSet
            queryOptions st ≠ .outOfFuel) := by
      simp only [convertDefinitionStep]
      cases hs : g.Config.Scalars.lookup d.Name with
      | some q => simp
      | none =>
        cases hb : builtinTypes.lookup d.Name with
        | some b => simp
        | none =>
          cases hk : d.Kind with
          | Object =>
            exact ⟨fun _ _ h => hObj hk h, fun h => hObj hk (by omega)⟩
          | InputObject => exact absurd hk hIn
          | Interface =>
            exact ⟨fun h1 _ _ => absurd rfl h1, fun h => hIface h⟩
          | Union =>
            exact ⟨fun _ h2 _ => absurd rfl h2, fun h => hIface h⟩
          | Enum => simp [convertEnum]
          | Scalar => simp
          | Other raw => simp
    exact ⟨fun h1 h2 h => main.1 h1 h2 (by omega), fun h => main.2 (by omega)⟩

/-! ### Relations on states that hold across every conversion call -/

theorem convertTypeWith_respects {R : State → State → Prop} (g : Generator) (convDef : ConvDef)
    (hc : convDef.Respects R) {name namePrefix : String} {typ : AstType}
    {selectionSet : List Selection} {options queryOptions : GenqlientDirective}
    {st : State} {r : Ret} {st1 : State}
    (h : convertTypeWith g convDef name namePrefix typ selectionSet options queryOptions st
      = .ok r st1) : R st st1 := by
  induction typ generalizing r with
  | named n nn =>
    simp only [convertTypeWith] at h
    cases hl : g.schema.Types.lookup n with
    | none => rw [hl] at h; cases h
    | some d =>
      rw [hl, Outcome.bind_eq_ok] at h
      obtain ⟨v, s0, h1, h2⟩ := h
      cases h2
      exact hc _ _ _ _ _ _ _ _ h1
  | list e nn ih =>
    simp only [convertTypeWith] at h
    rw [Outcome.bind_eq_ok] at h
    obtain ⟨v, s0, h1, h2⟩ := h
    cases h2
    exact ih h1

theorem convertFieldWith_respects {R : State → State → Prop} (hR : StepRel R) (g : Generator)
    (convDef : ConvDef) (hc : convDef.Respects R) {namePrefix fieldAlias : String}
    {fd : Option FieldDefinition} {ss : List Selection}
    {fieldOptions queryOptions : GenqlientDirective} {st : State}
    {r : Option goStructField × Option GenError} {st1 : State}
    (h : convertFieldWith g convDef namePrefix fieldAlias fd ss fieldOptions queryOptions st
      = .ok r st1) : R st st1 := by
  cases fd with
  | none =>
    simp only [convertFieldWith] at h
    cases h
    exact hR.refl _
  | some fd =>
    simp only [convertFieldWith] at h
    cases hl : g.schema.Types.lookup fd.Type_.Name with
    | none => rw [hl] at h; cases h
    | some d =>
      rw [hl, Outcome.bind_eq_ok] at h
      obtain ⟨v, s0, h1, h2⟩ := h
      have h3 := convertTypeWith_respects g convDef hc h1
      cases hv : v.2 with
      | some err => rw [hv] at h2; cases h2; exact h3
      | none => rw [hv] at h2; cases h2; exact h3

theorem convertSelections_respects {R : State → State → Prop} (hR : StepRel R) (g : Generator)
    (convDef : ConvDef) (hc : convDef.Respects R) (addr : Addr) (namePrefix : String)
    (queryOptions : GenqlientDirective) (sels : List Selection) :
    ∀ (i : Nat) (st : State) (r : Option GenError) (st1 : State),
      convertSelections g convDef addr namePrefix queryOptions i sels st = .ok r st1 →
      R st st1 := by
  induction sels with
  | nil =>
    intro i st r st1 h
    simp only [convertSelections] at h
    cases h
    exact hR.refl _
  | cons sel rest ih =>
    intro i st r st1 h
    simp only [convertSelections] at h
    cases hp : (g.parsePrecedingComment sel.GetPosition).2 with
    | some err => rw [hp] at h; cases h; exact hR.refl _
    | none =>
      rw [hp] at h
      cases sel with
      | Field fieldAlias fieldName fd ss p =>
        simp only at h
        rw [Outcome.bind_eq_ok] at h
        obtain ⟨v, s0, h1, h2⟩ := h
        have h3 := convertFieldWith_respects hR g convDef hc h1
        have h4 := hR.trans _ _ _ h3 (hR.setField s0 addr i v.1)
        cases hv : v.2 with
        | some err => rw [hv] at h2; cases h2; exact h4
        | none =>
          rw [hv] at h2
          exact hR.trans _ _ _ h4 (ih _ _ _ _ h2)
      | FragmentSpread n p => cases h; exact hR.refl _
      | InlineFragment t ss p => cases h; exact hR.refl _

theorem convertInputFields_respects {R : State → State → Prop} (hR : StepRel R)
    (g : Generator) (convDef : ConvDef) (hc : convDef.Respects R) (addr : Addr)
    (queryOptions : GenqlientDirective) (fields : List FieldDefinition) :
    ∀ (i : Nat) (st : State) (r : Option GenError) (st1 : State),
      convertInputFields g convDef addr queryOptions i fields st = .ok r st1 → R st st1 := by
  induction fields with
  | nil =>
    intro i st r st1 h
    simp only [convertInputFields] at h
    cases h
    exact hR.refl _
  | cons f rest ih =>
    intro i st r st1 h
    simp only [convertInputFields] at h
    rw [Outcome.bind_eq_ok] at h
    obtain ⟨v, s0, h1, h2⟩ := h
    have h3 := convertTypeWith_respects g convDef hc h1
    cases hv : v.2 with
    | some err => rw [hv] at h2; cases h2; exact h3
    | none =>
      rw [hv] at h2
      exact hR.trans _ _ _ (hR.trans _ _ _ h3 (hR.setField s0 addr i _)) (ih _ _ _ _ h2)

theorem convertImplementations_respects {R : State → State → Prop} (hR : StepRel R)
    (g : Generator) (convDef : ConvDef) (hc : convDef.Respects R) (addr : Addr)
    (defName namePrefix : String) (selectionSet : List Selection)
    (queryOptions : GenqlientDirective) (impls : List Definition) :
    ∀ (i : Nat) (st : State) (r : Option GenError) (st1 : State),
      convertImplementations g convDef addr defName namePrefix selectionSet queryOptions i
        impls st = .ok r st1 → R st st1 := by
  induction impls with
  | nil =>
    intro i st r st1 h
    simp only [convertImplementations] at h
    cases h
    exact hR.refl _
  | cons d rest ih =>
    intro i st r st1 h
    simp only [convertImplementations] at h
    rw [Outcome.bind_eq_ok] at h
    obtain ⟨v, s0, h1, h2⟩ := h
    have h3 := hc _ _ _ _ _ _ _ _ h1
    cases hv : v.2 with
    | some err => rw [hv] at h2; cases h2; exact h3
    | none =>
      rw [hv] at h2
      cases ht : v.1 with
      | structPtr a =>
        rw [ht] at h2
        exact hR.trans _ _ _ (hR.trans _ _ _ h3 (hR.setImplementation s0 addr i _))
          (ih _ _ _ _ h2)
      | nil => rw [ht] at h2; cases h2; exact h3
      | opaqueRef _ => rw [ht] at h2; cases h2; exact h3
      | slice _ => rw [ht] at h2; cases h2; exact h3
      | pointer _ => rw [ht] at h2; cases h2; exact h3
      | interfacePtr _ => rw [ht] at h2; cases h2; exact h3
      | enumPtr _ => rw [ht] at h2; cases h2; exact h3

theorem finish_state {t : goType} {e : Option GenError} {st : State} {r : Ret} {st1 : State}
    (h : finish t e st = .ok r st1) : st1 = st := by
  cases e <;> (simp only [finish] at h; cases h; rfl)

theorem convertDefinitionStep_respects {R : State → State → Prop} (hR : StepRel R)
    (g : Generator) (convDef : ConvDef) (hc : convDef.Respects R) :
    ConvDef.Respects R (convertDefinitionStep g convDef) := by
  intro name namePrefix d selectionSet queryOptions st r st1 h
  simp only [convertDefinitionStep] at h
  cases hs : g.Config.Scalars.lookup d.Name with
  | some q => rw [hs] at h; cases h; exact hR.refl _
  | none =>
    rw [hs] at h
    cases hb : builtinTypes.lookup d.Name with
    | some b => rw [hb] at h; cases h; exact hR.refl _
    | none =>
      rw [hb] at h
      have hI : convertInterface g convDef name namePrefix d selectionSet queryOptions st
          = .ok r st1 → R st st1 := by
        intro h
        simp only [convertInterface] at h
        split at h
        · cases h; exact hR.refl _
        · split at h
          · cases h; exact hR.refl _
          · rw [Outcome.bind_eq_ok] at h
            obtain ⟨v, s0, h1, h2⟩ := h
            cases finish_state h2
            exact hR.trans _ _ _ (hR.allocate st (.iface _))
              (convertImplementations_respects hR g convDef hc _ _ _ _ _ _ _ _ _ _ h1)
      cases hk : d.Kind with
      | Object =>
        rw [hk] at h
        simp only [convertObject] at h
        rw [Outcome.bind_eq_ok] at h
        obtain ⟨v, s0, h1, h2⟩ := h
        cases finish_state h2
        exact hR.trans _ _ _ (hR.allocate st (.struct _))
          (convertSelections_respects hR g convDef hc _ _ _ _ _ _ _ _ h1)
      | InputObject =>
        rw [hk] at h
        simp only [convertInputObject] at h
        rw [Outcome.bind_eq_ok] at h
        obtain ⟨v, s0, h1, h2⟩ := h
        cases finish_state h2
        exact hR.trans _ _ _ (hR.allocate st (.struct _))
          (convertInputFields_respects hR g convDef hc _ _ _ _ _ _ _ h1)
      | Interface => rw [hk] at h; exact hI h
      | Union => rw [hk] at h; exact hI h
      | Enum =>
        rw [hk] at h
        simp only [convertEnum] at h
        cases h
        exact hR.allocate st (.enum _)
      | Scalar => rw [hk] at h; cases h; exact hR.refl _
      | Other raw => rw [hk] at h; cases h; exact hR.refl _

theorem convertDefinition_respects {R : State → State → Prop} (hR : StepRel R)
    (g : Generator) (fuel : Nat) : ConvDef.Respects R (convertDefinition g fuel) := by
  induction fuel with
  | zero =>
    intro name namePrefix d selectionSet queryOptions st r st1 h
    cases h
  | succ n ih => exact convertDefinitionStep_respects hR g _ ih

/-! ### The registry invariant -/

theorem nodeNamed_of_cells {k : String} {t : goType} {h h1 : List goNode}
    (hn : NodeNamed k t h)
    (hc : ∀ (a : Addr) (n : goNode), h[a]? = some n →
      ∃ n1, h1[a]? = some n1 ∧ n1.ref a = n.ref a ∧ n1.GoName = n.GoName) :
    NodeNamed k t h1 := by
  obtain ⟨a, n, ha, ht, hk⟩ := hn
  obtain ⟨n1, h1a, hr, hg⟩ := hc a n ha
  exact ⟨a, n1, h1a, by rw [ht, hr], by rw [hg, hk]⟩

theorem cells_modify (f : goNode → goNode)
    (hf : ∀ (a : Addr) (n : goNode), (f n).ref a = n.ref a ∧ (f n).GoName = n.GoName)
    (addr : Addr) (h : List goNode) (a : Addr) (n : goNode) (ha : h[a]? = some n) :
    ∃ n1, (List.modify f addr h)[a]? = some n1 ∧ n1.ref a = n.ref a ∧ n1.GoName = n.GoName := by
  rw [List.getElem?_modify, ha]
  by_cases hx : addr = a
  · exact ⟨f n, by simp [hx], (hf a n).1, (hf a n).2⟩
  · exact ⟨n, by simp [hx], rfl, rfl⟩

theorem goNode.ref_setField (i : Nat) (f : Option goStructField) (a : Addr) (n : goNode) :
    (n.setField i f).ref a = n.ref a ∧ (n.setField i f).GoName = n.GoName := by
  cases n <;> exact ⟨rfl, rfl⟩

theorem goNode.ref_setImplementation (i : Nat) (impl : Option Addr) (a : Addr) (n : goNode) :
    (n.setImplementation i impl).ref a = n.ref a ∧
      (n.setImplementation i impl).GoName = n.GoName := by
  cases n <;> exact ⟨rfl, rfl⟩

theorem goNode.ref_setRoot (d : String) (a : Addr) (n : goNode) :
    (n.setRoot d).ref a = n.ref a ∧ (n.setRoot d).GoName = n.GoName := by
  cases n <;> exact ⟨rfl, rfl⟩

theorem entriesFrom_refl (n : Nat) (m : List (String × goType)) : EntriesFrom n m m :=
  fun _ _ h => Or.inl h

theorem freshPtr_mono {n1 n2 : Nat} {t : goType} (hle : n1 ≤ n2) (h : FreshPtr n2 t) :
    FreshPtr n1 t := by
  obtain ⟨a, ha, ht⟩ := h
  exact ⟨a, le_trans hle ha, ht⟩

theorem entriesFrom_trans {n1 n2 : Nat} {m1 m2 m3 : List (String × goType)} (hle : n1 ≤ n2)
    (h12 : EntriesFrom n1 m1 m2) (h23 : EntriesFrom n2 m2 m3) : EntriesFrom n1 m1 m3 := by
  intro k t h
  rcases h23 k t h with h1 | h1
  · exact h12 k t h1
  · exact Or.inr (freshPtr_mono hle h1)

theorem kept_refl (st : State) : Kept st st :=
  ⟨le_refl _, entriesFrom_refl _ _, fun h => h⟩

theorem kept_trans (st1 st2 st3 : State) (h12 : Kept st1 st2) (h23 : Kept st2 st3) :
    Kept st1 st3 :=
  ⟨le_trans h12.1 h23.1, entriesFrom_trans h12.1 h12.2.1 h23.2.1,
    fun h => h23.2.2 (h12.2.2 h)⟩

theorem kept_modify (f : goNode → goNode)
    (hf : ∀ (a : Addr) (n : goNode), (f n).ref a = n.ref a ∧ (f n).GoName = n.GoName)
    (st : State) (addr : Addr) :
    Kept st { st with heap := List.modify f addr st.heap } := by
  refine ⟨by simp, entriesFrom_refl _ _, ?_⟩
  intro hok k t hl
  exact nodeNamed_of_cells (hok k t hl) (cells_modify f hf addr st.heap)

theorem goNode.ref_fresh (n : goNode) (a : Addr) : FreshPtr a (n.ref a) := by
  cases n
  · exact ⟨a, le_refl _, Or.inl rfl⟩
  · exact ⟨a, le_refl _, Or.inr (Or.inl rfl)⟩
  · exact ⟨a, le_refl _, Or.inr (Or.inr rfl)⟩

theorem kept_allocate (st : State) (n : goNode) :
    Kept st ((st.alloc n).2.register n.GoName (n.ref st.heap.length)) := by
  refine ⟨by simp [State.alloc, State.register], ?_, ?_⟩
  · intro k t hl
    rw [lookup_register] at hl
    split at hl
    · cases hl
      exact Or.inr (goNode.ref_fresh n _)
    · exact Or.inl hl
  · intro hok k t hl
    rw [lookup_register] at hl
    split at hl
    · rename_i hk
      cases hl
      exact ⟨st.heap.length, n, by simp [State.alloc, State.register], rfl, hk.symm⟩
    · refine nodeNamed_of_cells (hok k t hl) ?_
      intro a n1 ha
      refine ⟨n1, ?_, rfl, rfl⟩
      have hlt := getElem?_lt_length ha
      simp only [State.alloc, State.register]
      rw [List.getElem?_append_left hlt]
      exact ha

theorem stepRel_kept : StepRel Kept where
  refl := kept_refl
  trans := kept_trans
  setField := fun st addr i f => kept_modify _ (goNode.ref_setField i f) st addr
  setImplementation := fun st addr i impl =>
    kept_modify _ (goNode.ref_setImplementation i impl) st addr
  allocate := kept_allocate

theorem convertDefinition_kept (g : Generator) (fuel : Nat) :
    ConvDef.Respects Kept (convertDefinition g fuel) :=
  convertDefinition_respects stepRel_kept g fuel

theorem convertInputType_kept (g : Generator) (fuel : Nat) {opName : String} {typ : AstType}
    {options queryOptions : GenqlientDirective} {st : State} {r : Ret} {st1 : State}
    (h : convertInputType g fuel opName typ options queryOptions st = .ok r st1) :
    Kept st st1 :=
  convertTypeWith_respects g _ (convertDefinition_kept g fuel) h

theorem convertOperation_kept (g : Generator) (fuel : Nat) {operation : OperationDefinition}
    {queryOptions : GenqlientDirective} {st : State} {r : Ret} {st1 : State}
    (h : convertOperation g fuel operation queryOptions st = .ok r st1) :
    Kept st st1 := by
  simp only [convertOperation] at h
  cases hl : st.typeMap.lookup (operation.Name ++ "Response") with
  | some d => rw [hl] at h; cases h; exact kept_refl _
  | none =>
    rw [hl] at h
    cases he : (baseTypeForOperation g operation.Operation).2 with
    | some err => rw [he] at h; cases h; exact kept_refl _
    | none =>
      rw [he] at h
      cases hb : (baseTypeForOperation g operation.Operation).1 with
      | none => rw [hb] at h; cases h
      | some baseType =>
        rw [hb] at h
        simp only at h
        rw [Outcome.bind_eq_ok] at h
        obtain ⟨v, s0, h1, h2⟩ := h
        have h3 := convertDefinition_kept g fuel _ _ _ _ _ _ _ _ h1
        cases hv : v.1 with
        | structPtr a =>
          rw [hv] at h2
          cases h2
          exact kept_trans _ _ _ h3 (kept_modify _ (goNode.ref_setRoot _) s0 a)
        | nil => rw [hv] at h2; cases h2; exact h3
        | opaqueRef _ => rw [hv] at h2; cases h2; exact h3
        | slice _ => rw [hv] at h2; cases h2; exact h3
        | pointer _ => rw [hv] at h2; cases h2; exact h3
        | interfacePtr _ => rw [hv] at h2; cases h2; exact h3
        | enumPtr _ => rw [hv] at h2; cases h2; exact h3

/-! ### The value returned with an error -/

theorem convertDefinition_error_value (g : Generator) (fuel : Nat) {name namePrefix : String}
    {d : Definition} {selectionSet : List Selection} {queryOptions : GenqlientDirective}
    {st : State} {r : Ret} {st1 : State}
    (h : convertDefinition g fuel name namePrefix d selectionSet queryOptions st = .ok r st1)
    (hr : r.2 ≠ none) :
    (g.Config.Scalars.lookup d.Name = none ∧ r.1 = .nil) ∨
    (∃ q, g.Config.Scalars.lookup d.Name = some q ∧ r = (.opaqueRef (g.addRef q).1,
      (g.addRef q).2) ∧ st1 = st) := by
  cases fuel with
  | zero => cases h
  | succ n =>
    simp only [convertDefinition, convertDefinitionStep] at h
    cases hs : g.Config.Scalars.lookup d.Name with
    | some q =>
      rw [hs] at h
      cases h
      exact Or.inr ⟨q, rfl, rfl, rfl⟩
    | none =>
      rw [hs] at h
      refine Or.inl ⟨rfl, ?_⟩
      cases hb : builtinTypes.lookup d.Name with
      | some b => rw [hb] at h; cases h; exact absurd rfl hr
      | none =>
        rw [hb] at h
        have hS := convertDefinition_sound g n
        have hI : convertInterface g (convertDefinition g n) name namePrefix d selectionSet
            queryOptions st = .ok r st1 → r.1 = .nil := by
          intro h
          rcases (convertInterface_ok g _ hS h).2.2 with h1 | h1
          · exact absurd h1.1 hr
          · exact h1.2
        cases hk : d.Kind with
        | Object =>
          rw [hk] at h
          rcases (convertObject_ok g _ hS h).2.2.2.1 with h1 | h1
          · exact absurd h1.1 hr
          · exact h1.2
        | InputObject =>
          rw [hk] at h
          rcases (convertInputObject_ok g _ hS h).2.2.2.1 with h1 | h1
          · exact absurd h1.1 hr
          · exact h1.2
        | Interface => rw [hk] at h; exact hI h
        | Union => rw [hk] at h; exact hI h
        | Enum =>
          rw [hk] at h
          exact absurd (convertEnum_ok h).2.2.2.1 hr
        | Scalar => rw [hk] at h; cases h; rfl
        | Other raw => rw [hk] at h; cases h; rfl

/-! ### The loops return at the first error -/

theorem convertImplementations_append (g : Generator) (convDef : ConvDef) (addr : Addr)
    (defName namePrefix : String) (selectionSet : List Selection)
    (queryOptions : GenqlientDirective) (pre rest : List Definition) :
    ∀ (i : Nat) (st : State),
      convertImplementations g convDef addr defName namePrefix selectionSet queryOptions i
          (pre ++ rest) st =
        (convertImplementations g convDef addr defName namePrefix selectionSet queryOptions i
            pre st).bind
          fun err st1 =>
            match err with
            | some e => .ok (some e) st1
            | none =>
              convertImplementations g convDef addr defName namePrefix selectionSet
                queryOptions (i + pre.length) rest st1 := by
  induction pre with
  | nil =>
    intro i st
    simp [convertImplementations, Outcome.bind]
  | cons implDef pre ih =>
    intro i st
    simp only [List.cons_append, convertImplementations, List.length_cons]
    cases hc : convDef (typeName namePrefix implDef).1 (typeName namePrefix implDef).2 implDef
        selectionSet queryOptions st with
    | nilDeref => simp [Outcome.bind]
    | outOfFuel => simp [Outcome.bind]
    | ok v s0 =>
      simp only [Outcome.bind]
      cases hv : v.2 with
      | some e => simp
      | none =>
        simp only
        have key := ih (i + 1)
        have e : i + 1 + pre.length = i + (pre.length + 1) := by omega
        rw [e] at key
        cases ht : v.1 with
        | structPtr a => simp only; exact key _
        | nil => simp
        | opaqueRef _ => simp
        | slice _ => simp
        | pointer _ => simp
        | interfacePtr _ => simp
        | enumPtr _ => simp

theorem convertInterface_eq (g : Generator) (convDef : ConvDef) (name namePrefix : String)
    (d : Definition) (selectionSet : List Selection) (queryOptions : GenqlientDirective)
    (st : State) (hFlag : g.Config.AllowBrokenFeatures = true)
    (hTypename : hasTypename selectionSet = true) :
    convertInterface g convDef name namePrefix d selectionSet queryOptions st =
      (convertImplementations g convDef st.heap.length d.Name namePrefix selectionSet
        queryOptions 0 (g.schema.GetPossibleTypes d) (interfaceStart g name d st)).bind
        (finish (.interfacePtr st.heap.length)) := by
  simp only [convertInterface, hFlag, hTypename, interfaceStart]
  rfl

/-! ### The call that fills each field slot -/

theorem convertSelections_calls (g : Generator) (convDef : ConvDef) (hS : convDef.Sound)
    (addr : Addr) (namePrefix : String) (queryOptions : GenqlientDirective)
    (selectionSet : List Selection) :
    ∀ (i : Nat) (st st1 : State) (s : goStructType),
      st.heap[addr]? = some (.struct s) →
      i + selectionSet.length ≤ s.Fields.length →
      convertSelections g convDef addr namePrefix queryOptions i selectionSet st
        = .ok none st1 →
      ∃ s1, st1.heap[addr]? = some (.struct s1) ∧
        s1.Fields.length = s.Fields.length ∧
        (∀ k, k < i → s1.Fields[k]? = s.Fields[k]?) ∧
        ∀ (j : Nat) (sel : Selection), selectionSet[j]? = some sel →
          ∃ (fieldAlias fieldName : String) (fdef : Option FieldDefinition)
            (ss : List Selection) (p : Position) (x : Option goStructField)
            (sa sb : State),
            sel = .Field fieldAlias fieldName fdef ss p ∧
            convertFieldWith g convDef namePrefix fieldAlias fdef ss
              (queryOptions.merge (g.parsePrecedingComment p).1) queryOptions sa
              = .ok (x, none) sb ∧
            s1.Fields[i + j]? = some x := by
  induction selectionSet with
  | nil =>
    intro i st st1 s hs _ h
    simp only [convertSelections] at h
    cases h
    exact ⟨s, hs, rfl, fun _ _ => rfl, fun j sel hj => by simp at hj⟩
  | cons selection rest ih =>
    intro i st st1 s hs hlen h
    simp only [convertSelections] at h
    cases hp : (g.parsePrecedingComment selection.GetPosition).2 with
    | some err => rw [hp] at h; cases h
    | none =>
      rw [hp] at h
      cases selection with
      | FragmentSpread n p => cases h
      | InlineFragment t ss p => cases h
      | Field fa fn fdef fsel p =>
        simp only [Outcome.bind_eq_ok] at h
        obtain ⟨v, s0, h1, h2⟩ := h
        cases hv : v.2 with
        | some e => rw [hv] at h2; cases h2
        | none =>
          rw [hv] at h2
          have h1a : convertFieldWith g convDef namePrefix fa fdef fsel
              (queryOptions.merge (g.parsePrecedingComment p).1) queryOptions st
              = .ok (v.1, none) s0 := by rw [← hv]; exact h1
          have hext := (convertFieldWith_sound g convDef hS h1).1
          have haddr : addr < st.heap.length := getElem?_lt_length hs
          have hs0 : s0.heap[addr]? = some (.struct s) := by rw [hext.2 addr haddr, hs]
          have hs2 : (s0.setField addr i v.1).heap[addr]? =
              some (.struct { s with Fields := s.Fields.set i v.1 }) := by
            simp [State.setField, List.getElem?_modify_eq, hs0, goNode.setField]
          have hlen2 : i + 1 + rest.length ≤ (s.Fields.set i v.1).length := by
            simp only [List.length_set, List.length_cons] at hlen ⊢
            omega
          obtain ⟨s1, hs1, hl1, hk1, hj1⟩ := ih (i + 1) _ st1 _ hs2 hlen2 h2
          refine ⟨s1, hs1, by simpa using hl1, ?_, ?_⟩
          · intro k hk
            rw [hk1 k (by omega)]
            simp only
            rw [List.getElem?_set_ne (by omega)]
          · intro j sel hj
            cases j with
            | zero =>
              simp only [List.getElem?_cons_zero, Option.some.injEq] at hj
              subst hj
              refine ⟨fa, fn, fdef, fsel, p, v.1, st, s0, rfl, h1a, ?_⟩
              rw [Nat.add_zero, hk1 i (by omega)]
              simp only
              rw [List.getElem?_set_self (by simp only [List.length_cons] at hlen; omega)]
            | succ j =>
              simp only [List.getElem?_cons_succ] at hj
              obtain ⟨a1, a2, a3, a4, a5, a6, a7, a8, hb1, hb2, hb3⟩ := hj1 j sel hj
              refine ⟨a1, a2, a3, a4, a5, a6, a7, a8, hb1, hb2, ?_⟩
              rw [← hb3]
              congr 1
              omega

theorem hasPointer_wrapSlices_pointer (n : Nat) (t : goType) :
    (wrapSlices n (.pointer t)).hasPointer = true := by
  induction n with
  | zero => rfl
  | succ k ih => simpa [wrapSlices, goType.hasPointer] using ih

theorem convertFieldWith_call (g : Generator) (convDef : ConvDef) (hS : convDef.Sound)
    {namePrefix fieldAlias : String} {fdef : Option FieldDefinition} {ss : List Selection}
    {fieldOptions queryOptions : GenqlientDirective} {st : State}
    {x : Option goStructField} {st1 : State}
    (h : convertFieldWith g convDef namePrefix fieldAlias fdef ss fieldOptions queryOptions st
      = .ok (x, none) st1) :
    ∃ (fd : FieldDefinition) (d : Definition) (t : goType), fdef = some fd ∧
      g.schema.Types.lookup fd.Type_.Name = some d ∧
      convDef (typeName (namePrefix ++ upperFirst fieldAlias) d).1
        (typeName (namePrefix ++ upperFirst fieldAlias) d).2 d ss queryOptions st
        = .ok (t, none) st1 ∧
      t.isWrapper = false ∧
      x = some { GoName := upperFirst fieldAlias,
                 GoType := wrapSlices fd.Type_.listDepth
                   (if fieldOptions.GetPointer then .pointer t else t),
                 JSONName := fieldAlias, Description := fd.Description } := by
  cases fdef with
  | none => simp only [convertFieldWith] at h; cases h
  | some fd =>
    simp only [convertFieldWith] at h
    cases hl : g.schema.Types.lookup fd.Type_.Name with
    | none => rw [hl] at h; cases h
    | some d =>
      rw [hl] at h
      simp only at h
      rw [convertTypeWith_eq, Outcome.bind_eq_ok] at h
      obtain ⟨v, s0, h1, h2⟩ := h
      rw [Outcome.bind_eq_ok] at h1
      obtain ⟨w, s1, h3, h4⟩ := h1
      cases h4
      simp only [convertNamed, hl] at h3
      cases hw : w.2 with
      | some err => simp only [hw] at h2; cases h2
      | none =>
        simp only [hw] at h2
        cases h2
        have hn := (hS _ _ _ _ _ _ _ _ h3).2.2
        exact ⟨fd, d, w.1, rfl, hl, by rw [h3, ← hw], isWrapper_of_named hn, rfl⟩

/-! ### No nil type definition is reached -/

theorem Outcome.bind_ne_nilDeref {α β : Type} {x : Outcome α} {f : α → State → Outcome β}
    (hx : x ≠ .nilDeref) (hf : ∀ v s, x = .ok v s → f v s ≠ .nilDeref) :
    x.bind f ≠ .nilDeref := by
  cases x with
  | ok v s => exact hf v s rfl
  | nilDeref => exact absurd rfl hx
  | outOfFuel => simp [Outcome.bind]

theorem Schema.defines_of_lookup {s : Schema} {k : String} {d : Definition}
    (h : s.Types.lookup k = some d) : s.Defines d :=
  Or.inl (lookup_some_mem _ _ _ h)

theorem Schema.defines_of_possible {s : Schema} {d impl : Definition}
    (h : impl ∈ s.GetPossibleTypes d) : s.Defines impl := by
  unfold Schema.GetPossibleTypes at h
  cases hl : s.PossibleTypes.lookup d.Name with
  | none => rw [hl] at h; simp at h
  | some l =>
    rw [hl] at h
    obtain ⟨p, hp, hv⟩ := lookup_some_mem _ _ _ hl
    exact Or.inr (Or.inr (Or.inr (Or.inr ⟨p, hp, by rw [hv]; simpa using h⟩)))

theorem Schema.inputFields_of_defines {s : Schema} (hs : s.inputFieldsDefined = true)
    {d : Definition} (hd : s.Defines d) (hk : d.Kind = .InputObject) :
    ∀ f, f ∈ d.Fields → ∃ d1, s.Types.lookup f.Type_.Name = some d1 := by
  have key : d.inputFieldsDefined s = true := by
    simp only [Schema.inputFieldsDefined, Bool.and_eq_true, List.all_eq_true,
      List.mem_append, Option.mem_toList] at hs
    obtain ⟨⟨h1, h2⟩, h3⟩ := hs
    rcases hd with ⟨p, hp, rfl⟩ | hq | hm | hsub | ⟨p, hp, hmem⟩
    · exact h1 p hp
    · exact h2 d (Or.inl (Or.inl hq))
    · exact h2 d (Or.inl (Or.inr hm))
    · exact h2 d (Or.inr hsub)
    · exact h3 p hp d hmem
  intro f hf
  simp only [Definition.inputFieldsDefined, hk, ne_eq, not_true_eq_false, decide_False,
    Bool.false_or, List.all_eq_true] at key
  have := key f hf
  simp only [FieldDefinition.typeDefined] at this
  exact Option.isSome_iff_exists.1 this

theorem Selection.typesDefined_of_mem {s : Schema} {sel : Selection} {sels : List Selection}
    (hs : Selection.typesDefinedList s sels = true) (h : sel ∈ sels) :
    Selection.typesDefined s sel = true := by
  induction sels with
  | nil => simp at h
  | cons x rest ih =>
    simp only [Selection.typesDefinedList, Bool.and_eq_true] at hs
    rcases List.mem_cons.1 h with h1 | h1
    · subst h1; exact hs.1
    · exact ih hs.2 h1

theorem Selection.typesDefined_field {s : Schema} {a n : String} {fd : FieldDefinition}
    {ss : List Selection} {p : Position}
    (h : Selection.typesDefined s (.Field a n (some fd) ss p) = true) :
    (∃ d, s.Types.lookup fd.Type_.Name = some d) ∧ Selection.typesDefinedList s ss = true := by
  simp only [Selection.typesDefined, Bool.and_eq_true, FieldDefinition.typeDefined] at h
  exact ⟨Option.isSome_iff_exists.1 h.1, h.2⟩

theorem convertTypeWith_ne_nilDeref (g : Generator) (convDef : ConvDef)
    (name namePrefix : String) (typ : AstType) (selectionSet : List Selection)
    (options queryOptions : GenqlientDirective) (st : State)
    (hl : ∃ d, g.schema.Types.lookup typ.Name = some d)
    (h : ∀ d, g.schema.Types.lookup typ.Name = some d → ∀ st1,
      convDef name namePrefix d selectionSet queryOptions st1 ≠ .nilDeref) :
    convertTypeWith g convDef name namePrefix typ selectionSet options queryOptions st
      ≠ .nilDeref := by
  induction typ with
  | named n nn =>
    simp only [convertTypeWith]
    obtain ⟨d, hd⟩ := hl
    simp only [AstType.Name] at hd h
    rw [hd]
    exact Outcome.bind_ne_nilDeref (h d hd st) (fun _ _ _ => by simp)
  | list e nn ih =>
    simp only [convertTypeWith]
    exact Outcome.bind_ne_nilDeref (ih hl h) (fun _ _ _ => by simp)

theorem convertFieldWith_ne_nilDeref (g : Generator) (convDef : ConvDef)
    (namePrefix fieldAlias : String) (fd : Option FieldDefinition) (ss : List Selection)
    (fieldOptions queryOptions : GenqlientDirective) (st : State)
    (hl : ∀ fd1, fd = some fd1 → ∃ d, g.schema.Types.lookup fd1.Type_.Name = some d)
    (h : ∀ fd1, fd = some fd1 → ∀ d, g.schema.Types.lookup fd1.Type_.Name = some d →
      ∀ name namePfx1 st1, convDef name namePfx1 d ss queryOptions st1 ≠ .nilDeref) :
    convertFieldWith g convDef namePrefix fieldAlias fd ss fieldOptions queryOptions st
      ≠ .nilDeref := by
  cases fd with
  | none => simp [convertFieldWith]
  | some fd =>
    simp only [convertFieldWith]
    obtain ⟨d, hd⟩ := hl fd rfl
    rw [hd]
    refine Outcome.bind_ne_nilDeref
      (convertTypeWith_ne_nilDeref g convDef _ _ _ _ _ _ _ ⟨d, hd⟩
        (fun d1 hd1 st1 => h fd rfl d1 hd1 _ _ st1)) ?_
    intro r st1 _
    cases r.2 <;> simp

theorem convertSelections_ne_nilDeref (g : Generator) (convDef : ConvDef)
    (addr : Addr) (namePrefix : String) (queryOptions : GenqlientDirective) (i : Nat)
    (sels : List Selection) (st : State)
    (hl : Selection.typesDefinedList g.schema sels = true)
    (h : ∀ sel, sel ∈ sels → ∀ a n fd ss p, sel = .Field a n (some fd) ss p →
      ∀ d, g.schema.Types.lookup fd.Type_.Name = some d →
      ∀ name namePfx1 st1, convDef name namePfx1 d ss queryOptions st1 ≠ .nilDeref) :
    convertSelections g convDef addr namePrefix queryOptions i sels st ≠ .nilDeref := by
  induction sels generalizing i st with
  | nil => simp [convertSelections]
  | cons sel rest ih =>
    simp only [convertSelections]
    cases hp : (g.parsePrecedingComment sel.GetPosition).2 with
    | some err => simp
    | none =>
      have hsel := Selection.typesDefined_of_mem hl (List.mem_cons_self _ _)
      have hrest : Selection.typesDefinedList g.schema rest = true := by
        simp only [Selection.typesDefinedList, Bool.and_eq_true] at hl
        exact hl.2
      cases sel with
      | Field fieldAlias fieldName fd ss p =>
        simp only
        refine Outcome.bind_ne_nilDeref (convertFieldWith_ne_nilDeref g convDef _ _ _ _ _ _ _
          ?_ ?_) ?_
        · intro fd1 hfd
          subst hfd
          exact (Selection.typesDefined_field hsel).1
        · intro fd1 hfd d hd name namePfx1 st1
          subst hfd
          exact h _ (List.mem_cons_self _ _) _ _ _ _ _ rfl d hd name namePfx1 st1
        · intro r st1 _
          cases r.2 with
          | some err => simp
          | none =>
            exact ih _ _ hrest (fun sel hsel => h sel (List.mem_cons_of_mem _ hsel))
      | FragmentSpread n p => simp
      | InlineFragment t ss p => simp

theorem convertInputFields_ne_nilDeref (g : Generator) (convDef : ConvDef)
    (addr : Addr) (queryOptions : GenqlientDirective) (i : Nat)
    (fields : List FieldDefinition) (st : State)
    (hl : ∀ f, f ∈ fields → ∃ d, g.schema.Types.lookup f.Type_.Name = some d)
    (h : ∀ f, f ∈ fields → ∀ d, g.schema.Types.lookup f.Type_.Name = some d →
      ∀ name namePfx1 st1, convDef name namePfx1 d [] queryOptions st1 ≠ .nilDeref) :
    convertInputFields g convDef addr queryOptions i fields st ≠ .nilDeref := by
  induction fields generalizing i st with
  | nil => simp [convertInputFields]
  | cons f rest ih =>
    simp only [convertInputFields]
    refine Outcome.bind_ne_nilDeref
      (convertTypeWith_ne_nilDeref g convDef _ _ _ _ _ _ _ (hl f (List.mem_cons_self _ _))
        (fun d hd st1 => h f (List.mem_cons_self _ _) d hd _ _ st1)) ?_
    intro r st1 _
    cases r.2 with
    | some err => simp
    | none =>
      exact ih _ _ (fun f1 hf1 => hl f1 (List.mem_cons_of_mem _ hf1))
        (fun f1 hf1 => h f1 (List.mem_cons_of_mem _ hf1))

theorem convertImplementations_ne_nilDeref (g : Generator) (convDef : ConvDef)
    (addr : Addr) (defName namePrefix : String) (selectionSet : List Selection)
    (queryOptions : GenqlientDirective) (i : Nat) (impls : List Definition) (st : State)
    (h : ∀ impl, impl ∈ impls → ∀ name namePfx1 st1,
      convDef name namePfx1 impl selectionSet queryOptions st1 ≠ .nilDeref) :
    convertImplementations g convDef addr defName namePrefix selectionSet queryOptions i
      impls st ≠ .nilDeref := by
  induction impls generalizing i st with
  | nil => simp [convertImplementations]
  | cons d rest ih =>
    simp only [convertImplementations]
    refine Outcome.bind_ne_nilDeref (h d (List.mem_cons_self _ _) _ _ _) ?_
    intro r st1 _
    cases r.2 with
    | some err => simp
    | none =>
      cases r.1 with
      | structPtr a => exact ih _ _ (fun impl himpl => h impl (List.mem_cons_of_mem _ himpl))
      | nil => simp
      | opaqueRef _ => simp
      | slice _ => simp
      | pointer _ => simp
      | interfacePtr _ => simp
      | enumPtr _ => simp

theorem finish_ne_nilDeref (t : goType) (e : Option GenError) (st : State) :
    finish t e st ≠ .nilDeref := by
  cases e <;> simp [finish]

theorem convertDefinition_ne_nilDeref (g : Generator)
    (hInput : g.schema.inputFieldsDefined = true) (fuel : Nat) :
    ∀ (name namePrefix : String) (d : Definition) (selectionSet : List Selection)
      (queryOptions : GenqlientDirective) (st : State),
      g.schema.Defines d → Selection.typesDefinedList g.schema selectionSet = true →
      convertDefinition g fuel name namePrefix d selectionSet queryOptions st
        ≠ .nilDeref := by
  induction fuel with
  | zero =>
    intro name namePrefix d selectionSet queryOptions st _ _
    simp [convertDefinition]
  | succ n ih =>
    intro name namePrefix d selectionSet queryOptions st hd hsel
    simp only [convertDefinition, convertDefinitionStep]
    cases hs : g.Config.Scalars.lookup d.Name with
    | some q => simp
    | none =>
      cases hb : builtinTypes.lookup d.Name with
      | some b => simp
      | none =>
        have hI : convertInterface g (convertDefinition g n) name namePrefix d selectionSet
            queryOptions st ≠ .nilDeref := by
          simp only [convertInterface]
          split
          · simp
          · split
            · simp
            · refine Outcome.bind_ne_nilDeref
                (convertImplementations_ne_nilDeref g _ _ _ _ _ _ _ _ _ ?_)
                (fun _ _ _ => finish_ne_nilDeref _ _ _)
              intro impl himpl name1 pfx1 st1
              exact ih name1 pfx1 impl selectionSet queryOptions st1
                (Schema.defines_of_possible himpl) hsel
        cases hk : d.Kind with
        | Object =>
          simp only [convertObject]
          refine Outcome.bind_ne_nilDeref
            (convertSelections_ne_nilDeref g _ _ _ _ _ _ _ hsel ?_)
            (fun _ _ _ => finish_ne_nilDeref _ _ _)
          intro sel hmem a nm fd ss p hs1 d1 hd1 name1 pfx1 st1
          subst hs1
          exact ih name1 pfx1 d1 ss queryOptions st1 (Schema.defines_of_lookup hd1)
            (Selection.typesDefined_field (Selection.typesDefined_of_mem hsel hmem)).2
        | InputObject =>
          simp only [convertInputObject]
          refine Outcome.bind_ne_nilDeref
            (convertInputFields_ne_nilDeref g _ _ _ _ _ _
              (Schema.inputFields_of_defines hInput hd hk) ?_)
            (fun _ _ _ => finish_ne_nilDeref _ _ _)
          intro f _ d1 hd1 name1 pfx1 st1
          exact ih name1 pfx1 d1 [] queryOptions st1 (Schema.defines_of_lookup hd1) rfl
        | Interface => exact hI
        | Union => exact hI
        | Enum => simp [convertEnum]
        | Scalar => simp
        | Other raw => simp

/-! ### Input objects of bounded nesting -/

theorem convertInputFields_ne_outOfFuel (g : Generator) (convDef : ConvDef)
    (addr : Addr) (queryOptions : GenqlientDirective) (i : Nat)
    (fields : List FieldDefinition) (st : State)
    (h : ∀ f, f ∈ fields → ∀ d, g.schema.Types.lookup f.Type_.Name = some d →
      ∀ name namePfx1 st1, convDef name namePfx1 d [] queryOptions st1 ≠ .outOfFuel) :
    convertInputFields g convDef addr queryOptions i fields st ≠ .outOfFuel := by
  induction fields generalizing i st with
  | nil => simp [convertInputFields]
  | cons f rest ih =>
    simp only [convertInputFields]
    refine Outcome.bind_ne_outOfFuel
      (convertTypeWith_ne_outOfFuel g convDef _ _ _ _ _ _ _
        (fun d hd st1 => h f (List.mem_cons_self _ _) d hd _ _ st1)) ?_
    intro r st1 _
    cases r.2 with
    | some err => simp
    | none => exact ih _ _ (fun f1 hf1 => h f1 (List.mem_cons_of_mem _ hf1))

theorem convertDefinition_input_terminates (g : Generator) (n : Nat) :
    ∀ (d : Definition), d.inputDepthLe g.schema n = true →
      ∀ (fuel : Nat), n + 1 ≤ fuel →
      ∀ (name namePrefix : String) (queryOptions : GenqlientDirective) (st : State),
        convertDefinition g fuel name namePrefix d [] queryOptions st ≠ .outOfFuel := by
  induction n with
  | zero =>
    intro d hd fuel hfuel name namePrefix queryOptions st
    obtain ⟨f, rfl⟩ : ∃ f, fuel = f + 1 := ⟨fuel - 1, by omega⟩
    simp only [Definition.inputDepthLe, decide_eq_true_eq] at hd
    simp only [convertDefinition, convertDefinitionStep]
    cases g.Config.Scalars.lookup d.Name with
    | some q => simp
    | none =>
      cases builtinTypes.lookup d.Name with
      | some b => simp
      | none =>
        cases hk : d.Kind with
        | Object => simp [convertObject, convertSelections, Outcome.bind, finish]
        | InputObject => exact absurd hk hd
        | Interface =>
          simp only [convertInterface, hasTypename, List.any_nil]
          split <;> simp
        | Union =>
          simp only [convertInterface, hasTypename, List.any_nil]
          split <;> simp
        | Enum => simp [convertEnum]
        | Scalar => simp
        | Other raw => simp
  | succ m ih =>
    intro d hd fuel hfuel name namePrefix queryOptions st
    obtain ⟨f, rfl⟩ : ∃ f, fuel = f + 1 := ⟨fuel - 1, by omega⟩
    simp only [convertDefinition, convertDefinitionStep]
    cases g.Config.Scalars.lookup d.Name with
    | some q => simp
    | none =>
      cases builtinTypes.lookup d.Name with
      | some b => simp
      | none =>
        cases hk : d.Kind with
        | Object => simp [convertObject, convertSelections, Outcome.bind, finish]
        | InputObject =>
          simp only [Definition.inputDepthLe, hk, ne_eq, not_true_eq_false, decide_False,
            Bool.false_or, List.all_eq_true] at hd
          simp only [convertInputObject]
          refine Outcome.bind_ne_outOfFuel
            (convertInputFields_ne_outOfFuel g _ _ _ _ _ _ ?_)
            (fun _ _ _ => finish_ne_outOfFuel _ _ _)
          intro fld hfld d1 hd1 name1 pfx1 st1
          have h1 := hd fld hfld
          rw [hd1] at h1
          exact ih d1 h1 f (by omega) name1 pfx1 queryOptions st1
        | Interface =>
          simp only [convertInterface, hasTypename, List.any_nil]
          split <;> simp
        | Union =>
          simp only [convertInterface, hasTypename, List.any_nil]
          split <;> simp
        | Enum => simp [convertEnum]
        | Scalar => simp
        | Other raw => simp

theorem convertTypeWith_input_struct (g : Generator) (fuel : Nat)
    {name namePrefix : String} {typ : AstType} {d : Definition}
    {selectionSet : List Selection} {options queryOptions : GenqlientDirective}
    {st : State} {r : Ret} {st1 : State}
    (hLookup : g.schema.Types.lookup typ.Name = some d)
    (hKind : d.Kind = .InputObject)
    (hScalars : g.Config.Scalars.lookup d.Name = none)
    (hBuiltin : builtinTypes.lookup d.Name = none)
    (h : convertTypeWith g (convertDefinition g fuel) name namePrefix typ selectionSet
      options queryOptions st = .ok r st1)
    (hr : r.2 = none) :
    r.1.core = .structPtr st.heap.length ∧ (st1.typeMap.lookup name).isSome = true ∧
    ∃ s, st1.heap[st.heap.length]? = some (.struct s) ∧ s.GoName = name ∧
      s.GraphQLName = d.Name := by
  rw [convertTypeWith_eq, Outcome.bind_eq_ok] at h
  obtain ⟨v, s0, h1, h2⟩ := h
  cases h2
  simp only [convertNamed, hLookup] at h1
  cases fuel with
  | zero => cases h1
  | succ f =>
    simp only [convertDefinition, convertDefinitionStep, hScalars, hBuiltin, hKind] at h1
    obtain ⟨_, _, hreg, h4, s, hs1, hs2, _, hs4, _⟩ :=
      convertInputObject_ok g _ (convertDefinition_sound g f) h1
    rcases h4 with ⟨_, h5⟩ | ⟨h5, _⟩
    · refine ⟨?_, hreg, s, hs1, hs2, hs4⟩
      rw [core_wrapSlices]
      split <;> simp [goType.core, h5]
    · exact absurd hr h5

theorem recursiveFilter_outOfFuel (fuel : Nat) :
    ∀ (name namePrefix : String) (selectionSet : List Selection)
      (queryOptions : GenqlientDirective) (st : State),
      convertDefinition recursiveInputGen fuel name namePrefix recursiveFilterDef selectionSet
        queryOptions st = .outOfFuel := by
  induction fuel with
  | zero => intros; rfl
  | succ n ih =>
    intro name namePrefix selectionSet queryOptions st
    have hl : recursiveInputGen.schema.Types.lookup "Filter" = some recursiveFilterDef := by
      decide
    have hs : recursiveInputGen.Config.Scalars.lookup recursiveFilterDef.Name = none := by
      decide
    have hb : builtinTypes.lookup recursiveFilterDef.Name = none := by decide
    have hk : recursiveFilterDef.Kind = .InputObject := rfl
    have hf : recursiveFilterDef.Fields = [fieldDef "and" (.named "Filter" false)] := rfl
    simp only [convertDefinition, convertDefinitionStep, hs, hb, hk, convertInputObject, hf,
      convertInputFields, fieldDef, AstType.Name, convertTypeWith, hl, ih, Outcome.bind]

/-! ### A failing selection ends the conversion of an object -/

theorem convertDefinition_field_error (g : Generator) (fuel : Nat) {name namePrefix : String}
    {d : Definition} {pre post : List Selection} {fieldAlias fieldName : String}
    {fd : Option FieldDefinition} {ss : List Selection} {p : Position}
    {queryOptions : GenqlientDirective} {st st2 st3 : State} {x : Option goStructField}
    {e : GenError}
    (hKind : d.Kind = .Object) (hScalars : g.Config.Scalars.lookup d.Name = none)
    (hBuiltin : builtinTypes.lookup d.Name = none)
    (hcomment : (g.parsePrecedingComment p).2 = none)
    (hpre : convertSelections g (convertDefinition g fuel) st.heap.length namePrefix
      queryOptions 0 pre
      (objectStart name d (pre ++ .Field fieldAlias fieldName fd ss p :: post) st)
      = .ok none st2)
    (hfield : convertField g fuel namePrefix fieldAlias fd ss
      (queryOptions.merge (g.parsePrecedingComment p).1) queryOptions st2
      = .ok (x, some e) st3) :
    convertDefinition g (fuel + 1) name namePrefix d
      (pre ++ .Field fieldAlias fieldName fd ss p :: post) queryOptions st
      = .ok (.nil, some e) (st3.setField st.heap.length pre.length x) := by
  simp only [convertDefinition, convertDefinitionStep, hScalars, hBuiltin, hKind]
  rw [convertObject_eq, convertSelections_append, hpre]
  simp only [convertField] at hfield
  simp only [Outcome.bind, convertSelections, Selection.GetPosition, hcomment, hfield,
    finish, Nat.zero_add]

theorem convertDefinition_comment_error (g : Generator) (fuel : Nat) {name namePrefix : String}
    {d : Definition} {pre post : List Selection} {sel : Selection}
    {queryOptions : GenqlientDirective} {st st2 : State} {err : GenError}
    (hKind : d.Kind = .Object) (hScalars : g.Config.Scalars.lookup d.Name = none)
    (hBuiltin : builtinTypes.lookup d.Name = none)
    (hcomment : (g.parsePrecedingComment sel.GetPosition).2 = some err)
    (hpre : convertSelections g (convertDefinition g fuel) st.heap.length namePrefix
      queryOptions 0 pre (objectStart name d (pre ++ sel :: post) st) = .ok none st2) :
    convertDefinition g (fuel + 1) name namePrefix d (pre ++ sel :: post) queryOptions st
      = .ok (.nil, some err) st2 := by
  simp only [convertDefinition, convertDefinitionStep, hScalars, hBuiltin, hKind]
  rw [convertObject_eq, convertSelections_append, hpre]
  simp only [Outcome.bind, convertSelections, hcomment, finish]

theorem convertField_of_definition_error (g : Generator) (fuel : Nat)
    {namePrefix fieldAlias : String} {fd : FieldDefinition} {ss : List Selection}
    {fieldOptions queryOptions : GenqlientDirective} {st : State} {d : Definition}
    {t : goType} {e : GenError} {st1 : State}
    (hl : g.schema.Types.lookup fd.Type_.Name = some d)
    (h : convertDefinition g fuel (typeName (namePrefix ++ upperFirst fieldAlias) d).1
      (typeName (namePrefix ++ upperFirst fieldAlias) d).2 d ss queryOptions st
      = .ok (t, some e) st1) :
    convertField g fuel namePrefix fieldAlias (some fd) ss fieldOptions queryOptions st
      = .ok (none, some e) st1 := by
  simp only [convertField, convertFieldWith, hl]
  rw [convertTypeWith_eq]
  simp only [convertNamed, hl, h, Outcome.bind]

theorem convertType_of_definition_error (g : Generator) (fuel : Nat)
    {name namePrefix : String} {typ : AstType} {selectionSet : List Selection}
    {options queryOptions : GenqlientDirective} {st : State} {d : Definition}
    {t : goType} {e : GenError} {st1 : State}
    (hl : g.schema.Types.lookup typ.Name = some d)
    (h : convertDefinition g fuel name namePrefix d selectionSet queryOptions st
      = .ok (t, some e) st1) :
    convertType g fuel name namePrefix typ selectionSet options queryOptions st
      = .ok (wrapSlices typ.listDepth (if options.GetPointer then .pointer t else t), some e)
          st1 := by
  simp only [convertType]
  rw [convertTypeWith_eq]
  simp only [convertNamed, hl, h, Outcome.bind]

/-- A later conversion of an input type under the same cased name and with the
same operation-level options, from a state whose heap is at least as long,
returns with the same error, if any, and yields a relocated copy of the first
result: the node under the wrappers is the first one at an address moved up by
the growth of the heap, and what the second conversion builds is the relocated
copy of what the first built. -/
theorem convertInputType_relocated (g : Generator) (fuel : Nat) (opName opName2 : String)
    (typ : AstType) (options1 options2 queryOptions : GenqlientDirective)
    (st st2 : State) (r : Ret) (st1 : State)
    (hName : matchFirst typ.Name opName2 = matchFirst typ.Name opName)
    (hLater : st.heap.length ≤ st2.heap.length)
    (h : convertInputType g fuel opName typ options1 queryOptions st = .ok r st1) :
    ∃ (r2 : Ret) (st3 : State),
      convertInputType g fuel opName2 typ options2 queryOptions st2 = .ok r2 st3 ∧
      r2.2 = r.2 ∧
      r2.1.core = r.1.core.shift (st2.heap.length - st.heap.length) ∧
      Relocated st.heap.length (st2.heap.length - st.heap.length) st1 st3 ∧
      ∀ (a : Addr), r.1.core = .structPtr a →
        ∃ (s s2 : goStructType), st1.heap[a]? = some (.struct s) ∧
          st3.heap[a + (st2.heap.length - st.heap.length)]? = some (.struct s2) ∧
          s.GoName = matchFirst typ.Name opName ∧ s2.GoName = matchFirst typ.Name opName ∧
          (st1.typeMap.lookup (matchFirst typ.Name opName)).isSome = true ∧
          (st3.typeMap.lookup (matchFirst typ.Name opName)).isSome = true ∧
          s2.Fields = s.Fields.map
            (Option.map (goStructField.shift (st2.heap.length - st.heap.length))) := by
  unfold convertInputType convertType at h ⊢
  rw [hName]
  rw [convertTypeWith_eq, Outcome.bind_eq_ok] at h
  obtain ⟨v, s0, h1, h2⟩ := h
  obtain ⟨t2, h3, hR⟩ := convertNamed_relocatable g _ (convertDefinition_relocatable g fuel)
    (relocated_start st st2 hLater) h1
  have hn := (convertNamed_sound g _ (convertDefinition_sound g fuel) h1).2.2
  cases h2
  have hcore1 : ∀ (o : GenqlientDirective),
      (wrapSlices typ.listDepth (if o.GetPointer = true then goType.pointer v.1 else v.1)).core
        = v.1 := by
    intro o
    rw [core_wrapSlices]
    split
    · simpa [goType.core] using core_of_named hn
    · exact core_of_named hn
  have hcore2 : ∀ (o : GenqlientDirective),
      (wrapSlices typ.listDepth (if o.GetPointer = true
        then goType.pointer (v.1.shift (st2.heap.length - st.heap.length))
        else v.1.shift (st2.heap.length - st.heap.length))).core
        = v.1.shift (st2.heap.length - st.heap.length) := by
    intro o
    rw [core_wrapSlices]
    have hc : (v.1.shift (st2.heap.length - st.heap.length)).core
        = v.1.shift (st2.heap.length - st.heap.length) := by
      rw [goType.core_shift, core_of_named hn]
    split
    · simpa [goType.core] using hc
    · exact hc
  refine ⟨(wrapSlices typ.listDepth (if options2.GetPointer = true
      then goType.pointer (v.1.shift (st2.heap.length - st.heap.length))
      else v.1.shift (st2.heap.length - st.heap.length)), v.2), t2, ?_, rfl, ?_, hR, ?_⟩
  · rw [convertTypeWith_eq, h3]
    rfl
  · simp only [hcore1, hcore2]
  · intro a ha
    simp only [hcore1] at ha
    unfold convertNamed at h1 h3
    cases hl : g.schema.Types.lookup typ.Name with
    | none => rw [hl] at h1; cases h1
    | some d =>
      rw [hl] at h1 h3
      obtain ⟨hfresh, hkey1, s, hs1, hs2⟩ :=
        convertDefinition_struct_fresh g fuel _ _ _ _ _ _ _ _ a h1 ha
      obtain ⟨_, hkey2, s2, hs3, hs4⟩ :=
        convertDefinition_struct_fresh g fuel _ _ _ _ _ _ _ _
          (a + (st2.heap.length - st.heap.length)) h3 (by simp [ha, goType.shift])
      have hrel := hR.2.2 a (by rw [hfresh])
      rw [hs1, hs3] at hrel
      simp only [Option.map_some', goNode.shift, Option.some.injEq, goNode.struct.injEq]
        at hrel
      refine ⟨s, s2, hs1, hs3, hs2, hs4, hkey1, hkey2, ?_⟩
      rw [hrel]

/-- When the input objects below the type of the argument are nested at most
`n` deep, fuel `n + 1` lets `convertInputType` return, and every larger amount
of fuel gives the same outcome; for an input object that is not bound as a
scalar the node returned on success is the struct allocated first. -/
theorem convertInputType_bounded_nesting (g : Generator) (n : Nat) (opName : String)
    (typ : AstType) (options queryOptions : GenqlientDirective) (st : State)
    (d : Definition) (hLookup : g.schema.Types.lookup typ.Name = some d)
    (hDepth : d.inputDepthLe g.schema n = true) :
    ∃ (out : Outcome Ret), out ≠ .outOfFuel ∧
      (∀ (fuel : Nat), n + 1 ≤ fuel →
        convertInputType g fuel opName typ options queryOptions st = out) ∧
      (d.Kind = .InputObject → g.Config.Scalars.lookup d.Name = none →
        builtinTypes.lookup d.Name = none →
        ∀ (r : Ret) (st1 : State), out = .ok r st1 → r.2 = none →
          r.1.core = .structPtr st.heap.length ∧
          (st1.typeMap.lookup (matchFirst typ.Name opName)).isSome = true ∧
          ∃ s, st1.heap[st.heap.length]? = some (.struct s) ∧
            s.GoName = matchFirst typ.Name opName ∧ s.GraphQLName = d.Name) := by
  have hne : convertTypeWith g (convertDefinition g (n + 1)) (matchFirst typ.Name opName) ""
      typ [] options queryOptions st ≠ .outOfFuel :=
    convertTypeWith_ne_outOfFuel g _ _ _ _ _ _ _ _ (fun d1 hd1 st1 => by
      rw [hLookup] at hd1
      cases hd1
      exact convertDefinition_input_terminates g n d hDepth (n + 1) (le_refl _) _ _ _ st1)
  refine ⟨convertInputType g (n + 1) opName typ options queryOptions st, hne, ?_, ?_⟩
  · intro fuel hle
    simp only [convertInputType, convertType]
    exact convertTypeWith_below g (convertDefinition_below g hle) _ _ _ _ _ _ _ hne
  · intro hKind hScalars hBuiltin r st1 h hr
    exact convertTypeWith_input_struct g (n + 1) hLookup hKind hScalars hBuiltin h hr

/-- When `convertOperation` or `convertInputType` returns an error, the heap the
call started with is extended and every entry of the registry it started with
is still a key, with its old value or with a pointer to a node allocated during
the call. -/
theorem failing_call_entries (g : Generator) (fuel : Nat) :
    (∀ (operation : OperationDefinition) (queryOptions : GenqlientDirective)
      (st : State) (r : Ret) (st1 : State),
      convertOperation g fuel operation queryOptions st = .ok r st1 → r.2 ≠ none →
      HeapExt st.heap st1.heap ∧
      ∀ (k : String) (t : goType), st.typeMap.lookup k = some t →
        st1.typeMap.lookup k = some t ∨
        ∃ t1, st1.typeMap.lookup k = some t1 ∧ FreshPtr st.heap.length t1) ∧
    (∀ (opName : String) (typ : AstType) (options queryOptions : GenqlientDirective)
      (st : State) (r : Ret) (st1 : State),
      convertInputType g fuel opName typ options queryOptions st = .ok r st1 → r.2 ≠ none →
      HeapExt st.heap st1.heap ∧
      ∀ (k : String) (t : goType), st.typeMap.lookup k = some t →
        st1.typeMap.lookup k = some t ∨
        ∃ t1, st1.typeMap.lookup k = some t1 ∧ FreshPtr st.heap.length t1) := by
  have entries : ∀ (st st1 : State), KeysKept st.typeMap st1.typeMap → Kept st st1 →
      ∀ (k : String) (t : goType), st.typeMap.lookup k = some t →
        st1.typeMap.lookup k = some t ∨
        ∃ t1, st1.typeMap.lookup k = some t1 ∧ FreshPtr st.heap.length t1 := by
    intro st st1 hK hkept k t hl
    have h1 := hK k (by rw [hl]; rfl)
    obtain ⟨t1, ht1⟩ := Option.isSome_iff_exists.1 h1
    rcases hkept.2.1 k t1 ht1 with h2 | h2
    · rw [hl] at h2
      cases h2
      exact Or.inl ht1
    · exact Or.inr ⟨t1, ht1, h2⟩
  refine ⟨?_, ?_⟩
  · intro operation queryOptions st r st1 h hr
    have hkept := convertOperation_kept g fuel h
    simp only [convertOperation] at h
    cases hl : st.typeMap.lookup (operation.Name ++ "Response") with
    | some d =>
      rw [hl] at h
      cases h
      exact ⟨heapExt_refl _, fun k t hk => Or.inl hk⟩
    | none =>
      rw [hl] at h
      cases he : (baseTypeForOperation g operation.Operation).2 with
      | some err =>
        rw [he] at h
        cases h
        exact ⟨heapExt_refl _, fun k t hk => Or.inl hk⟩
      | none =>
        rw [he] at h
        cases hb : (baseTypeForOperation g operation.Operation).1 with
        | none => rw [hb] at h; cases h
        | some baseType =>
          rw [hb] at h
          simp only at h
          rw [Outcome.bind_eq_ok] at h
          obtain ⟨v, s0, h1, h2⟩ := h
          have hS := convertDefinition_sound g fuel _ _ _ _ _ _ _ _ h1
          have hv : v = r ∧ s0 = st1 := by
            cases hv1 : v.1 with
            | structPtr a =>
              rw [hv1] at h2
              cases h2
              rcases convertDefinition_error_value g fuel h1 hr with h3 | ⟨q, _, h3, _⟩
              · rw [h3.2] at hv1; cases hv1
              · rw [h3] at hv1; cases hv1
            | nil => rw [hv1] at h2; cases h2; exact ⟨rfl, rfl⟩
            | opaqueRef _ => rw [hv1] at h2; cases h2; exact ⟨rfl, rfl⟩
            | slice _ => rw [hv1] at h2; cases h2; exact ⟨rfl, rfl⟩
            | pointer _ => rw [hv1] at h2; cases h2; exact ⟨rfl, rfl⟩
            | interfacePtr _ => rw [hv1] at h2; cases h2; exact ⟨rfl, rfl⟩
            | enumPtr _ => rw [hv1] at h2; cases h2; exact ⟨rfl, rfl⟩
          obtain ⟨_, hs0⟩ := hv
          subst hs0
          exact ⟨hS.1, entries _ _ hS.2.1 hkept⟩
  · intro opName typ options queryOptions st r st1 h _
    have hkept := convertInputType_kept g fuel h
    have hS := convertTypeWith_sound g _ (convertDefinition_sound g fuel) h
    exact ⟨hS.1, entries _ _ hS.2 hkept⟩

/-! ## Properties of the specification -/

/-- C1: for a schema type whose kind is neither Enum nor InputObject, the name
returned by `typeName` is the incoming prefix when the prefix already ends with
the capitalized type name, and the prefix followed by the capitalized type name
otherwise. -/
theorem typeName_name_of_other_kinds (namePrefix : String) (typ : Definition)
    (hEnum : typ.Kind ≠ .Enum) (hInput : typ.Kind ≠ .InputObject) :
    ((∃ p : String, namePrefix = p ++ upperFirst typ.Name) →
        (typeName namePrefix typ).1 = namePrefix) ∧
    ((¬ ∃ p : String, namePrefix = p ++ upperFirst typ.Name) →
        (typeName namePrefix typ).1 = namePrefix ++ upperFirst typ.Name) := by
  rw [← hasSuffix_iff]
  unfold typeName
  cases h : hasSuffix namePrefix (upperFirst typ.Name) <;>
    by_cases hk : typ.Kind = .Interface ∨ typ.Kind = .Union <;>
    simp [hEnum, hInput, hk, h]

theorem typeName_name_of_other_kinds_witness :
    (typeName "QueryWithSlicesUser" userDef).1 = "QueryWithSlicesUser" ∧
    (typeName "QueryWithSlices" userDef).1 = "QueryWithSlices" ++ upperFirst userDef.Name :=
  ⟨(typeName_name_of_other_kinds "QueryWithSlicesUser" userDef (by decide) (by decide)).1
      ⟨"QueryWithSlices", by decide⟩,
   (typeName_name_of_other_kinds "QueryWithSlices" userDef (by decide) (by decide)).2
      (by rw [← hasSuffix_iff]; decide)⟩

/-- C2: for an interface or union type the next prefix returned by `typeName`
is the incoming prefix, not the generated name; for every other kind except
Enum and InputObject the next prefix is the generated name. -/
theorem typeName_nextPrefix (namePrefix : String) (typ : Definition) :
    ((typ.Kind = .Interface ∨ typ.Kind = .Union) →
        (typeName namePrefix typ).2 = namePrefix) ∧
    ((typ.Kind ≠ .Interface ∧ typ.Kind ≠ .Union ∧ typ.Kind ≠ .Enum ∧
        typ.Kind ≠ .InputObject) →
        (typeName namePrefix typ).2 = (typeName namePrefix typ).1) := by
  constructor
  · intro h
    unfold typeName
    rcases h with h | h <;> simp [h]
  · rintro ⟨h1, h2, h3, h4⟩
    unfold typeName
    simp [h1, h2, h3, h4]

theorem typeName_nextPrefix_witness :
    (typeName "UnionNoFragmentsQueryRandomLeaf" leafContentDef).2
      = "UnionNoFragmentsQueryRandomLeaf" ∧
    (typeName "QueryWithSlices" userDef).2 = (typeName "QueryWithSlices" userDef).1 :=
  ⟨(typeName_nextPrefix "UnionNoFragmentsQueryRandomLeaf" leafContentDef).1
      (Or.inr (by decide)),
   (typeName_nextPrefix "QueryWithSlices" userDef).2
      ⟨by decide, by decide, by decide, by decide⟩⟩

/-- C3: for a schema type whose kind is Enum or InputObject, `typeName` returns
the capitalized type name both as name and as next prefix, and the result is
the same for every prefix. -/
theorem typeName_enum_input (namePrefix : String) (typ : Definition)
    (h : typ.Kind = .Enum ∨ typ.Kind = .InputObject) :
    typeName namePrefix typ = (upperFirst typ.Name, upperFirst typ.Name) ∧
    ∀ otherPrefix : String, typeName otherPrefix typ = typeName namePrefix typ := by
  have key : ∀ p : String, typeName p typ = (upperFirst typ.Name, upperFirst typ.Name) := by
    intro p
    unfold typeName
    rcases h with h | h <;> simp [h]
  exact ⟨key namePrefix, fun p => by rw [key p, key namePrefix]⟩

theorem typeName_enum_input_witness :
    typeName "GetUserRole" roleDef = (upperFirst roleDef.Name, upperFirst roleDef.Name) ∧
    ∀ otherPrefix : String, typeName otherPrefix roleDef = typeName "GetUserRole" roleDef :=
  typeName_enum_input "GetUserRole" roleDef (Or.inl (by decide))

/-- C4, evaluated at `query Q { response { x } }`: the run does not fail; the
root struct and the struct of the field `response` are two different nodes
with the same generated name `QResponse`, and the registry keeps only the
second. -/
theorem convertOperation_name_collision :
    convertOperation exampleGen 3 collisionOp noOptions State.empty
      = .ok (.structPtr 0, none) collisionState ∧
    collisionState.heap.map goNode.GoName = ["QResponse", "QResponse"] ∧
    collisionState.heap[0]? ≠ collisionState.heap[1]? ∧
    collisionState.typeMap = [("QResponse", .structPtr 1)] := by
  decide

/-- C5, evaluated at `query Q { my: user { id } myUser: user { name } }`: the
two selections have different aliases and the object type `User`; the two
struct nodes generated for them have the same generated name `QMyUser`, and the
registry keeps only the second. -/
theorem convertOperation_alias_collision :
    convertOperation exampleGen 3 aliasOp noOptions State.empty
      = .ok (.structPtr 0, none) aliasState ∧
    (aliasState.heap[1]?).map goNode.GoName = some "QMyUser" ∧
    (aliasState.heap[2]?).map goNode.GoName = some "QMyUser" ∧
    aliasState.heap[1]? ≠ aliasState.heap[2]? ∧
    aliasState.typeMap.lookup "QMyUser" = some (.structPtr 2) := by
  decide

/-- C6: for a type expression with `n` list levels around a named type,
`convertType` returns what the conversion of the named type returns, wrapped in
a pointer when the pointer option is set, and then in exactly `n` slices (list
of optional, never optional of list); the converted named type is itself no
wrapper, so without the option no pointer wrapper occurs. -/
theorem convertType_list_of_optional (g : Generator) (fuel : Nat) (name namePrefix : String)
    (typ : AstType) (selectionSet : List Selection)
    (options queryOptions : GenqlientDirective) (st : State) :
    convertType g fuel name namePrefix typ selectionSet options queryOptions st =
      (convertNamed g (convertDefinition g fuel) name namePrefix typ.Name selectionSet
          queryOptions st).bind
        (fun r st1 =>
          .ok (wrapSlices typ.listDepth (if options.GetPointer then .pointer r.1 else r.1),
               r.2) st1) ∧
    ∀ (r : Ret) (st1 : State),
      convertType g fuel name namePrefix typ selectionSet options queryOptions st = .ok r st1 →
      ∃ node : goType, node.isWrapper = false ∧
        convertNamed g (convertDefinition g fuel) name namePrefix typ.Name selectionSet
          queryOptions st = .ok (node, r.2) st1 ∧
        r.1 = wrapSlices typ.listDepth (if options.GetPointer then .pointer node else node) ∧
        r.1.pointerAroundSlice = false ∧
        (options.GetPointer = false → r.1.hasPointer = false) := by
  have heq := convertTypeWith_eq g (convertDefinition g fuel) name namePrefix typ selectionSet
    options queryOptions st
  refine ⟨heq, ?_⟩
  intro r st1 h
  unfold convertType at h
  rw [heq, Outcome.bind_eq_ok] at h
  obtain ⟨v, s0, h1, h2⟩ := h
  have hn := (convertNamed_sound g _ (convertDefinition_sound g fuel) h1).2.2
  have hw := isWrapper_of_named hn
  cases h2
  refine ⟨v.1, hw, h1, rfl, ?_, ?_⟩
  · simp only
    rw [pointerAroundSlice_wrapSlices]
    split
    · exact (pointerAroundSlice_of_not_wrapper v.1 hw).2
    · exact (pointerAroundSlice_of_not_wrapper v.1 hw).1
  · intro hp
    simp only [hp, Bool.false_eq_true, if_false]
    exact hasPointer_wrapSlices _ _ hw

theorem convertType_list_of_optional_witness :
    ∃ node : goType, node.isWrapper = false ∧
      convertNamed exampleGen (convertDefinition exampleGen 3) "QUsersUser" "QUsersUser"
        usersType.Name [leafSel "id" "id" (.named "ID" true)] noOptions State.empty
        = .ok (node, none) usersState ∧
      goType.slice (.slice (.pointer (.structPtr 0))) =
        wrapSlices usersType.listDepth
          (if GenqlientDirective.GetPointer { Pointer := some true } then .pointer node
           else node) ∧
      (goType.slice (.slice (.pointer (.structPtr 0)))).pointerAroundSlice = false ∧
      (GenqlientDirective.GetPointer { Pointer := some true } = false →
        (goType.slice (.slice (.pointer (.structPtr 0)))).hasPointer = false) :=
  (convertType_list_of_optional exampleGen 3 "QUsersUser" "QUsersUser" usersType
    [leafSel "id" "id" (.named "ID" true)] { Pointer := some true } noOptions State.empty).2
    (.slice (.slice (.pointer (.structPtr 0))), none) usersState (by decide)

/-- C7: when an interface- or union-typed field is converted under the prefix
`P` (the parent prefix followed by the capitalized alias) and yields an
interface node, that node is named `typeName(P, interface)`, and its i-th
implementation is a struct named `typeName(P, I)` for the i-th possible type
`I`, that is `P` followed by the capitalized name of `I` when `I` is an object
type and `P` does not end with that name: the name is built from `P`, not from
the name of the interface. -/
theorem convertField_interface_names (g : Generator) (fuel : Nat)
    (parentPrefix fieldAlias : String) (fd : FieldDefinition)
    (selectionSet : List Selection) (fieldOptions queryOptions : GenqlientDirective)
    (st : State) (fld : goStructField) (st1 : State) (d : Definition) (a : Addr)
    (hLookup : g.schema.Types.lookup fd.Type_.Name = some d)
    (hKind : d.Kind = .Interface ∨ d.Kind = .Union)
    (h : convertField g fuel parentPrefix fieldAlias (some fd) selectionSet fieldOptions
      queryOptions st = .ok (some fld, none) st1)
    (hNode : fld.GoType.core = .interfacePtr a) :
    ∃ t, st1.heap[a]? = some (.iface t) ∧
      t.GoName = (typeName (parentPrefix ++ upperFirst fieldAlias) d).1 ∧
      t.Implementations.length = (g.schema.GetPossibleTypes d).length ∧
      ∀ (j : Nat) (implDef : Definition), (g.schema.GetPossibleTypes d)[j]? = some implDef →
        ∃ (b : Addr) (s : goStructType), t.Implementations[j]? = some (some b) ∧
          st1.heap[b]? = some (.struct s) ∧
          s.GoName = (typeName (parentPrefix ++ upperFirst fieldAlias) implDef).1 ∧
          (implDef.Kind = .Object →
            hasSuffix (parentPrefix ++ upperFirst fieldAlias) (upperFirst implDef.Name) = false →
            s.GoName = parentPrefix ++ upperFirst fieldAlias ++ upperFirst implDef.Name) := by
  unfold convertField convertFieldWith at h
  simp only [hLookup] at h
  rw [Outcome.bind_eq_ok] at h
  obtain ⟨v, s0, h1, h2⟩ := h
  cases hv : v.2 with
  | some e => rw [hv] at h2; cases h2
  | none =>
    rw [hv] at h2
    cases h2
    simp only at hNode
    rw [convertTypeWith_eq, Outcome.bind_eq_ok] at h1
    obtain ⟨w, s1, h3, h4⟩ := h1
    cases h4
    have hsound := convertNamed_sound g _ (convertDefinition_sound g fuel) h3
    have hcore : w.1 = .interfacePtr a := by
      rw [core_wrapSlices] at hNode
      rw [← core_of_named hsound.2.2]
      split at hNode
      · simpa [goType.core] using hNode
      · exact hNode
    unfold convertNamed at h3
    rw [hLookup] at h3
    simp only at h3 hv
    cases fuel with
    | zero => cases h3
    | succ f =>
      simp only [convertDefinition, convertDefinitionStep] at h3
      cases hs : g.Config.Scalars.lookup d.Name with
      | some q => rw [hs] at h3; cases h3; cases hcore
      | none =>
        rw [hs] at h3
        simp only at h3
        cases hb : builtinTypes.lookup d.Name with
        | some q => rw [hb] at h3; cases h3; cases hcore
        | none =>
          rw [hb] at h3
          simp only at h3
          have h5 : convertInterface g (convertDefinition g f)
              (typeName (parentPrefix ++ upperFirst fieldAlias) d).1
              (typeName (parentPrefix ++ upperFirst fieldAlias) d).2 d selectionSet
              queryOptions st = .ok w st1 := by
            rcases hKind with hk | hk <;> (rw [hk] at h3; exact h3)
          obtain ⟨hr1, t, ht1, ht2, ht3, ht4⟩ :=
            convertInterface_names g _ (convertDefinition_sound g f) h5 hv
          rw [hr1] at hcore
          cases hcore
          refine ⟨t, ht1, ht2, ht3, ?_⟩
          intro j implDef hj
          obtain ⟨b, s, hb1, hb2, hb3⟩ := ht4 j implDef hj
          rw [typeName_snd_of_interface _ _ hKind] at hb3
          exact ⟨b, s, hb1, hb2, hb3, fun hk hsuf => by
            rw [hb3, typeName_fst_of_object _ _ hk hsuf]⟩

theorem convertField_interface_names_witness :
    ∃ t, randomLeafState.heap[0]? = some (.iface t) ∧
      t.GoName = (typeName ("UnionNoFragmentsQuery" ++ upperFirst "randomLeaf")
        leafContentDef).1 ∧
      t.Implementations.length = (unionGen.schema.GetPossibleTypes leafContentDef).length ∧
      ∀ (j : Nat) (implDef : Definition),
        (unionGen.schema.GetPossibleTypes leafContentDef)[j]? = some implDef →
        ∃ (b : Addr) (s : goStructType), t.Implementations[j]? = some (some b) ∧
          randomLeafState.heap[b]? = some (.struct s) ∧
          s.GoName = (typeName ("UnionNoFragmentsQuery" ++ upperFirst "randomLeaf") implDef).1 ∧
          (implDef.Kind = .Object →
            hasSuffix ("UnionNoFragmentsQuery" ++ upperFirst "randomLeaf")
              (upperFirst implDef.Name) = false →
            s.GoName = "UnionNoFragmentsQuery" ++ upperFirst "randomLeaf"
              ++ upperFirst implDef.Name) :=
  convertField_interface_names unionGen 3 "UnionNoFragmentsQuery" "randomLeaf"
    (fieldDef "randomLeaf" (.named "LeafContent" false)) [typenameSel] noOptions noOptions
    State.empty
    { GoName := "RandomLeaf", GoType := .interfacePtr 0, JSONName := "randomLeaf",
      Description := "" }
    randomLeafState leafContentDef 0 (by decide) (Or.inr (by decide)) (by decide) (by decide)

/-- C8, amended: for every operation whose conversion succeeds, whose root type
is an object type, and whose root type name is neither bound as a scalar in the
configuration nor the name of a builtin scalar, `convertOperation` returns a
struct node whose generated name is the operation name followed by `Response`,
whose description is `<name> is returned by <operation name> on success.`, and
whose `Incomplete` flag is false. -/
theorem convertOperation_root_struct (g : Generator) (fuel : Nat)
    (operation : OperationDefinition) (queryOptions : GenqlientDirective) (st : State)
    (r : Ret) (st1 : State) (baseType : Definition)
    (hBase : baseTypeForOperation g operation.Operation = (some baseType, none))
    (hKind : baseType.Kind = .Object)
    (hScalars : g.Config.Scalars.lookup baseType.Name = none)
    (hBuiltin : builtinTypes.lookup baseType.Name = none)
    (h : convertOperation g fuel operation queryOptions st = .ok r st1) (hr : r.2 = none) :
    ∃ a s, r.1 = .structPtr a ∧ st1.heap[a]? = some (.struct s) ∧
      s.GoName = operation.Name ++ "Response" ∧
      s.Description = (operation.Name ++ "Response") ++ " is returned by " ++ operation.Name
        ++ " on success." ∧
      s.Incomplete = false := by
  obtain ⟨s0, h1, h2⟩ := convertOperation_eq_ok g fuel operation queryOptions st r st1 baseType
    hBase h hr
  cases fuel with
  | zero => cases h1
  | succ f =>
    simp only [convertDefinition, convertDefinitionStep, hScalars, hBuiltin, hKind] at h1
    obtain ⟨_, _, _, h4, s, hs1, hs2, _⟩ :=
      convertObject_ok g _ (convertDefinition_sound g f) h1
    rcases h4 with ⟨_, h5⟩ | ⟨h5, _⟩
    · rcases h2 with ⟨a, ha, hst⟩ | ⟨hne, _⟩
      · rw [h5] at ha
        cases ha
        refine ⟨st.heap.length, { s with Description := _, Incomplete := false }, h5, ?_,
          hs2, rfl, rfl⟩
        rw [hst]
        simp [State.setRoot, List.getElem?_modify_eq, hs1, goNode.setRoot]
      · exact absurd h5 (hne _)
    · exact absurd hr h5

theorem convertOperation_root_struct_witness :
    ∃ a s, (goType.structPtr 0, (none : Option GenError)).1 = .structPtr a ∧
      getUserState.heap[a]? = some (.struct s) ∧
      s.GoName = getUserOp.Name ++ "Response" ∧
      s.Description = (getUserOp.Name ++ "Response") ++ " is returned by " ++ getUserOp.Name
        ++ " on success." ∧
      s.Incomplete = false :=
  convertOperation_root_struct exampleGen 3 getUserOp noOptions State.empty
    (.structPtr 0, none) getUserState queryDef (by decide) (by decide) (by decide) (by decide)
    (by decide) (by decide)

/-- C8 as stated fails: the root type `Query` is an object type of the schema,
the conversion succeeds, and the value returned is an opaque reference, not a
struct, because the configuration binds the name `Query` as a scalar. -/
theorem convertOperation_root_struct_counterexample :
    baseTypeForOperation boundRootGen getUserOp.Operation = (some queryDef, none) ∧
    queryDef.Kind = .Object ∧
    convertOperation boundRootGen 3 getUserOp noOptions State.empty
      = .ok (.opaqueRef "mypkg.Query", none) State.empty := by
  decide

/-- C9, amended: after `convertOperation` has succeeded for an operation whose
root type name is neither bound as a scalar in the configuration nor the name
of a builtin scalar, every further `convertOperation` call on the resulting
registry for an operation of the same name fails with the error `defined
twice`; in general `convertOperation` fails with that error, and leaves the
state unchanged, whenever the operation name followed by `Response` is already
a key of the registry. -/
theorem convertOperation_second_call_fails (g : Generator) (fuel : Nat)
    (operation : OperationDefinition) (queryOptions : GenqlientDirective) (st : State)
    (r : Ret) (st1 : State) (baseType : Definition)
    (hBase : baseTypeForOperation g operation.Operation = (some baseType, none))
    (hScalars : g.Config.Scalars.lookup baseType.Name = none)
    (hBuiltin : builtinTypes.lookup baseType.Name = none)
    (h : convertOperation g fuel operation queryOptions st = .ok r st1) (hr : r.2 = none) :
    (∀ (fuel2 : Nat) (operation2 : OperationDefinition) (queryOptions2 : GenqlientDirective),
      operation2.Name = operation.Name →
      ∃ registered, convertOperation g fuel2 operation2 queryOptions2 st1 =
        .ok (.nil, some (.definedTwice (operation.Name ++ "Response") registered)) st1) ∧
    (∀ (fuel2 : Nat) (operation2 : OperationDefinition) (queryOptions2 : GenqlientDirective)
      (st2 : State) (registered : goType),
      st2.typeMap.lookup (operation2.Name ++ "Response") = some registered →
      convertOperation g fuel2 operation2 queryOptions2 st2 =
        .ok (.nil, some (.definedTwice (operation2.Name ++ "Response") registered)) st2) := by
  refine ⟨?_, fun fuel2 operation2 queryOptions2 st2 registered hl =>
    convertOperation_defined_twice g fuel2 operation2 queryOptions2 st2 registered hl⟩
  obtain ⟨s0, h1, h2⟩ := convertOperation_eq_ok g fuel operation queryOptions st r st1 baseType
    hBase h hr
  have hkey : (st1.typeMap.lookup (operation.Name ++ "Response")).isSome = true := by
    cases fuel with
    | zero => cases h1
    | succ f =>
      have := convertDefinitionStep_registers g _ (convertDefinition_sound g f) hScalars
        hBuiltin h1 hr
      rcases h2 with ⟨a, _, hst⟩ | ⟨_, hst⟩
      · rw [hst]; exact this
      · rw [hst]; exact this
  intro fuel2 operation2 queryOptions2 hname
  cases hl : st1.typeMap.lookup (operation.Name ++ "Response") with
  | none => rw [hl] at hkey; cases hkey
  | some registered =>
    refine ⟨registered, ?_⟩
    have := convertOperation_defined_twice g fuel2 operation2 queryOptions2 st1 registered
      (by rw [hname]; exact hl)
    rw [hname] at this
    exact this

theorem convertOperation_second_call_fails_witness :
    (∀ (fuel2 : Nat) (operation2 : OperationDefinition) (queryOptions2 : GenqlientDirective),
      operation2.Name = getUserOp.Name →
      ∃ registered, convertOperation exampleGen fuel2 operation2 queryOptions2 getUserState =
        .ok (.nil, some (.definedTwice (getUserOp.Name ++ "Response") registered))
          getUserState) ∧
    (∀ (fuel2 : Nat) (operation2 : OperationDefinition) (queryOptions2 : GenqlientDirective)
      (st2 : State) (registered : goType),
      st2.typeMap.lookup (operation2.Name ++ "Response") = some registered →
      convertOperation exampleGen fuel2 operation2 queryOptions2 st2 =
        .ok (.nil, some (.definedTwice (operation2.Name ++ "Response") registered)) st2) :=
  convertOperation_second_call_fails exampleGen 3 getUserOp noOptions State.empty
    (.structPtr 0, none) getUserState queryDef (by decide) (by decide) (by decide)
    (by decide) (by decide)

/-- C9 as stated fails: with the root type name `Query` bound as a scalar in
the configuration, a first `convertOperation` call succeeds without registering
anything, and a second call for the same operation on the resulting registry
succeeds as well. -/
theorem convertOperation_second_call_counterexample :
    ∃ (r : Ret) (st1 : State),
      convertOperation boundRootGen 3 getUserOp noOptions State.empty = .ok r st1 ∧
      r.2 = none ∧
      ∃ (r2 : Ret) (st2 : State),
        convertOperation boundRootGen 3 getUserOp noOptions st1 = .ok r2 st2 ∧ r2.2 = none :=
  ⟨(.opaqueRef "mypkg.Query", none), State.empty, by decide, rfl,
    (.opaqueRef "mypkg.Query", none), State.empty, by decide, rfl⟩

/-- C10, amended: with the experimental flag enabled, for every interface or
union definition whose name is neither bound as a scalar in the configuration
nor the name of a builtin scalar, and every selection set that contains no
field named `__typename`, `convertDefinition` fails with the error `must
request __typename` and leaves the state unchanged. -/
theorem convertDefinition_missing_typename (g : Generator) (fuel : Nat)
    (name namePrefix : String) (d : Definition) (selectionSet : List Selection)
    (queryOptions : GenqlientDirective) (st : State)
    (hFlag : g.Config.AllowBrokenFeatures = true)
    (hKind : d.Kind = .Interface ∨ d.Kind = .Union)
    (hScalars : g.Config.Scalars.lookup d.Name = none)
    (hBuiltin : builtinTypes.lookup d.Name = none)
    (hSel : ∀ a n fd ss p, Selection.Field a n fd ss p ∈ selectionSet → n ≠ "__typename") :
    convertDefinition g (fuel + 1) name namePrefix d selectionSet queryOptions st =
      .ok (.nil, some (.mustRequestTypename d.Name)) st := by
  have hT := hasTypename_eq_false selectionSet hSel
  simp only [convertDefinition, convertDefinitionStep, hScalars, hBuiltin]
  rcases hKind with hk | hk <;> simp [hk, convertInterface, hFlag, hT]

theorem convertDefinition_missing_typename_witness :
    convertDefinition unionGen (0 + 1) "QRandomLeafLeafContent" "QRandomLeaf" leafContentDef
      [leafSel "id" "id" (.named "ID" true)] noOptions State.empty =
      .ok (.nil, some (.mustRequestTypename leafContentDef.Name)) State.empty :=
  convertDefinition_missing_typename unionGen 0 "QRandomLeafLeafContent" "QRandomLeaf"
    leafContentDef [leafSel "id" "id" (.named "ID" true)] noOptions State.empty
    (by decide) (Or.inr (by decide)) (by decide) (by decide)
    (by
      intro a n fd ss p hmem
      simp only [leafSel, List.mem_singleton, Selection.Field.injEq] at hmem
      rw [hmem.2.1]
      decide)

/-- C10 as stated fails: `LeafContent` is a union, the experimental flag is
enabled and the selection set has no field named `__typename`, yet
`convertDefinition` returns an opaque reference and no error, because the
configuration binds the name `LeafContent` as a scalar. -/
theorem convertDefinition_missing_typename_counterexample :
    boundUnionGen.Config.AllowBrokenFeatures = true ∧ leafContentDef.Kind = .Union ∧
    hasTypename [leafSel "id" "id" (.named "ID" true)] = false ∧
    convertDefinition boundUnionGen 1 "QRandomLeafLeafContent" "QRandomLeaf" leafContentDef
      [leafSel "id" "id" (.named "ID" true)] noOptions State.empty =
      .ok (.opaqueRef "mypkg.Leaf", none) State.empty := by
  decide

/-- C11, amended: for every interface or union definition whose name is neither
bound as a scalar in the configuration nor the name of a builtin scalar, every
successful conversion (which needs the experimental flag and a selected
`__typename`) returns an interface node whose `Implementations` list has
exactly one struct per possible type of the schema, in the order the schema
reports them: the GraphQL name of the i-th implementation is the name of the
i-th possible type. -/
theorem convertDefinition_implementations (g : Generator) (fuel : Nat)
    (name namePrefix : String) (d : Definition) (selectionSet : List Selection)
    (queryOptions : GenqlientDirective) (st : State) (r : Ret) (st1 : State)
    (hKind : d.Kind = .Interface ∨ d.Kind = .Union)
    (hScalars : g.Config.Scalars.lookup d.Name = none)
    (hBuiltin : builtinTypes.lookup d.Name = none)
    (h : convertDefinition g fuel name namePrefix d selectionSet queryOptions st = .ok r st1)
    (hr : r.2 = none) :
    g.Config.AllowBrokenFeatures = true ∧ hasTypename selectionSet = true ∧
    ∃ (a : Addr) (t : goInterfaceType), r.1 = .interfacePtr a ∧
      st1.heap[a]? = some (.iface t) ∧
      t.Implementations.length = (g.schema.GetPossibleTypes d).length ∧
      ∀ (j : Nat) (implDef : Definition), (g.schema.GetPossibleTypes d)[j]? = some implDef →
        ∃ (b : Addr) (s : goStructType), t.Implementations[j]? = some (some b) ∧
          st1.heap[b]? = some (.struct s) ∧ s.GraphQLName = implDef.Name := by
  cases fuel with
  | zero => cases h
  | succ f =>
    simp only [convertDefinition, convertDefinitionStep, hScalars, hBuiltin] at h
    have h5 : convertInterface g (convertDefinition g f) name namePrefix d selectionSet
        queryOptions st = .ok r st1 := by
      rcases hKind with hk | hk <;> (rw [hk] at h; exact h)
    obtain ⟨hA, hT, hr1, t, ht1, _, ht3, ht4⟩ :=
      convertInterface_slots g _ (convertDefinition_sound g f)
        (fun implDef s => s.GraphQLName = implDef.Name)
        (convertDefinition_struct_graphQLName g f) h5 hr
    exact ⟨hA, hT, st.heap.length, t, hr1, ht1, ht3, ht4⟩

theorem convertDefinition_implementations_witness :
    unionGen.Config.AllowBrokenFeatures = true ∧ hasTypename [typenameSel] = true ∧
    ∃ (a : Addr) (t : goInterfaceType),
      (goType.interfacePtr 0, (none : Option GenError)).1 = .interfacePtr a ∧
      leafContentState.heap[a]? = some (.iface t) ∧
      t.Implementations.length = (unionGen.schema.GetPossibleTypes leafContentDef).length ∧
      ∀ (j : Nat) (implDef : Definition),
        (unionGen.schema.GetPossibleTypes leafContentDef)[j]? = some implDef →
        ∃ (b : Addr) (s : goStructType), t.Implementations[j]? = some (some b) ∧
          leafContentState.heap[b]? = some (.struct s) ∧ s.GraphQLName = implDef.Name :=
  convertDefinition_implementations unionGen 3 "QLeafContent" "Q" leafContentDef [typenameSel]
    noOptions State.empty (.interfacePtr 0, none) leafContentState
    (Or.inr (by decide)) (by decide) (by decide) (by decide) (by decide)

/-- C11 as stated fails: `LeafContent` is a union, the experimental flag is
enabled and `__typename` is selected; the conversion succeeds and returns an
opaque reference, not an interface node, because the configuration binds the
name `LeafContent` as a scalar. -/
theorem convertDefinition_implementations_counterexample :
    boundUnionGen.Config.AllowBrokenFeatures = true ∧ leafContentDef.Kind = .Union ∧
    hasTypename [typenameSel] = true ∧
    convertDefinition boundUnionGen 3 "QLeafContent" "Q" leafContentDef [typenameSel]
      noOptions State.empty = .ok (.opaqueRef "mypkg.Leaf", none) State.empty := by
  decide

/-- C12, amended: for every interface or union definition whose name is neither
bound as a scalar in the configuration nor the name of a builtin scalar,
`convertDefinition` fails with the error `not implemented` when the
experimental flag is off, whatever the selection set contains, and leaves the
registry and the heap unchanged. -/
theorem convertDefinition_interface_flag_off (g : Generator) (fuel : Nat)
    (name namePrefix : String) (d : Definition) (selectionSet : List Selection)
    (queryOptions : GenqlientDirective) (st : State)
    (hFlag : g.Config.AllowBrokenFeatures = false)
    (hKind : d.Kind = .Interface ∨ d.Kind = .Union)
    (hScalars : g.Config.Scalars.lookup d.Name = none)
    (hBuiltin : builtinTypes.lookup d.Name = none) :
    convertDefinition g (fuel + 1) name namePrefix d selectionSet queryOptions st =
      .ok (.nil, some (.notImplementedKind d.Kind)) st := by
  simp only [convertDefinition, convertDefinitionStep, hScalars, hBuiltin]
  rcases hKind with hk | hk <;> simp [hk, convertInterface, hFlag]

theorem convertDefinition_interface_flag_off_witness :
    convertDefinition unionOffGen (0 + 1) "QRandomLeafLeafContent" "QRandomLeaf" leafContentDef
      [typenameSel] noOptions State.empty =
      .ok (.nil, some (.notImplementedKind leafContentDef.Kind)) State.empty :=
  convertDefinition_interface_flag_off unionOffGen 0 "QRandomLeafLeafContent" "QRandomLeaf"
    leafContentDef [typenameSel] noOptions State.empty
    (by decide) (Or.inr (by decide)) (by decide) (by decide)

/-- C12 as stated fails: `LeafContent` is a union and the experimental flag is
off, yet `convertDefinition` returns an opaque reference and no error, because
the configuration binds the name `LeafContent` as a scalar. -/
theorem convertDefinition_interface_flag_off_counterexample :
    boundUnionOffGen.Config.AllowBrokenFeatures = false ∧ leafContentDef.Kind = .Union ∧
    convertDefinition boundUnionOffGen 1 "QRandomLeafLeafContent" "QRandomLeaf" leafContentDef
      [typenameSel] noOptions State.empty =
      .ok (.opaqueRef "mypkg.Leaf", none) State.empty := by
  decide

/-- C13: `convertDefinition` resolves scalars by two escape hatches in order.
When the name of the definition is bound in `Config.Scalars`, the result is the
opaque reference that `addRef` gives for the bound type (with the error of
`addRef`, if any); otherwise, for the names `Int`, `Float`, `String`,
`Boolean`, `ID` the result is the opaque reference `int`, `float64`, `string`,
`bool`, `string`.  In both cases the state is unchanged, and a definition of
the same name with any other kind, fields or selection set gives the same
result. -/
theorem convertDefinition_escape_hatches (g : Generator) (fuel : Nat)
    (name namePrefix : String) (d : Definition) (selectionSet : List Selection)
    (queryOptions : GenqlientDirective) (st : State) :
    (∀ q, g.Config.Scalars.lookup d.Name = some q →
      convertDefinition g (fuel + 1) name namePrefix d selectionSet queryOptions st =
        .ok (.opaqueRef (g.addRef q).1, (g.addRef q).2) st) ∧
    (g.Config.Scalars.lookup d.Name = none →
      (d.Name = "Int" →
        convertDefinition g (fuel + 1) name namePrefix d selectionSet queryOptions st =
          .ok (.opaqueRef "int", none) st) ∧
      (d.Name = "Float" →
        convertDefinition g (fuel + 1) name namePrefix d selectionSet queryOptions st =
          .ok (.opaqueRef "float64", none) st) ∧
      (d.Name = "String" →
        convertDefinition g (fuel + 1) name namePrefix d selectionSet queryOptions st =
          .ok (.opaqueRef "string", none) st) ∧
      (d.Name = "Boolean" →
        convertDefinition g (fuel + 1) name namePrefix d selectionSet queryOptions st =
          .ok (.opaqueRef "bool", none) st) ∧
      (d.Name = "ID" →
        convertDefinition g (fuel + 1) name namePrefix d selectionSet queryOptions st =
          .ok (.opaqueRef "string", none) st)) ∧
    (∀ (d2 : Definition) (selectionSet2 : List Selection), d2.Name = d.Name →
      (g.Config.Scalars.lookup d.Name ≠ none ∨ builtinTypes.lookup d.Name ≠ none) →
      convertDefinition g (fuel + 1) name namePrefix d2 selectionSet2 queryOptions st =
        convertDefinition g (fuel + 1) name namePrefix d selectionSet queryOptions st) := by
  refine ⟨?_, ?_, ?_⟩
  · intro q hq
    simp only [convertDefinition, convertDefinitionStep, hq]
  · intro hs
    refine ⟨?_, ?_, ?_, ?_, ?_⟩ <;>
    · intro hn
      simp only [convertDefinition, convertDefinitionStep, hs]
      rw [hn]
      rfl
  · intro d2 selectionSet2 hname hhatch
    simp only [convertDefinition, convertDefinitionStep, hname]
    cases hs : g.Config.Scalars.lookup d.Name with
    | some q => rfl
    | none =>
      cases hb : builtinTypes.lookup d.Name with
      | some b => rfl
      | none =>
        rcases hhatch with h | h
        · exact absurd hs h
        · exact absurd hb h

theorem convertDefinition_escape_hatches_witness :
    convertDefinition boundIDGen (0 + 1) "QueryWithDoubleAliasUserID"
      "QueryWithDoubleAliasUserID" idScalarDef
      [] noOptions State.empty =
      .ok (.opaqueRef "mypkg.ID", none) State.empty ∧
    convertDefinition exampleGen (0 + 1) "QueryWithSlicesUserEmails"
      "QueryWithSlicesUserEmails" stringScalarDef
      [] noOptions State.empty =
      .ok (.opaqueRef "string", none) State.empty :=
  ⟨(convertDefinition_escape_hatches boundIDGen 0 "QueryWithDoubleAliasUserID"
      "QueryWithDoubleAliasUserID" idScalarDef
      [] noOptions State.empty).1 "mypkg.ID" (by decide),
   ((convertDefinition_escape_hatches exampleGen 0 "QueryWithSlicesUserEmails"
      "QueryWithSlicesUserEmails" stringScalarDef
      [] noOptions State.empty).2.1 (by decide)).2.2.1 (by decide)⟩

/-- C14: for every definition of kind Scalar whose name is neither bound in
`Config.Scalars` nor in the table of builtins, `convertDefinition` fails with
the error `unknown scalar` and returns no type.  Every opaque reference in the
result of a conversion comes from one of the two escape hatches: when every
filled struct field of the heap has this property before `convertOperation` or
`convertInputType` is called (as in a fresh run), it has it afterwards, and so
has the value returned. -/
theorem opaqueRef_from_hatches (g : Generator) :
    (∀ (fuel : Nat) (name namePrefix : String) (d : Definition)
      (selectionSet : List Selection) (queryOptions : GenqlientDirective) (st : State),
      d.Kind = .Scalar → g.Config.Scalars.lookup d.Name = none →
      builtinTypes.lookup d.Name = none →
      convertDefinition g (fuel + 1) name namePrefix d selectionSet queryOptions st =
        .ok (.nil, some (.unknownScalar d.Name)) st) ∧
    HeapLeafOK g State.empty.heap ∧
    (∀ (fuel : Nat) (operation : OperationDefinition) (queryOptions : GenqlientDirective)
      (st : State) (r : Ret) (st1 : State),
      HeapLeafOK g st.heap →
      convertOperation g fuel operation queryOptions st = .ok r st1 →
      HeapLeafOK g st1.heap ∧ LeafOK g r.1) ∧
    (∀ (fuel : Nat) (opName : String) (typ : AstType)
      (options queryOptions : GenqlientDirective) (st : State) (r : Ret) (st1 : State),
      HeapLeafOK g st.heap →
      convertInputType g fuel opName typ options queryOptions st = .ok r st1 →
      HeapLeafOK g st1.heap ∧ LeafOK g r.1) := by
  refine ⟨?_, ?_, ?_, ?_⟩
  · intro fuel name namePrefix d selectionSet queryOptions st hk hs hb
    simp only [convertDefinition, convertDefinitionStep, hs, hb, hk]
  · intro a s i f ha
    simp [State.empty] at ha
  · intro fuel operation queryOptions st r st1 hh h
    unfold convertOperation at h
    cases hl : st.typeMap.lookup (operation.Name ++ "Response") with
    | some d =>
      rw [hl] at h
      cases h
      exact ⟨hh, leafOK_of_other_node g _ (by intro ref hc; cases hc)⟩
    | none =>
      rw [hl] at h
      simp only at h
      cases hb2 : (baseTypeForOperation g operation.Operation).2 with
      | some err =>
        rw [hb2] at h
        cases h
        exact ⟨hh, leafOK_of_other_node g _ (by intro ref hc; cases hc)⟩
      | none =>
        rw [hb2] at h
        simp only at h
        cases hb1 : (baseTypeForOperation g operation.Operation).1 with
        | none => rw [hb1] at h; cases h
        | some baseType =>
          rw [hb1] at h
          simp only [Outcome.bind_eq_ok] at h
          obtain ⟨v, s0, h1, h2⟩ := h
          obtain ⟨hh1, hv⟩ := convertDefinition_leafy g fuel _ _ _ _ _ _ _ _ h1 hh
          cases hv1 : v.1 with
          | structPtr a =>
            rw [hv1] at h2
            cases h2
            exact ⟨heapLeafOK_setRoot g s0 a _ hh1, hv⟩
          | _ =>
            rw [hv1] at h2
            cases h2
            exact ⟨hh1, hv⟩
  · intro fuel opName typ options queryOptions st r st1 hh h
    exact convertTypeWith_leafy g _ (convertDefinition_leafy g fuel) h hh

theorem opaqueRef_from_hatches_witness :
    convertDefinition exampleGen (0 + 1) "GetUserCreated" "GetUserCreated" dateTimeDef []
      noOptions State.empty = .ok (.nil, some (.unknownScalar dateTimeDef.Name)) State.empty ∧
    (HeapLeafOK exampleGen getUserState.heap ∧
      LeafOK exampleGen (goType.structPtr 0, (none : Option GenError)).1) :=
  ⟨(opaqueRef_from_hatches exampleGen).1 0 "GetUserCreated" "GetUserCreated" dateTimeDef []
      noOptions State.empty (by decide) (by decide) (by decide),
   (opaqueRef_from_hatches exampleGen).2.2.1 3 getUserOp noOptions State.empty
      (.structPtr 0, none) getUserState (opaqueRef_from_hatches exampleGen).2.1
      (by decide)⟩

/-- C15, amended: for every enum or input-object schema type whose name is
neither bound as a scalar in the configuration nor the name of a builtin
scalar: `convertField`, for any prefix and alias, registers it under the
capitalized schema type name; `convertInputType`, for any options, registers it
under `matchFirst` of the type name and the operation name, which is the
capitalized name when the operation name starts with an upper-case letter; and
as the type of a field of another input object it is registered under the type
name as the schema field writes it. -/
theorem enum_input_registered_names (g : Generator) (fuel : Nat) (d : Definition)
    (hKind : d.Kind = .Enum ∨ d.Kind = .InputObject)
    (hScalars : g.Config.Scalars.lookup d.Name = none)
    (hBuiltin : builtinTypes.lookup d.Name = none) :
    (∀ (namePrefix fieldAlias : String) (fd : FieldDefinition) (selectionSet : List Selection)
      (fieldOptions queryOptions : GenqlientDirective) (st : State) (fld : goStructField)
      (st1 : State),
      g.schema.Types.lookup fd.Type_.Name = some d →
      convertField g fuel namePrefix fieldAlias (some fd) selectionSet fieldOptions
        queryOptions st = .ok (some fld, none) st1 →
      RegisteredAs (upperFirst d.Name) fld.GoType st1) ∧
    (∀ (opName : String) (typ : AstType) (options queryOptions : GenqlientDirective)
      (st : State) (r : Ret) (st1 : State),
      g.schema.Types.lookup typ.Name = some d →
      convertInputType g fuel opName typ options queryOptions st = .ok r st1 → r.2 = none →
      RegisteredAs (matchFirst typ.Name opName) r.1 st1) ∧
    (∀ (name namePrefix : String) (parent : Definition) (selectionSet : List Selection)
      (queryOptions : GenqlientDirective) (st : State) (r : Ret) (st1 : State),
      parent.Kind = .InputObject → g.Config.Scalars.lookup parent.Name = none →
      builtinTypes.lookup parent.Name = none →
      convertDefinition g (fuel + 1) name namePrefix parent selectionSet queryOptions st
        = .ok r st1 → r.2 = none →
      ∀ (j : Nat) (f : FieldDefinition), parent.Fields[j]? = some f →
        g.schema.Types.lookup f.Type_.Name = some d →
        ∃ (a : Addr) (s : goStructType) (t : goType), r.1 = .structPtr a ∧
          st1.heap[a]? = some (.struct s) ∧
          s.Fields[j]? = some (some
            { GoName := upperFirst f.Name, GoType := t, JSONName := f.Name,
              Description := f.Description }) ∧
          RegisteredAs f.Type_.Name t st1) ∧
    (∀ (opName s : String) (c : Char) (cs : List Char), opName.data = c :: cs →
      c.isUpper = true → matchFirst s opName = upperFirst s) := by
  refine ⟨?_, ?_, ?_, ?_⟩
  · intro namePrefix fieldAlias fd selectionSet fieldOptions queryOptions st fld st1 hl h
    unfold convertField convertFieldWith at h
    simp only [hl] at h
    rw [Outcome.bind_eq_ok] at h
    obtain ⟨v, s0, h1, h2⟩ := h
    cases hv : v.2 with
    | some e => rw [hv] at h2; cases h2
    | none =>
      rw [hv] at h2
      cases h2
      have := convertTypeWith_registeredAs g fuel hl hKind hScalars hBuiltin h1 hv
      have hn : (typeName (namePrefix ++ upperFirst fieldAlias) d).1 = upperFirst d.Name := by
        unfold typeName
        rcases hKind with hk | hk <;> simp [hk]
      rw [hn] at this
      exact this
  · intro opName typ options queryOptions st r st1 hl h hr
    exact convertTypeWith_registeredAs g fuel hl hKind hScalars hBuiltin h hr
  · intro name namePrefix parent selectionSet queryOptions st r st1 hpk hps hpb h hr j f hj hl
    simp only [convertDefinition, convertDefinitionStep, hps, hpb, hpk] at h
    obtain ⟨_, _, _, h4, _⟩ := convertInputObject_ok g _ (convertDefinition_sound g fuel) h
    rcases h4 with ⟨_, h5⟩ | ⟨h5, _⟩
    · unfold convertInputObject at h
      rw [Outcome.bind_eq_ok] at h
      obtain ⟨err, s0, h1, h2⟩ := h
      obtain ⟨hst, hr2, _⟩ := finish_eq_ok h2
      subst hst
      rw [hr] at hr2
      subst hr2
      have hcell : ((st.alloc (.struct
          { GoName := name, Description := parent.Description, GraphQLName := parent.Name,
            Fields := List.replicate parent.Fields.length none,
            Incomplete := false })).2.register name
            (.structPtr st.heap.length)).heap[st.heap.length]? =
          some (.struct
          { GoName := name, Description := parent.Description, GraphQLName := parent.Name,
            Fields := List.replicate parent.Fields.length none,
            Incomplete := false }) := by
        simp [State.alloc, State.register]
      obtain ⟨s1, hs1, _, _, hj1⟩ := convertInputFields_fields g _
        (convertDefinition_sound g fuel) st.heap.length queryOptions
        (fun f t st => g.schema.Types.lookup f.Type_.Name = some d →
          RegisteredAs f.Type_.Name t st)
        (fun f st r st1 hc hrn hlk =>
          convertTypeWith_registeredAs g fuel hlk hKind hScalars hBuiltin hc hrn)
        (fun f t st st2 hq hle hkk hlk => registeredAs_stable (hq hlk) hle hkk)
        parent.Fields 0 _ _ _ hcell (by simp) h1
      obtain ⟨t, ht, hq⟩ := hj1 j f hj
      exact ⟨st.heap.length, s1, t, h5, hs1, by simpa using ht, hq hl⟩
    · exact absurd hr h5
  · intro opName s c cs hd hc
    unfold matchFirst
    rw [hd]
    simp [hc]

theorem enum_input_registered_names_witness :
    RegisteredAs (upperFirst roleEnumDef.Name) roleField.GoType roleFieldState :=
  (enum_input_registered_names inputGen 2 roleEnumDef (Or.inl (by decide)) (by decide)
    (by decide)).1 "getUsers" "role" (fieldDef "role" (.named "Role" false)) [] noOptions
    noOptions State.empty roleField roleFieldState (by decide) (by decide)

/-- C15 as stated fails.  For the operation name `getUsers`, `convertInputType`
registers the enum `Role` under the name `role`, while `convertField` registers
it under `Role`.  In a schema that writes its type names in lower case, the
enum `role` reached as the type of a field of the input object `filter` is
registered under `role`, not under the capitalized name `Role`. -/
theorem enum_input_registered_names_counterexample :
    roleEnumDef.Kind = .Enum ∧ upperFirst roleEnumDef.Name = "Role" ∧
    (convertInputType inputGen 2 "getUsers" (.named "Role" false) noOptions noOptions
      State.empty).state.map State.keys = some ["role"] ∧
    (convertField inputGen 2 "getUsers" "role" (some (fieldDef "role" (.named "Role" false)))
      [] noOptions noOptions State.empty).state.map State.keys = some ["Role"] ∧
    roleDef.Kind = .Enum ∧ upperFirst roleDef.Name = "Role" ∧
    (convertDefinition lowerGen 2 "Filter" "" lowerFilterDef [] noOptions
      State.empty).state.map State.keys = some ["role", "Filter"] := by
  decide

/-- C16 fails on the code: the input object `UserFilter` is converted for the
operation `GetUsers` and then, in the same run, for the operation `ListUsers`
whose options set the pointer option.  The second conversion does not return
the node registered under `UserFilter`: it builds a second struct `UserFilter`
whose field types are pointers, while those of the first are not, and the
registry name `UserFilter` now points to the second. -/
theorem convertInputType_two_shapes :
    convertInputType inputGen 2 "GetUsers" (.named "UserFilter" false) noOptions noOptions
      State.empty = .ok (.structPtr 0, none) userFilterState ∧
    userFilterState.typeMap.lookup "UserFilter" = some (.structPtr 0) ∧
    convertInputType inputGen 2 "ListUsers" (.named "UserFilter" false) noOptions
      { Pointer := some true } userFilterState = .ok (.structPtr 2, none) twoFiltersState ∧
    (twoFiltersState.heap[0]?).map goNode.GoName = some "UserFilter" ∧
    (twoFiltersState.heap[2]?).map goNode.GoName = some "UserFilter" ∧
    (twoFiltersState.heap[0]?).map goNode.fieldTypes
      = some [some (.enumPtr 1), some (.opaqueRef "string")] ∧
    (twoFiltersState.heap[2]?).map goNode.fieldTypes
      = some [some (.pointer (.enumPtr 3)), some (.pointer (.opaqueRef "string"))] ∧
    twoFiltersState.typeMap.lookup "UserFilter" = some (.structPtr 2) := by
  decide

/-- C17, amended: for every input-object definition whose name is neither bound
as a scalar in the configuration nor the name of a builtin scalar, a successful
`convertDefinition` returns a struct with exactly one field per field of the
schema definition, in schema order, the i-th with the capitalized schema field
name as generated name, the schema field name as serialization key, and the
description of the schema field; any other selection set gives the same
result. -/
theorem convertDefinition_input_fields (g : Generator) (fuel : Nat)
    (name namePrefix : String) (d : Definition) (selectionSet : List Selection)
    (queryOptions : GenqlientDirective) (st : State) (r : Ret) (st1 : State)
    (hKind : d.Kind = .InputObject)
    (hScalars : g.Config.Scalars.lookup d.Name = none)
    (hBuiltin : builtinTypes.lookup d.Name = none)
    (h : convertDefinition g fuel name namePrefix d selectionSet queryOptions st = .ok r st1)
    (hr : r.2 = none) :
    (∃ (a : Addr) (s : goStructType), r.1 = .structPtr a ∧
      st1.heap[a]? = some (.struct s) ∧ s.Fields.length = d.Fields.length ∧
      ∀ (j : Nat) (f : FieldDefinition), d.Fields[j]? = some f →
        ∃ (t : goType), s.Fields[j]? = some (some
          { GoName := upperFirst f.Name, GoType := t, JSONName := f.Name,
            Description := f.Description })) ∧
    ∀ (selectionSet2 : List Selection),
      convertDefinition g fuel name namePrefix d selectionSet2 queryOptions st = .ok r st1 := by
  cases fuel with
  | zero => cases h
  | succ f =>
    refine ⟨?_, fun selectionSet2 => ?_⟩
    · simp only [convertDefinition, convertDefinitionStep, hScalars, hBuiltin, hKind] at h
      obtain ⟨_, _, _, h4, _⟩ := convertInputObject_ok g _ (convertDefinition_sound g f) h
      rcases h4 with ⟨_, h5⟩ | ⟨h5, _⟩
      · unfold convertInputObject at h
        rw [Outcome.bind_eq_ok] at h
        obtain ⟨err, s0, h1, h2⟩ := h
        obtain ⟨hst, hr2, _⟩ := finish_eq_ok h2
        subst hst
        rw [hr] at hr2
        subst hr2
        have hcell : ((st.alloc (.struct
            { GoName := name, Description := d.Description, GraphQLName := d.Name,
              Fields := List.replicate d.Fields.length none,
              Incomplete := false })).2.register name
              (.structPtr st.heap.length)).heap[st.heap.length]? =
            some (.struct
            { GoName := name, Description := d.Description, GraphQLName := d.Name,
              Fields := List.replicate d.Fields.length none,
              Incomplete := false }) := by
          simp [State.alloc, State.register]
        obtain ⟨s1, hs1, hl1, _, hj1⟩ := convertInputFields_fields g _
          (convertDefinition_sound g f) _ queryOptions (fun _ _ _ => True)
          (fun _ _ _ _ _ _ => trivial) (fun _ _ _ _ _ _ _ => trivial) d.Fields 0 _ _ _
          hcell (by simp) h1
        refine ⟨st.heap.length, s1, h5, hs1, by simpa using hl1, ?_⟩
        intro j fd hj
        obtain ⟨t, ht, _⟩ := hj1 j fd hj
        exact ⟨t, by simpa using ht⟩
      · exact absurd hr h5
    · rw [← h]
      simp only [convertDefinition, convertDefinitionStep, hScalars, hBuiltin, hKind]

theorem convertDefinition_input_fields_witness :
    (∃ (a : Addr) (s : goStructType),
      (goType.structPtr 0, (none : Option GenError)).1 = .structPtr a ∧
      userFilterState.heap[a]? = some (.struct s) ∧
      s.Fields.length = userFilterDef.Fields.length ∧
      ∀ (j : Nat) (f : FieldDefinition), userFilterDef.Fields[j]? = some f →
        ∃ (t : goType), s.Fields[j]? = some (some
          { GoName := upperFirst f.Name, GoType := t, JSONName := f.Name,
            Description := f.Description })) ∧
    ∀ (selectionSet2 : List Selection),
      convertDefinition inputGen 2 "UserFilter" "" userFilterDef selectionSet2 noOptions
        State.empty = .ok (.structPtr 0, none) userFilterState :=
  convertDefinition_input_fields inputGen 2 "UserFilter" "" userFilterDef [] noOptions
    State.empty (.structPtr 0, none) userFilterState (by decide) (by decide) (by decide)
    (by decide) (by decide)

/-- C17 as stated fails: `UserFilter` is an input object and the conversion
succeeds, yet the value returned is an opaque reference, not a struct, because
the configuration binds the name `UserFilter` as a scalar. -/
theorem convertDefinition_input_fields_counterexample :
    userFilterDef.Kind = .InputObject ∧
    convertDefinition boundFilterGen 2 "UserFilter" "" userFilterDef [] noOptions
      State.empty = .ok (.opaqueRef "mypkg.UserFilter", none) State.empty := by
  decide

/-- C18: for a field selection that carries a resolved schema definition, a
successful `convertField` returns a struct field whose generated name is the
capitalized alias, whose serialization key is the alias and whose description
is that of the schema field.  The name of the schema field is not used: the
loop over a selection set gives the same result whatever the field name of a
selection is, and `convertField` gives the same result whatever the name in the
field definition is. -/
theorem convertField_alias_names (g : Generator) (fuel : Nat) (namePrefix fieldAlias : String)
    (fd : FieldDefinition) (selectionSet : List Selection)
    (fieldOptions queryOptions : GenqlientDirective) (st : State) :
    (∀ (x : Option goStructField) (st1 : State),
      convertField g fuel namePrefix fieldAlias (some fd) selectionSet fieldOptions
        queryOptions st = .ok (x, none) st1 →
      ∃ fld, x = some fld ∧ fld.GoName = upperFirst fieldAlias ∧
        fld.JSONName = fieldAlias ∧ fld.Description = fd.Description) ∧
    (∀ (otherName : String),
      convertField g fuel namePrefix fieldAlias (some { fd with Name := otherName })
        selectionSet fieldOptions queryOptions st =
      convertField g fuel namePrefix fieldAlias (some fd) selectionSet fieldOptions
        queryOptions st) ∧
    (∀ (addr : Addr) (i : Nat) (name1 name2 : String) (p : Position)
      (rest : List Selection),
      convertSelections g (convertDefinition g fuel) addr namePrefix queryOptions i
        (.Field fieldAlias name1 (some fd) selectionSet p :: rest) st =
      convertSelections g (convertDefinition g fuel) addr namePrefix queryOptions i
        (.Field fieldAlias name2 (some fd) selectionSet p :: rest) st) := by
  refine ⟨?_, ?_, ?_⟩
  · intro x st1 h
    obtain ⟨fd1, fld, h1, h2, h3, h4, h5⟩ := convertFieldWith_ok_field g _ h
    cases h1
    exact ⟨fld, h2, h3, h4, h5⟩
  · intro otherName
    rfl
  · intro addr i name1 name2 p rest
    rfl

theorem convertField_alias_names_witness :
    (∃ fld, some alsoIDField = some fld ∧
      fld.GoName = upperFirst "AlsoID" ∧ fld.JSONName = "AlsoID" ∧
      fld.Description = (fieldDef "id" (.named "ID" true)).Description) ∧
    convertOperation boundIDGen 3 doubleAliasOp noOptions State.empty =
      .ok (.structPtr 0, none) doubleAliasState :=
  ⟨(convertField_alias_names boundIDGen 1 "QueryWithDoubleAliasUser" "AlsoID"
      (fieldDef "id" (.named "ID" true)) [] noOptions noOptions State.empty).1
      (some alsoIDField) State.empty (by decide),
   by decide⟩

/-- C19, amended: for every object definition whose name is neither bound as a
scalar in the configuration nor the name of a builtin scalar, when
`convertDefinition` returns successfully the returned struct has one filled
field per selection entry, in selection order (the j-th named by the alias of
the j-th selection), and its `Incomplete` flag is still true: `convertDefinition`
never clears the flag, only `convertOperation` does, for the root struct. -/
theorem convertDefinition_object_fields (g : Generator) (fuel : Nat)
    (name namePrefix : String) (d : Definition) (selectionSet : List Selection)
    (queryOptions : GenqlientDirective) (st : State) (r : Ret) (st1 : State)
    (hKind : d.Kind = .Object)
    (hScalars : g.Config.Scalars.lookup d.Name = none)
    (hBuiltin : builtinTypes.lookup d.Name = none)
    (h : convertDefinition g fuel name namePrefix d selectionSet queryOptions st = .ok r st1)
    (hr : r.2 = none) :
    ∃ (a : Addr) (s : goStructType), r.1 = .structPtr a ∧
      st1.heap[a]? = some (.struct s) ∧ s.Fields.length = selectionSet.length ∧
      (∀ (j : Nat) (sel : Selection), selectionSet[j]? = some sel →
        ∃ (fieldAlias fieldName : String) (fd : FieldDefinition) (ss : List Selection)
          (p : Position) (fld : goStructField),
          sel = .Field fieldAlias fieldName (some fd) ss p ∧
          s.Fields[j]? = some (some fld) ∧ fld.GoName = upperFirst fieldAlias ∧
          fld.JSONName = fieldAlias ∧ fld.Description = fd.Description) ∧
      s.Incomplete = true := by
  cases fuel with
  | zero => cases h
  | succ f =>
    simp only [convertDefinition, convertDefinitionStep, hScalars, hBuiltin, hKind] at h
    obtain ⟨h1, s, hs1, _, hs3, hs4, hs5⟩ :=
      convertObject_fields g _ (convertDefinition_sound g f) h hr
    exact ⟨st.heap.length, s, h1, hs1, hs4, hs5, hs3⟩

theorem convertDefinition_object_fields_witness :
    ∃ (a : Addr) (s : goStructType),
      (goType.structPtr 0, (none : Option GenError)).1 = .structPtr a ∧
      nestedUserState.heap[a]? = some (.struct s) ∧
      s.Fields.length = [leafSel "id" "id" (.named "ID" true)].length ∧
      (∀ (j : Nat) (sel : Selection),
        [leafSel "id" "id" (.named "ID" true)][j]? = some sel →
        ∃ (fieldAlias fieldName : String) (fd : FieldDefinition) (ss : List Selection)
          (p : Position) (fld : goStructField),
          sel = .Field fieldAlias fieldName (some fd) ss p ∧
          s.Fields[j]? = some (some fld) ∧ fld.GoName = upperFirst fieldAlias ∧
          fld.JSONName = fieldAlias ∧ fld.Description = fd.Description) ∧
      s.Incomplete = true :=
  convertDefinition_object_fields exampleGen 2 "GetUserUser" "GetUserUser" userDef
    [leafSel "id" "id" (.named "ID" true)] noOptions State.empty (.structPtr 0, none)
    nestedUserState (by decide) (by decide) (by decide) (by decide) (by decide)

/-- C19 as stated fails: the object type `User` is converted successfully with
the selection `{ id }`, and the `Incomplete` flag of the returned struct is
true. -/
theorem convertDefinition_object_fields_counterexample :
    userDef.Kind = .Object ∧
    convertDefinition exampleGen 2 "GetUserUser" "GetUserUser" userDef
      [leafSel "id" "id" (.named "ID" true)] noOptions State.empty
      = .ok (.structPtr 0, none) nestedUserState ∧
    (nestedUserState.heap[0]?).map goNode.Incomplete = some true := by
  decide

/-- C20, amended: for every object definition whose name is neither bound as a
scalar in the configuration nor the name of a builtin scalar, and every
selection set that contains a fragment spread or an inline fragment,
`convertDefinition` returns no type node: whenever it returns, it returns nil
and an error.  When the loop over the selections before a fragment ends without
error (and the comment before the fragment parses), the call returns, and the
error is `not implemented` for that fragment.  Otherwise the error is that of
the first failing selection: when the selections before a selection convert
without error and the comment before it does not parse, or it is a field whose
conversion fails, the call returns nil and this error. -/
theorem convertDefinition_fragment_fails (g : Generator) (fuel : Nat)
    (name namePrefix : String) (d : Definition) (selectionSet : List Selection)
    (queryOptions : GenqlientDirective) (st : State)
    (hKind : d.Kind = .Object)
    (hScalars : g.Config.Scalars.lookup d.Name = none)
    (hBuiltin : builtinTypes.lookup d.Name = none)
    (hFrag : ∃ sel, sel ∈ selectionSet ∧ sel.isFragment = true) :
    (∀ (r : Ret) (st1 : State),
      convertDefinition g fuel name namePrefix d selectionSet queryOptions st = .ok r st1 →
      r.1 = .nil ∧ r.2 ≠ none) ∧
    (∀ (pre : List Selection) (frag : Selection) (post : List Selection) (st2 : State),
      selectionSet = pre ++ frag :: post → frag.isFragment = true →
      (g.parsePrecedingComment frag.GetPosition).2 = none →
      convertSelections g (convertDefinition g fuel) st.heap.length namePrefix queryOptions 0
        pre (objectStart name d selectionSet st) = .ok none st2 →
      convertDefinition g (fuel + 1) name namePrefix d selectionSet queryOptions st =
        .ok (.nil, some (.notImplementedSelection frag.goTypeName)) st2) ∧
    (∀ (pre : List Selection) (sel : Selection) (post : List Selection) (st2 : State)
      (err : GenError),
      selectionSet = pre ++ sel :: post →
      (g.parsePrecedingComment sel.GetPosition).2 = some err →
      convertSelections g (convertDefinition g fuel) st.heap.length namePrefix queryOptions 0
        pre (objectStart name d selectionSet st) = .ok none st2 →
      convertDefinition g (fuel + 1) name namePrefix d selectionSet queryOptions st =
        .ok (.nil, some err) st2) ∧
    (∀ (pre : List Selection) (fieldAlias fieldName : String) (fd : Option FieldDefinition)
      (ss : List Selection) (p : Position) (post : List Selection) (st2 st3 : State)
      (x : Option goStructField) (e : GenError),
      selectionSet = pre ++ .Field fieldAlias fieldName fd ss p :: post →
      (g.parsePrecedingComment p).2 = none →
      convertSelections g (convertDefinition g fuel) st.heap.length namePrefix queryOptions 0
        pre (objectStart name d selectionSet st) = .ok none st2 →
      convertField g fuel namePrefix fieldAlias fd ss
        (queryOptions.merge (g.parsePrecedingComment p).1) queryOptions st2
        = .ok (x, some e) st3 →
      convertDefinition g (fuel + 1) name namePrefix d selectionSet queryOptions st =
        .ok (.nil, some e) (st3.setField st.heap.length pre.length x)) := by
  refine ⟨?_, ?_, ?_, ?_⟩
  · intro r st1 h
    cases fuel with
    | zero => cases h
    | succ f =>
      simp only [convertDefinition, convertDefinitionStep, hScalars, hBuiltin, hKind] at h
      cases hr : r.2 with
      | some e =>
        obtain ⟨_, _, _, h4, _⟩ := convertObject_ok g _ (convertDefinition_sound g f) h
        rcases h4 with ⟨h5, _⟩ | ⟨_, h5⟩
        · rw [hr] at h5; cases h5
        · exact ⟨h5, by simp⟩
      | none =>
        obtain ⟨_, s, _, _, _, _, hj⟩ :=
          convertObject_fields g _ (convertDefinition_sound g f) h hr
        obtain ⟨sel, hmem, hfrag⟩ := hFrag
        obtain ⟨j, hj1⟩ := List.getElem?_of_mem hmem
        obtain ⟨a1, a2, a3, a4, a5, a6, hb1, _⟩ := hj j sel hj1
        rw [hb1] at hfrag
        cases hfrag
  · intro pre frag post st2 hsel hfrag hcomment hpre
    simp only [convertDefinition, convertDefinitionStep, hScalars, hBuiltin, hKind]
    rw [convertObject_eq]
    have hloop : convertSelections g (convertDefinition g fuel) st.heap.length namePrefix
        queryOptions 0 selectionSet (objectStart name d selectionSet st) =
        .ok (some (.notImplementedSelection frag.goTypeName)) st2 := by
      conv => lhs; arg 7; rw [hsel]
      rw [convertSelections_append, hpre]
      simp only [Outcome.bind, convertSelections, hcomment]
      cases frag with
      | Field a1 a2 a3 a4 a5 => cases hfrag
      | FragmentSpread n p => rfl
      | InlineFragment t ss p => rfl
    rw [hloop]
    rfl
  · intro pre sel post st2 err hsel hcomment hpre
    subst hsel
    exact convertDefinition_comment_error g fuel hKind hScalars hBuiltin hcomment hpre
  · intro pre fieldAlias fieldName fd ss p post st2 st3 x e hsel hcomment hpre hfield
    subst hsel
    exact convertDefinition_field_error g fuel hKind hScalars hBuiltin hcomment hpre hfield

theorem convertDefinition_fragment_fails_witness :
    convertDefinition exampleGen (1 + 1) "GetUserUser" "GetUserUser" userDef
      [leafSel "id" "id" (.named "ID" true), .FragmentSpread "UserFields" 0] noOptions
      State.empty =
      .ok (.nil, some (.notImplementedSelection
        (Selection.FragmentSpread "UserFields" 0).goTypeName)) fragmentState :=
  (convertDefinition_fragment_fails exampleGen 1 "GetUserUser" "GetUserUser" userDef
    [leafSel "id" "id" (.named "ID" true), .FragmentSpread "UserFields" 0] noOptions
    State.empty (by decide) (by decide) (by decide)
    ⟨.FragmentSpread "UserFields" 0, by simp, rfl⟩).2.1
    [leafSel "id" "id" (.named "ID" true)] (.FragmentSpread "UserFields" 0) [] fragmentState
    rfl rfl (by decide) (by decide)

/-- C20 as stated fails in two ways.  With the name `User` bound as a scalar in
the configuration, the conversion of the object type `User` with the selection
`{ ...UserFields }` returns an opaque reference and no error.  Without the
binding, with the selection `{ nickname ...UserFields }` whose first field has
no resolved definition, the error returned is `undefined field`, not `not
implemented`. -/
theorem convertDefinition_fragment_fails_counterexample :
    userDef.Kind = .Object ∧
    (convertDefinition boundUserGen 2 "GetUserUser" "GetUserUser" userDef
      [.FragmentSpread "UserFields" 0] noOptions State.empty).result
      = some (.opaqueRef "mypkg.User", none) ∧
    (convertDefinition exampleGen 2 "GetUserUser" "GetUserUser" userDef
      [.Field "nickname" "nickname" none [] 0, .FragmentSpread "UserFields" 0] noOptions
      State.empty).result = some (.nil, some (.undefinedField "nickname")) := by
  decide

/-- C21, amended: for a subscription operation, when the experimental flag is
off `convertOperation` fails and leaves the state unchanged, with the error
`subscriptions not supported` when the response name of the operation is not
yet registered (otherwise with the error `defined twice`).  When the flag is on
it returns exactly what the query path, and the mutation path, return for the
same operation name and selection set with a generator that agrees with this
one and whose schema has the subscription root type as query root, or as
mutation root. -/
theorem convertOperation_subscription (g : Generator) (fuel : Nat) (name : String)
    (selectionSet : List Selection) (queryOptions : GenqlientDirective) (st : State) :
    (g.Config.AllowBrokenFeatures = false →
      (∃ e, convertOperation g fuel
          { Operation := .Subscription, Name := name, SelectionSet := selectionSet }
          queryOptions st = .ok (.nil, some e) st) ∧
      (st.typeMap.lookup (name ++ "Response") = none →
        convertOperation g fuel
          { Operation := .Subscription, Name := name, SelectionSet := selectionSet }
          queryOptions st = .ok (.nil, some .subscriptionsNotSupported) st)) ∧
    (g.Config.AllowBrokenFeatures = true → ∀ (g2 : Generator), g.Agree g2 →
      (g2.schema.Query = g.schema.Subscription →
        convertOperation g fuel
          { Operation := .Subscription, Name := name, SelectionSet := selectionSet }
          queryOptions st =
        convertOperation g2 fuel
          { Operation := .Query, Name := name, SelectionSet := selectionSet }
          queryOptions st) ∧
      (g2.schema.Mutation = g.schema.Subscription →
        convertOperation g fuel
          { Operation := .Subscription, Name := name, SelectionSet := selectionSet }
          queryOptions st =
        convertOperation g2 fuel
          { Operation := .Mutation, Name := name, SelectionSet := selectionSet }
          queryOptions st)) := by
  refine ⟨fun hOff => ⟨?_, ?_⟩, fun hOn g2 hA => ⟨?_, ?_⟩⟩
  · cases hl : st.typeMap.lookup (name ++ "Response") with
    | some d =>
      exact ⟨.definedTwice (name ++ "Response") d, by simp [convertOperation, hl]⟩
    | none =>
      exact ⟨.subscriptionsNotSupported,
        by simp [convertOperation, hl, baseTypeForOperation, hOff]⟩
  · intro hl
    simp [convertOperation, hl, baseTypeForOperation, hOff]
  · intro hq
    simp only [convertOperation, baseTypeForOperation, hOn, hq, convertDefinition_agree hA]
    rfl
  · intro hm
    simp only [convertOperation, baseTypeForOperation, hOn, hm, convertDefinition_agree hA]
    rfl

theorem convertOperation_subscription_witness :
    convertOperation subscriptionOffGen 3
      { Operation := .Subscription, Name := "OnEvent", SelectionSet := eventSelections }
      noOptions State.empty = .ok (.nil, some .subscriptionsNotSupported) State.empty ∧
    convertOperation subscriptionGen 3
      { Operation := .Subscription, Name := "OnEvent", SelectionSet := eventSelections }
      noOptions State.empty =
    convertOperation subscriptionAsQueryGen 3
      { Operation := .Query, Name := "OnEvent", SelectionSet := eventSelections }
      noOptions State.empty ∧
    (convertOperation subscriptionGen 3 onEventOp noOptions State.empty).result
      = some (.structPtr 0, none) :=
  ⟨((convertOperation_subscription subscriptionOffGen 3 "OnEvent" eventSelections noOptions
      State.empty).1 rfl).2 rfl,
   (((convertOperation_subscription subscriptionGen 3 "OnEvent" eventSelections noOptions
      State.empty).2 rfl) subscriptionAsQueryGen ⟨rfl, rfl, rfl, rfl, rfl, rfl⟩).1 rfl,
   by decide⟩

/-- C21 as stated fails: the experimental flag is off and the subscription
operation is named `GetUser`, after the query `GetUser` was converted in the
same run; the error returned is `defined twice`, not `subscriptions not
supported`. -/
theorem convertOperation_subscription_counterexample :
    subscriptionOffGen.Config.AllowBrokenFeatures = false ∧
    getUserSubscriptionOp.Operation = .Subscription ∧
    convertOperation subscriptionOffGen 3 getUserSubscriptionOp noOptions getUserState
      = .ok (.nil, some (.definedTwice "GetUserResponse" (.structPtr 0))) getUserState := by
  decide

/-- C22: recursive object shapes are tolerated.  For every schema whose possible
types are all object types, every operation whose root type is not an input
object and every selection tree in which no selected field has an input-object
type, `convertOperation` terminates: with fuel `2 * depth + 2`, where `depth`
is the nesting depth of the selection tree, the embedding returns (or stops at
a nil dereference) and does not run out of fuel, and every larger amount of
fuel gives the same outcome.  The schema may be recursive: the bound depends
on the selection tree alone. -/
theorem convertOperation_terminates (g : Generator) (operation : OperationDefinition)
    (queryOptions : GenqlientDirective) (st : State)
    (hOut : Selection.outputOnlyList g operation.SelectionSet = true)
    (hPoss : ∀ p, p ∈ g.schema.PossibleTypes → ∀ impl, impl ∈ p.2 → impl.Kind = .Object)
    (hRoot : (baseTypeForOperation g operation.Operation).1.map Definition.Kind
      ≠ some .InputObject) :
    ∃ (out : Outcome Ret), out ≠ .outOfFuel ∧
      ∀ (fuel : Nat), 2 * Selection.depthList operation.SelectionSet + 2 ≤ fuel →
        convertOperation g fuel operation queryOptions st = out := by
  refine ⟨convertOperation g (2 * Selection.depthList operation.SelectionSet + 2) operation
    queryOptions st, ?_, ?_⟩
  · simp only [convertOperation]
    cases st.typeMap.lookup (operation.Name ++ "Response") with
    | some d => simp
    | none =>
      cases (baseTypeForOperation g operation.Operation).2 with
      | some err => simp
      | none =>
        cases hb : (baseTypeForOperation g operation.Operation).1 with
        | none => simp
        | some baseType =>
          have hk : baseType.Kind ≠ .InputObject := by
            intro hk
            apply hRoot
            rw [hb, Option.map_some', hk]
          refine Outcome.bind_ne_outOfFuel
            ((convertDefinition_terminates g hPoss _ _ _ _ _ _ _ hOut hk).2 (le_refl _)) ?_
          intro r st1 _
          cases r.1 <;> simp
  · intro fuel hle
    simp only [convertOperation]
    cases st.typeMap.lookup (operation.Name ++ "Response") with
    | some d => rfl
    | none =>
      cases (baseTypeForOperation g operation.Operation).2 with
      | some err => rfl
      | none =>
        cases hb : (baseTypeForOperation g operation.Operation).1 with
        | none => rfl
        | some baseType =>
          have hk : baseType.Kind ≠ .InputObject := by
            intro hk
            apply hRoot
            rw [hb, Option.map_some', hk]
          simp only
          rw [convertDefinition_below g hle _ _ _ _ _ _
            ((convertDefinition_terminates g hPoss _ _ _ _ _ _ _ hOut hk).2 (le_refl _))]

theorem convertOperation_terminates_witness :
    (convertOperation personGen 10 friendsOp noOptions State.empty).result
      = some (.structPtr 0, none) ∧
    ∃ (out : Outcome Ret), out ≠ .outOfFuel ∧
      ∀ (fuel : Nat), 2 * Selection.depthList friendsOp.SelectionSet + 2 ≤ fuel →
        convertOperation personGen fuel friendsOp noOptions State.empty = out :=
  ⟨by decide,
   convertOperation_terminates personGen friendsOp noOptions State.empty (by decide)
    (by decide) (by decide)⟩

/-- C23 fails on the code: with the schema `input Filter { and: Filter }`, the
conversion of an argument of the type `Filter` never returns.  Every level of
the recursion allocates and registers a new struct and converts the type of the
field `and` again, without looking the name up in the registry: there is no
amount of fuel with which the embedding does anything but run out of fuel. -/
theorem convertInputType_recursive_input :
    recursiveFilterDef.Kind = .InputObject ∧
    recursiveInputGen.schema.Types.lookup "Filter" = some recursiveFilterDef ∧
    ¬ ∃ (fuel : Nat), convertInputType recursiveInputGen fuel "GetUsers"
      (.named "Filter" false) noOptions noOptions State.empty ≠ .outOfFuel := by
  refine ⟨rfl, by decide, ?_⟩
  rintro ⟨fuel, h⟩
  apply h
  have hl : recursiveInputGen.schema.Types.lookup "Filter" = some recursiveFilterDef := by
    decide
  simp only [convertInputType, convertType, convertTypeWith, hl, recursiveFilter_outOfFuel,
    Outcome.bind]

/-- C24 fails on the code: the input object `UserFilter` was converted for the
operation `GetUsers`, which left the entry `UserFilter` pointing to the node at
address 0.  The conversion of the input object `Search` for the operation
`ListUsers`, whose options set the pointer option, then fails with `unknown
scalar DateTime`, after it has converted the field of type `UserFilter`: the
entry `UserFilter` of the completed operation now points to the node at
address 3, whose field types are pointers. -/
theorem failed_call_overwrites_entry :
    convertInputType searchGen 2 "GetUsers" (.named "UserFilter" false) noOptions noOptions
      State.empty = .ok (.structPtr 0, none) userFilterState ∧
    userFilterState.typeMap.lookup "UserFilter" = some (.structPtr 0) ∧
    convertInputType searchGen 3 "ListUsers" (.named "Search" false) noOptions
      { Pointer := some true } userFilterState
      = .ok (.nil, some (.unknownScalar "DateTime")) failedSearchState ∧
    failedSearchState.typeMap.lookup "UserFilter" = some (.structPtr 3) ∧
    (failedSearchState.heap[0]?).map goNode.fieldTypes
      = some [some (.enumPtr 1), some (.opaqueRef "string")] ∧
    (failedSearchState.heap[3]?).map goNode.fieldTypes
      = some [some (.pointer (.enumPtr 4)), some (.pointer (.opaqueRef "string"))] := by
  decide

/-- C25: errors propagate upward immediately; every step of the recursion
returns the failure of the step below it.  (1) In the loop over the selections
of an object, when the selections before a field convert without error and the
conversion of the field fails, `convertDefinition` returns nil and the error of
this field, in the state the failed conversion ended in: nothing after the
field is converted.  (2) The same holds when the comment before a selection
does not parse.  (3) A field without resolved definition fails.  (4) When the
conversion of the definition of the type of a field fails, `convertField`
fails with the same error, in the same state, and returns no field; so a field
that fails makes the field that selects it fail, at any depth, by (1) and (4).
(5) When the conversion of a definition fails, `convertType` returns its error.
(6) Conversely a failed `convertField` returns no field and its error is the
one `convertDefinition` returned for the type of the field.  (7) An error of
`convertDefinition` comes with nil, unless the name of the definition is bound
as a scalar and `addRef` failed, in which case nothing was converted.  (8) In
the loop over the implementations of an interface or union, the first failing
implementation ends the loop and its error is returned with nil.
(9) `convertOperation` returns the error of the conversion of its root type as
it is, in the same state, with nil when the root type name is not bound as a
scalar. -/
theorem errors_propagate (g : Generator) (fuel : Nat) :
    (∀ (name namePrefix : String) (d : Definition) (pre post : List Selection)
      (fieldAlias fieldName : String) (fd : Option FieldDefinition) (ss : List Selection)
      (p : Position) (queryOptions : GenqlientDirective) (st st2 st3 : State)
      (x : Option goStructField) (e : GenError),
      d.Kind = .Object → g.Config.Scalars.lookup d.Name = none →
      builtinTypes.lookup d.Name = none →
      (g.parsePrecedingComment p).2 = none →
      convertSelections g (convertDefinition g fuel) st.heap.length namePrefix queryOptions 0
        pre (objectStart name d (pre ++ .Field fieldAlias fieldName fd ss p :: post) st)
        = .ok none st2 →
      convertField g fuel namePrefix fieldAlias fd ss
        (queryOptions.merge (g.parsePrecedingComment p).1) queryOptions st2
        = .ok (x, some e) st3 →
      convertDefinition g (fuel + 1) name namePrefix d
        (pre ++ .Field fieldAlias fieldName fd ss p :: post) queryOptions st
        = .ok (.nil, some e) (st3.setField st.heap.length pre.length x)) ∧
    (∀ (name namePrefix : String) (d : Definition) (pre post : List Selection)
      (sel : Selection) (queryOptions : GenqlientDirective) (st st2 : State)
      (err : GenError),
      d.Kind = .Object → g.Config.Scalars.lookup d.Name = none →
      builtinTypes.lookup d.Name = none →
      (g.parsePrecedingComment sel.GetPosition).2 = some err →
      convertSelections g (convertDefinition g fuel) st.heap.length namePrefix queryOptions 0
        pre (objectStart name d (pre ++ sel :: post) st) = .ok none st2 →
      convertDefinition g (fuel + 1) name namePrefix d (pre ++ sel :: post) queryOptions st
        = .ok (.nil, some err) st2) ∧
    (∀ (namePrefix fieldAlias : String) (ss : List Selection)
      (fieldOptions queryOptions : GenqlientDirective) (st : State),
      convertField g fuel namePrefix fieldAlias none ss fieldOptions queryOptions st
        = .ok (none, some (.undefinedField fieldAlias)) st) ∧
    (∀ (namePrefix fieldAlias : String) (fd : FieldDefinition) (ss : List Selection)
      (fieldOptions queryOptions : GenqlientDirective) (st : State) (d : Definition)
      (t : goType) (e : GenError) (st1 : State),
      g.schema.Types.lookup fd.Type_.Name = some d →
      convertDefinition g fuel (typeName (namePrefix ++ upperFirst fieldAlias) d).1
        (typeName (namePrefix ++ upperFirst fieldAlias) d).2 d ss queryOptions st
        = .ok (t, some e) st1 →
      convertField g fuel namePrefix fieldAlias (some fd) ss fieldOptions queryOptions st
        = .ok (none, some e) st1) ∧
    (∀ (name namePrefix : String) (typ : AstType) (selectionSet : List Selection)
      (options queryOptions : GenqlientDirective) (st : State) (d : Definition)
      (t : goType) (e : GenError) (st1 : State),
      g.schema.Types.lookup typ.Name = some d →
      convertDefinition g fuel name namePrefix d selectionSet queryOptions st
        = .ok (t, some e) st1 →
      convertType g fuel name namePrefix typ selectionSet options queryOptions st
        = .ok (wrapSlices typ.listDepth (if options.GetPointer then .pointer t else t),
            some e) st1) ∧
    (∀ (namePrefix fieldAlias : String) (fd : FieldDefinition) (ss : List Selection)
      (fieldOptions queryOptions : GenqlientDirective) (st : State)
      (r : Option goStructField × Option GenError) (st1 : State),
      convertField g fuel namePrefix fieldAlias (some fd) ss fieldOptions queryOptions st
        = .ok r st1 → r.2 ≠ none →
      r.1 = none ∧
      ∃ (d : Definition) (t : goType), g.schema.Types.lookup fd.Type_.Name = some d ∧
        convertDefinition g fuel (typeName (namePrefix ++ upperFirst fieldAlias) d).1
          (typeName (namePrefix ++ upperFirst fieldAlias) d).2 d ss queryOptions st
          = .ok (t, r.2) st1) ∧
    (∀ (name namePrefix : String) (d : Definition) (selectionSet : List Selection)
      (queryOptions : GenqlientDirective) (st : State) (r : Ret) (st1 : State),
      convertDefinition g fuel name namePrefix d selectionSet queryOptions st = .ok r st1 →
      r.2 ≠ none →
      (g.Config.Scalars.lookup d.Name = none ∧ r.1 = .nil) ∨
      (∃ q, g.Config.Scalars.lookup d.Name = some q ∧
        r = (.opaqueRef (g.addRef q).1, (g.addRef q).2) ∧ st1 = st)) ∧
    (∀ (name namePrefix : String) (d : Definition) (pre post : List Definition)
      (implDef : Definition) (selectionSet : List Selection)
      (queryOptions : GenqlientDirective) (st st2 st3 : State) (t : goType) (e : GenError),
      (d.Kind = .Interface ∨ d.Kind = .Union) → g.Config.Scalars.lookup d.Name = none →
      builtinTypes.lookup d.Name = none →
      g.Config.AllowBrokenFeatures = true → hasTypename selectionSet = true →
      g.schema.GetPossibleTypes d = pre ++ implDef :: post →
      convertImplementations g (convertDefinition g fuel) st.heap.length d.Name namePrefix
        selectionSet queryOptions 0 pre (interfaceStart g name d st) = .ok none st2 →
      convertDefinition g fuel (typeName namePrefix implDef).1 (typeName namePrefix implDef).2
        implDef selectionSet queryOptions st2 = .ok (t, some e) st3 →
      convertDefinition g (fuel + 1) name namePrefix d selectionSet queryOptions st
        = .ok (.nil, some e) st3) ∧
    (∀ (operation : OperationDefinition) (queryOptions : GenqlientDirective) (st : State)
      (baseType : Definition) (t : goType) (e : GenError) (st1 : State),
      st.typeMap.lookup (operation.Name ++ "Response") = none →
      baseTypeForOperation g operation.Operation = (some baseType, none) →
      convertDefinition g fuel (operation.Name ++ "Response") operation.Name baseType
        operation.SelectionSet queryOptions st = .ok (t, some e) st1 →
      convertOperation g fuel operation queryOptions st = .ok (t, some e) st1 ∧
      (g.Config.Scalars.lookup baseType.Name = none → t = .nil)) := by
  refine ⟨?_, ?_, ?_, ?_, ?_, ?_, ?_, ?_, ?_⟩
  · intro name namePrefix d pre post fieldAlias fieldName fd ss p queryOptions st st2 st3 x e
      hKind hScalars hBuiltin hcomment hpre hfield
    exact convertDefinition_field_error g fuel hKind hScalars hBuiltin hcomment hpre hfield
  · intro name namePrefix d pre post sel queryOptions st st2 err hKind hScalars hBuiltin
      hcomment hpre
    exact convertDefinition_comment_error g fuel hKind hScalars hBuiltin hcomment hpre
  · intro namePrefix fieldAlias ss fieldOptions queryOptions st
    rfl
  · intro namePrefix fieldAlias fd ss fieldOptions queryOptions st d t e st1 hl h
    exact convertField_of_definition_error g fuel hl h
  · intro name namePrefix typ selectionSet options queryOptions st d t e st1 hl h
    exact convertType_of_definition_error g fuel hl h
  · intro namePrefix fieldAlias fd ss fieldOptions queryOptions st r st1 h hr
    simp only [convertField, convertFieldWith] at h
    cases hl : g.schema.Types.lookup fd.Type_.Name with
    | none => rw [hl] at h; cases h
    | some d =>
      rw [hl] at h
      simp only at h
      rw [convertTypeWith_eq, Outcome.bind_eq_ok] at h
      obtain ⟨v, s0, h1, h2⟩ := h
      rw [Outcome.bind_eq_ok] at h1
      obtain ⟨w, s1, h3, h4⟩ := h1
      cases h4
      simp only [convertNamed, hl] at h3
      cases hw : w.2 with
      | none =>
        simp only [hw] at h2
        cases h2
        exact absurd rfl hr
      | some err =>
        simp only [hw] at h2
        cases h2
        refine ⟨rfl, d, w.1, rfl, ?_⟩
        rw [h3, ← hw]
  · intro name namePrefix d selectionSet queryOptions st r st1 h hr
    exact convertDefinition_error_value g fuel h hr
  · intro name namePrefix d pre post implDef selectionSet queryOptions st st2 st3 t e
      hKind hScalars hBuiltin hFlag hTypename hposs hpre himpl
    have hstep : convertDefinition g (fuel + 1) name namePrefix d selectionSet queryOptions st
        = convertInterface g (convertDefinition g fuel) name namePrefix d selectionSet
            queryOptions st := by
      simp only [convertDefinition, convertDefinitionStep, hScalars, hBuiltin]
      rcases hKind with hk | hk <;> rw [hk]
    rw [hstep, convertInterface_eq g _ _ _ _ _ _ _ hFlag hTypename, hposs,
      convertImplementations_append, hpre]
    simp only [Outcome.bind, convertImplementations, himpl, finish]
  · intro operation queryOptions st baseType t e st1 hl hbase h
    have ht : g.Config.Scalars.lookup baseType.Name = none → t = .nil := by
      intro hs
      rcases convertDefinition_error_value g fuel h (by simp) with h1 | ⟨q, h1, _⟩
      · exact h1.2
      · rw [hs] at h1; cases h1
    refine ⟨?_, ht⟩
    simp only [convertOperation, hl, hbase, h, Outcome.bind]
    rcases convertDefinition_error_value g fuel h (by simp) with h1 | ⟨q, _, h1, _⟩
    · have h2 : t = .nil := h1.2
      subst h2
      rfl
    · have h2 : t = .opaqueRef (g.addRef q).1 := congrArg Prod.fst h1
      subst h2
      rfl

theorem errors_propagate_witness :
    convertOperation exampleGen 3 failingOp noOptions State.empty
      = .ok (.nil, some (.undefinedField "nickname"))
          (((objectStart "GetUserUser" userDef
              [.Field "nickname" "nickname" none [] 0, leafSel "id" "id" (.named "ID" true)]
              (objectStart "GetUserResponse" queryDef failingOp.SelectionSet
                State.empty)).setField 1 0 none).setField 0 0 none) :=
  ((errors_propagate exampleGen 3).2.2.2.2.2.2.2.2 failingOp noOptions State.empty queryDef
    .nil (.undefinedField "nickname") _ (by decide) (by decide)
    ((errors_propagate exampleGen 2).1 "GetUserResponse" "GetUser" queryDef []
      [.Field "title" "title" none [] 0] "user" "user"
      (some (fieldDef "user" (.named "User" false)))
      [.Field "nickname" "nickname" none [] 0, leafSel "id" "id" (.named "ID" true)] 0
      noOptions State.empty _ _ none (.undefinedField "nickname") rfl (by decide) (by decide)
      rfl rfl
      ((errors_propagate exampleGen 2).2.2.2.1 "GetUser" "user"
        (fieldDef "user" (.named "User" false))
        [.Field "nickname" "nickname" none [] 0, leafSel "id" "id" (.named "ID" true)]
        _ noOptions _ userDef .nil (.undefinedField "nickname") _ (by decide)
        ((errors_propagate exampleGen 1).1 "GetUserUser" "GetUserUser" userDef []
          [leafSel "id" "id" (.named "ID" true)] "nickname" "nickname" none [] 0 noOptions
          _ _ _ none (.undefinedField "nickname") rfl (by decide) (by decide) rfl rfl
          ((errors_propagate exampleGen 1).2.2.1 "GetUserUser" "nickname" [] _ noOptions
            _))))).1

/-- C26: the registry invariant is preserved by every conversion call, whether
it returns a type or an error.  The invariant says that every registry entry
maps its key to a pointer to a struct, interface or enum node of the heap whose
own generated name is the key, so that no slice, pointer wrapper, opaque
reference or nil is ever registered.  It holds in the empty state of a fresh
run, and when it holds before a call of `convertOperation`, `convertInputType`,
`convertField`, `convertType` or `convertDefinition` it holds in the state the
call returns in. -/
theorem registry_invariant (g : Generator) (fuel : Nat) :
    RegistryOK State.empty ∧
    (∀ (st : State) (k : String) (t : goType), RegistryOK st →
      st.typeMap.lookup k = some t →
      (∃ a, (∃ s, st.heap[a]? = some (.struct s) ∧ s.GoName = k ∧ t = .structPtr a) ∨
            (∃ i, st.heap[a]? = some (.iface i) ∧ i.GoName = k ∧ t = .interfacePtr a) ∨
            (∃ e, st.heap[a]? = some (.enum e) ∧ e.GoName = k ∧ t = .enumPtr a)) ∧
      t.isWrapper = false ∧ t ≠ .nil ∧ ∀ ref, t ≠ .opaqueRef ref) ∧
    (∀ (operation : OperationDefinition) (queryOptions : GenqlientDirective)
      (st : State) (r : Ret) (st1 : State), RegistryOK st →
      convertOperation g fuel operation queryOptions st = .ok r st1 → RegistryOK st1) ∧
    (∀ (opName : String) (typ : AstType) (options queryOptions : GenqlientDirective)
      (st : State) (r : Ret) (st1 : State), RegistryOK st →
      convertInputType g fuel opName typ options queryOptions st = .ok r st1 →
      RegistryOK st1) ∧
    (∀ (namePrefix fieldAlias : String) (fd : Option FieldDefinition) (ss : List Selection)
      (fieldOptions queryOptions : GenqlientDirective) (st : State)
      (r : Option goStructField × Option GenError) (st1 : State), RegistryOK st →
      convertField g fuel namePrefix fieldAlias fd ss fieldOptions queryOptions st
        = .ok r st1 → RegistryOK st1) ∧
    (∀ (name namePrefix : String) (typ : AstType) (selectionSet : List Selection)
      (options queryOptions : GenqlientDirective) (st : State) (r : Ret) (st1 : State),
      RegistryOK st →
      convertType g fuel name namePrefix typ selectionSet options queryOptions st
        = .ok r st1 → RegistryOK st1) ∧
    (∀ (name namePrefix : String) (d : Definition) (selectionSet : List Selection)
      (queryOptions : GenqlientDirective) (st : State) (r : Ret) (st1 : State),
      RegistryOK st →
      convertDefinition g fuel name namePrefix d selectionSet queryOptions st = .ok r st1 →
      RegistryOK st1) := by
  refine ⟨?_, ?_, ?_, ?_, ?_, ?_, ?_⟩
  · intro k t h
    simp [State.empty, List.lookup] at h
  · intro st k t hok hl
    obtain ⟨a, n, ha, ht, hk⟩ := hok k t hl
    cases n with
    | struct s =>
      subst ht
      exact ⟨⟨a, Or.inl ⟨s, ha, hk, rfl⟩⟩, rfl, by simp [goNode.ref], by simp [goNode.ref]⟩
    | iface i =>
      subst ht
      exact ⟨⟨a, Or.inr (Or.inl ⟨i, ha, hk, rfl⟩)⟩, rfl, by simp [goNode.ref],
        by simp [goNode.ref]⟩
    | enum e =>
      subst ht
      exact ⟨⟨a, Or.inr (Or.inr ⟨e, ha, hk, rfl⟩)⟩, rfl, by simp [goNode.ref],
        by simp [goNode.ref]⟩
  · intro operation queryOptions st r st1 hok h
    exact (convertOperation_kept g fuel h).2.2 hok
  · intro opName typ options queryOptions st r st1 hok h
    exact (convertInputType_kept g fuel h).2.2 hok
  · intro namePrefix fieldAlias fd ss fieldOptions queryOptions st r st1 hok h
    exact (convertFieldWith_respects stepRel_kept g _ (convertDefinition_kept g fuel) h).2.2 hok
  · intro name namePrefix typ selectionSet options queryOptions st r st1 hok h
    exact (convertTypeWith_respects g _ (convertDefinition_kept g fuel) h).2.2 hok
  · intro name namePrefix d selectionSet queryOptions st r st1 hok h
    exact (convertDefinition_kept g fuel _ _ _ _ _ _ _ _ h).2.2 hok

theorem registry_invariant_witness :
    RegistryOK getUserState ∧ RegistryOK failedSearchState :=
  ⟨(registry_invariant exampleGen 3).2.2.1 getUserOp noOptions State.empty
      (.structPtr 0, none) getUserState (registry_invariant exampleGen 3).1 (by decide),
   (registry_invariant searchGen 3).2.2.2.1 "ListUsers" (.named "Search" false) noOptions
      { Pointer := some true } userFilterState (.nil, some (.unknownScalar "DateTime"))
      failedSearchState
      ((registry_invariant searchGen 2).2.2.2.1 "GetUsers" (.named "UserFilter" false)
        noOptions noOptions State.empty (.structPtr 0, none) userFilterState
        (registry_invariant searchGen 2).1 (by decide))
      (by decide)⟩

/-- C27: within an object selection, the options used to convert a field are
the operation-level options merged with the directive of this field only.  For
every successful conversion of an object definition, slot `j` of the struct
holds the field built from the j-th selection: the named type of the field was
converted, with its sub-selection, by a call of `convertDefinition` with the
operation-level options, and the type stored is the result of this call inside
the slice wrappers of the schema type, with a pointer wrapper exactly when the
operation-level options merged with the directive of this very field ask for
one.  The options of a field reach `convertField` only through this wrapper:
with other field options the call ends in the same state, with the same error,
and returns the same field when the two options agree on the pointer. -/
theorem field_options_frame (g : Generator) (fuel : Nat) :
    (∀ (name namePrefix : String) (d : Definition) (selectionSet : List Selection)
      (queryOptions : GenqlientDirective) (st : State) (r : Ret) (st1 : State),
      d.Kind = .Object → g.Config.Scalars.lookup d.Name = none →
      builtinTypes.lookup d.Name = none →
      convertDefinition g (fuel + 1) name namePrefix d selectionSet queryOptions st
        = .ok r st1 → r.2 = none →
      ∃ (s : goStructType), r.1 = .structPtr st.heap.length ∧
        st1.heap[st.heap.length]? = some (.struct s) ∧
        ∀ (j : Nat) (sel : Selection), selectionSet[j]? = some sel →
          ∃ (fieldAlias fieldName : String) (fd : FieldDefinition) (ss : List Selection)
            (p : Position) (fieldTypedef : Definition) (t : goType) (sa sb : State),
            sel = .Field fieldAlias fieldName (some fd) ss p ∧
            g.schema.Types.lookup fd.Type_.Name = some fieldTypedef ∧
            convertDefinition g fuel
              (typeName (namePrefix ++ upperFirst fieldAlias) fieldTypedef).1
              (typeName (namePrefix ++ upperFirst fieldAlias) fieldTypedef).2
              fieldTypedef ss queryOptions sa = .ok (t, none) sb ∧
            t.isWrapper = false ∧
            s.Fields[j]? = some (some
              { GoName := upperFirst fieldAlias,
                GoType := wrapSlices fd.Type_.listDepth
                  (if (queryOptions.merge (g.parsePrecedingComment p).1).GetPointer
                    then .pointer t else t),
                JSONName := fieldAlias, Description := fd.Description }) ∧
            (wrapSlices fd.Type_.listDepth
              (if (queryOptions.merge (g.parsePrecedingComment p).1).GetPointer
                then goType.pointer t else t)).hasPointer
              = (queryOptions.merge (g.parsePrecedingComment p).1).GetPointer) ∧
    (∀ (namePrefix fieldAlias : String) (fdef : Option FieldDefinition) (ss : List Selection)
      (options1 options2 queryOptions : GenqlientDirective) (st : State)
      (x1 : Option goStructField) (e : Option GenError) (st1 : State),
      convertField g fuel namePrefix fieldAlias fdef ss options1 queryOptions st
        = .ok (x1, e) st1 →
      ∃ (x2 : Option goStructField),
        convertField g fuel namePrefix fieldAlias fdef ss options2 queryOptions st
          = .ok (x2, e) st1 ∧
        (options1.GetPointer = options2.GetPointer → x2 = x1)) := by
  refine ⟨?_, ?_⟩
  · intro name namePrefix d selectionSet queryOptions st r st1 hKind hScalars hBuiltin h hr
    simp only [convertDefinition, convertDefinitionStep, hScalars, hBuiltin, hKind] at h
    have hS := convertDefinition_sound g fuel
    obtain ⟨_, _, _, h4, s, hs1, _⟩ := convertObject_ok g _ hS h
    rcases h4 with ⟨_, h5⟩ | ⟨h5, _⟩
    · refine ⟨s, h5, hs1, ?_⟩
      rw [convertObject_eq, Outcome.bind_eq_ok] at h
      obtain ⟨err, s0, h1, h2⟩ := h
      obtain ⟨hst, hr2, _⟩ := finish_eq_ok h2
      subst hst
      rw [hr] at hr2
      subst hr2
      obtain ⟨s1, hc1, _, _, hj1⟩ := convertSelections_calls g _ hS _ _ _ selectionSet
        0 _ _ _ (objectStart_cell name d selectionSet st) (by simp) h1
      rw [hs1] at hc1
      cases hc1
      intro j sel hj
      obtain ⟨fa, fn, fdef, ss, p, x, sa, sb, hsel, hcall, hslot⟩ := hj1 j sel hj
      obtain ⟨fd, ftd, t, hfd, hl, hconv, hw, hx⟩ := convertFieldWith_call g _ hS hcall
      subst hfd
      refine ⟨fa, fn, fd, ss, p, ftd, t, sa, sb, hsel, hl, hconv, hw, ?_, ?_⟩
      · rw [← hx]
        simpa using hslot
      · cases hb : (queryOptions.merge (g.parsePrecedingComment p).1).GetPointer with
        | true => simpa using hasPointer_wrapSlices_pointer _ t
        | false => simpa using hasPointer_wrapSlices _ t hw
    · exact absurd hr h5
  · intro namePrefix fieldAlias fdef ss options1 options2 queryOptions st x1 e st1 h
    simp only [convertField, convertFieldWith] at h ⊢
    cases fdef with
    | none => exact ⟨x1, h, fun _ => rfl⟩
    | some fd =>
      simp only at h ⊢
      cases hl : g.schema.Types.lookup fd.Type_.Name with
      | none => rw [hl] at h; cases h
      | some d =>
        rw [hl] at h
        simp only at h ⊢
        rw [convertTypeWith_eq, Outcome.bind_eq_ok] at h
        obtain ⟨v, s0, h1, h2⟩ := h
        rw [Outcome.bind_eq_ok] at h1
        obtain ⟨w, s1, h3, h4⟩ := h1
        cases h4
        rw [convertTypeWith_eq, h3]
        simp only [Outcome.bind]
        cases hw : w.2 with
        | some err =>
          simp only [hw] at h2 ⊢
          cases h2
          exact ⟨none, rfl, fun _ => rfl⟩
        | none =>
          simp only [hw] at h2 ⊢
          cases h2
          exact ⟨_, rfl, fun hp => by rw [hp]⟩

theorem field_options_frame_witness :
    (pointerFieldsState.heap[0]?).map goNode.fieldTypes
      = some [some (.pointer (.structPtr 1)), some (.slice (.slice (.structPtr 2)))] ∧
    (pointerFieldsState.heap[1]?).map goNode.fieldTypes
      = some [some (.opaqueRef "string"), some (.opaqueRef "string")] ∧
    ∃ (s : goStructType), (goType.structPtr 0, (none : Option GenError)).1
        = .structPtr State.empty.heap.length ∧
      pointerFieldsState.heap[State.empty.heap.length]? = some (.struct s) ∧
      ∀ (j : Nat) (sel : Selection), pointerSelections[j]? = some sel →
        ∃ (fieldAlias fieldName : String) (fd : FieldDefinition) (ss : List Selection)
          (p : Position) (fieldTypedef : Definition) (t : goType) (sa sb : State),
          sel = .Field fieldAlias fieldName (some fd) ss p ∧
          pointerAtOneGen.schema.Types.lookup fd.Type_.Name = some fieldTypedef ∧
          convertDefinition pointerAtOneGen 2
            (typeName ("Q" ++ upperFirst fieldAlias) fieldTypedef).1
            (typeName ("Q" ++ upperFirst fieldAlias) fieldTypedef).2
            fieldTypedef ss noOptions sa = .ok (t, none) sb ∧
          t.isWrapper = false ∧
          s.Fields[j]? = some (some
            { GoName := upperFirst fieldAlias,
              GoType := wrapSlices fd.Type_.listDepth
                (if (noOptions.merge (pointerAtOneGen.parsePrecedingComment p).1).GetPointer
                  then .pointer t else t),
              JSONName := fieldAlias, Description := fd.Description }) ∧
          (wrapSlices fd.Type_.listDepth
            (if (noOptions.merge (pointerAtOneGen.parsePrecedingComment p).1).GetPointer
              then goType.pointer t else t)).hasPointer
            = (noOptions.merge (pointerAtOneGen.parsePrecedingComment p).1).GetPointer :=
  ⟨by decide, by decide,
   (field_options_frame pointerAtOneGen 2).1 "QResponse" "Q" queryDef pointerSelections
    noOptions State.empty (.structPtr 0, none) pointerFieldsState rfl (by decide) (by decide)
    (by decide) rfl⟩

/-- C28, amended: when every type name referenced by the type of a field of an
input object of the schema is a key of the type table, no step of a conversion
reaches a nil type definition, provided that, for `convertOperation`, the
schema defines the root type of the kind of the operation and the type of every
selected field is named by a key of the type table, and, for
`convertInputType`, the type of the argument is named by a key of the type
table.  The nil dereference of the embedding is then unreachable: a call either
returns, with a type or an error, or is still running when the fuel ends. -/
theorem no_nil_definition (g : Generator) (fuel : Nat)
    (hInput : g.schema.inputFieldsDefined = true) :
    (∀ (operation : OperationDefinition) (queryOptions : GenqlientDirective) (st : State),
      rootDefined g operation.Operation = true →
      Selection.typesDefinedList g.schema operation.SelectionSet = true →
      convertOperation g fuel operation queryOptions st ≠ .nilDeref) ∧
    (∀ (opName : String) (typ : AstType) (options queryOptions : GenqlientDirective)
      (st : State),
      (g.schema.Types.lookup typ.Name).isSome = true →
      convertInputType g fuel opName typ options queryOptions st ≠ .nilDeref) := by
  refine ⟨?_, ?_⟩
  · intro operation queryOptions st hRoot hSel
    simp only [convertOperation]
    cases st.typeMap.lookup (operation.Name ++ "Response") with
    | some d => simp
    | none =>
      cases he : (baseTypeForOperation g operation.Operation).2 with
      | some err => simp
      | none =>
        cases hb : (baseTypeForOperation g operation.Operation).1 with
        | none => simp [rootDefined, he, hb] at hRoot
        | some baseType =>
          have hd : g.schema.Defines baseType := by
            cases ho : operation.Operation with
            | Query =>
              rw [ho] at hb
              exact Or.inr (Or.inl hb)
            | Mutation =>
              rw [ho] at hb
              exact Or.inr (Or.inr (Or.inl hb))
            | Subscription =>
              rw [ho] at hb
              simp only [baseTypeForOperation] at hb
              split at hb
              · cases hb
              · exact Or.inr (Or.inr (Or.inr (Or.inl hb)))
            | Other raw =>
              rw [ho] at hb
              cases hb
          refine Outcome.bind_ne_nilDeref
            (convertDefinition_ne_nilDeref g hInput fuel _ _ _ _ _ _ hd hSel) ?_
          intro r st1 _
          cases r.1 <;> simp
  · intro opName typ options queryOptions st hl
    simp only [convertInputType, convertType]
    refine convertTypeWith_ne_nilDeref g _ _ _ _ _ _ _ _ (Option.isSome_iff_exists.1 hl) ?_
    intro d hd st1
    exact convertDefinition_ne_nilDeref g hInput fuel _ _ _ _ _ _
      (Schema.defines_of_lookup hd) rfl

theorem no_nil_definition_witness :
    convertOperation exampleGen 3 getUserOp noOptions State.empty ≠ .nilDeref ∧
    convertInputType inputGen 2 "GetUsers" (.named "UserFilter" false) noOptions noOptions
      State.empty ≠ .nilDeref :=
  ⟨(no_nil_definition exampleGen 3 (by decide)).1 getUserOp noOptions State.empty (by decide)
      (by decide),
   (no_nil_definition inputGen 2 (by decide)).2 "GetUsers" (.named "UserFilter" false)
      noOptions noOptions State.empty (by decide)⟩

/-- C28 as stated fails for `convertInputType`: the example schema defines its
query root and has no input object, so that every type name referenced by the
type of an input-object field is a key of the type table, and no field is
selected; yet the conversion of an argument of the type `Missing`, which is not
a key of the type table, dereferences the nil definition. -/
theorem no_nil_definition_counterexample :
    exampleGen.schema.Query.isSome = true ∧
    exampleGen.schema.inputFieldsDefined = true ∧
    exampleGen.schema.Types.lookup "Missing" = none ∧
    convertInputType exampleGen 1 "GetUser" (.named "Missing" false) noOptions noOptions
      State.empty = .nilDeref := by
  decide

end Genqlient
